import Mathlib

/-!
# Connection pool of the pgsql extension (`pgsql.cpp`)

A shallow embedding of `PGSQLConnectionPool` and of the calls that act on it, of the
registry `PGSQLConnectionPoolContainer`, of the release of a handle (`PGSQL`), of the
guard `ScopeNonBlocking` and of the notice callback.

* A `PQ::Connection*` is modelled by the index of the allocation that created the
  object.  The pool never deletes a `PQ::Connection` (it only calls `finish()` on it),
  so `new` always yields an address different from every earlier one; the `World`
  counts the allocations made so far.
* `PQ::Connection` itself is declared in a header; what a call observes of a
  connection (`status()`, the boolean conversion, `host()`, ...) is supplied by an
  `Env`, one per call: the status is a field read and does not change while a pool
  call holds the lock, but it may change freely between calls.
* `raise_error` does not return: a call that reaches it ends with the state built so far.
* The counters are C++ `long`s that start at 0 and are only incremented; they are natural
  numbers here.  `int connections = m_connections.size()` is the length of the list.
* The mutex is not modelled: calls are executed one after the other.
-/

namespace HPHP

/-- Address of a `PQ::Connection` object. -/
abbrev Conn := Nat

/-- The status values of the client library (`ConnStatusType`). -/
inductive ConnStatusType
  | CONNECTION_OK
  | CONNECTION_BAD
  | CONNECTION_STARTED
  | CONNECTION_MADE
  | CONNECTION_AWAITING_RESPONSE
  | CONNECTION_AUTH_OK
  | CONNECTION_SETENV
  | CONNECTION_SSL_STARTUP
  | CONNECTION_NEEDED
  deriving DecidableEq, Repr

open ConnStatusType

/-- What one call observes of the outside: the connections and the runtime options. -/
structure Env where
  /-- Value of `conn.status()`. -/
  status : Conn → ConnStatusType
  /-- Value of the boolean conversion of a connection (`conn && ...`). -/
  valid : Conn → Bool
  /-- Value of `conn.host()`. -/
  host : Conn → String
  /-- Value of `conn.port()`. -/
  port : Conn → String
  /-- Value of `conn.user()`. -/
  user : Conn → String
  /-- Value of `conn.db()`. -/
  db : Conn → String
  /-- Value of `RuntimeOption::EnableStats`. -/
  EnableStats : Bool
  /-- Value of `RuntimeOption::EnableSQLStats`. -/
  EnableSQLStats : Bool

/-- The test `conn && st == CONNECTION_OK` of `GetConnection` and `Release`. -/
def Env.isOk (env : Env) (c : Conn) : Bool :=
  env.valid c && decide (env.status c = CONNECTION_OK)

/-- The test `st == CONNECTION_BAD`. -/
def Env.isBad (env : Env) (c : Conn) : Bool :=
  decide (env.status c = CONNECTION_BAD)

/-- The effects of the pool on the outside. -/
structure World where
  /-- Number of `PQ::Connection` objects created with `new` so far. -/
  allocated : Nat
  /-- The connections on which `finish()` was called, oldest call first. -/
  finished : List Conn
  /-- Number of `ServerStats::Log("sql.conn", 1)` calls. -/
  sqlConnLogged : Nat
  deriving DecidableEq, Repr

/-- The fields of `class PGSQLConnectionPool`; the front of the queue is the head of the list. -/
structure PGSQLConnectionPool where
  m_maximumConnections : Int
  m_connectionString : String
  m_cleanedConnectionString : String
  m_availableConnections : List Conn
  m_connections : List Conn
  m_sweepedConnections : Nat
  m_openedConnections : Nat
  m_requestedConnections : Nat
  m_releasedConnections : Nat
  m_errors : Nat
  deriving DecidableEq, Repr

namespace PGSQLConnectionPool

/-- The constructor `PGSQLConnectionPool(connectionString, maximumConnections)`. -/
def mk_pool (connectionString : String) (maximumConnections : Int) : PGSQLConnectionPool :=
  { m_maximumConnections := maximumConnections
    m_connectionString := connectionString
    m_cleanedConnectionString := ""
    m_availableConnections := []
    m_connections := []
    m_sweepedConnections := 0
    m_openedConnections := 0
    m_requestedConnections := 0
    m_releasedConnections := 0
    m_errors := 0 }

/-- The default value of the constructor argument `maximumConnections`. -/
def defaultMaximumConnections : Int := -1

def MaximumConnections (p : PGSQLConnectionPool) : Int := p.m_maximumConnections

def TotalConnectionsCount (p : PGSQLConnectionPool) : Int := (p.m_connections.length : Int)

def FreeConnectionsCount (p : PGSQLConnectionPool) : Int := (p.m_availableConnections.length : Int)

def GetConnectionString (p : PGSQLConnectionPool) : String := p.m_connectionString

def GetCleanedConnectionString (p : PGSQLConnectionPool) : String := p.m_cleanedConnectionString

/-- `SweepConnection`: erase the first occurrence found in `m_connections`, count the sweep. -/
def SweepConnection (connection : Conn) (p : PGSQLConnectionPool) : PGSQLConnectionPool :=
  { p with
    m_connections := p.m_connections.erase connection
    m_sweepedConnections := p.m_sweepedConnections + 1 }

end PGSQLConnectionPool

/-- How `GetConnection` ends: with a reference to a connection, or in `raise_error`. -/
inductive GetResult
  | conn (c : Conn)
  | raise_error (msg : String)
  deriving DecidableEq, Repr

/-- Message of the capacity error. -/
def poolFullMessage : String := "The connection pool is full, cannot open new connection."

/-- Message of the open error. -/
def openFailedMessage : String := "Getting connection from pool failed."

namespace PGSQLConnectionPool

/-- The `while (!m_availableConnections.empty())` loop of `GetConnection`.  The first
argument is the queue that is left; the queue field of the pool is written when the loop
ends.  The result is the connection returned from inside the loop, if any. -/
def GetConnection.popLoop (env : Env) :
    List Conn → PGSQLConnectionPool → World → Option Conn × PGSQLConnectionPool × World
  | [], p, w => (none, { p with m_availableConnections := [] }, w)
  | pconn :: rest, p, w =>
    if env.isOk pconn then
      (some pconn, { p with m_availableConnections := rest }, w)
    else if env.isBad pconn then
      GetConnection.popLoop env rest (SweepConnection pconn p)
        { w with finished := w.finished ++ [pconn] }
    else
      GetConnection.popLoop env rest p w

/-- The cached display string, filled when it is still empty. -/
def GetConnection.cleaned (env : Env) (conn : Conn) (p : PGSQLConnectionPool) :
    PGSQLConnectionPool :=
  if p.m_cleanedConnectionString = "" then
    { p with
      m_cleanedConnectionString :=
        (((((((p.m_cleanedConnectionString ++ "host=") ++ env.host conn) ++ " port=")
          ++ env.port conn) ++ " user=") ++ env.user conn) ++ " dbname=") ++ env.db conn }
  else p

/-- The statement `if (EnableStats && EnableSQLStats) ServerStats::Log("sql.conn", 1)`. -/
def GetConnection.logSqlConn (env : Env) (w : World) : World :=
  if env.EnableStats && env.EnableSQLStats then
    { w with sqlConnLogged := w.sqlConnLogged + 1 }
  else w

/-- The part of `GetConnection` after the loop: statistics, capacity test, `new`. -/
def GetConnection.openPath (env : Env) (p : PGSQLConnectionPool) (w : World) :
    GetResult × PGSQLConnectionPool × World :=
  let w1 : World := GetConnection.logSqlConn env w
  let maxConnections : Int := p.MaximumConnections
  let connections : Int := (p.m_connections.length : Int)
  if maxConnections > 0 ∧ connections < maxConnections then
    (GetResult.raise_error poolFullMessage, p, w1)
  else
    let conn : Conn := w1.allocated
    let w2 : World := { w1 with allocated := w1.allocated + 1 }
    if env.status conn = CONNECTION_OK then
      let p1 : PGSQLConnectionPool :=
        { p with
          m_openedConnections := p.m_openedConnections + 1
          m_connections := p.m_connections ++ [conn] }
      (GetResult.conn conn, GetConnection.cleaned env conn p1, w2)
    else if env.status conn = CONNECTION_BAD then
      (GetResult.raise_error openFailedMessage,
        { p with m_errors := p.m_errors + 1 },
        { w2 with finished := w2.finished ++ [conn] })
    else
      (GetResult.conn conn, GetConnection.cleaned env conn p, w2)

/-- `PGSQLConnectionPool::GetConnection`. -/
def GetConnection (env : Env) (p : PGSQLConnectionPool) (w : World) :
    GetResult × PGSQLConnectionPool × World :=
  let p1 : PGSQLConnectionPool :=
    { p with m_requestedConnections := p.m_requestedConnections + 1 }
  match GetConnection.popLoop env p1.m_availableConnections p1 w with
  | (some conn, p2, w2) => (GetResult.conn conn, p2, w2)
  | (none, p2, w2) => GetConnection.openPath env p2 w2

/-- `PGSQLConnectionPool::Release`. -/
def Release (env : Env) (connection : Conn) (p : PGSQLConnectionPool) (w : World) :
    PGSQLConnectionPool × World :=
  let p1 : PGSQLConnectionPool :=
    { p with m_releasedConnections := p.m_releasedConnections + 1 }
  if env.isOk connection then
    ({ p1 with m_availableConnections := p1.m_availableConnections ++ [connection] }, w)
  else if env.isBad connection then
    (SweepConnection connection p1, { w with finished := w.finished ++ [connection] })
  else
    (p1, w)

/-- `PGSQLConnectionPool::CloseAllConnections`. -/
def CloseAllConnections (p : PGSQLConnectionPool) (w : World) : PGSQLConnectionPool × World :=
  ({ p with m_availableConnections := [], m_connections := [] },
    { w with finished := (w.finished ++ p.m_availableConnections) ++ p.m_connections })

/-- `PGSQLConnectionPool::CloseFreeConnections`. -/
def CloseFreeConnections (p : PGSQLConnectionPool) (w : World) : PGSQLConnectionPool × World :=
  ({ p with m_availableConnections := [] },
    { w with finished := w.finished ++ p.m_availableConnections })

end PGSQLConnectionPool

open PGSQLConnectionPool

/-- The calls that can be made on a pool. -/
inductive PoolCall
  | GetConnection
  | Release (connection : Conn)
  | CloseAllConnections
  | CloseFreeConnections
  deriving DecidableEq, Repr

/-- Run one call on a pool; the first component is the connection handed to the caller. -/
def PoolCall.exec (env : Env) (call : PoolCall) (p : PGSQLConnectionPool) (w : World) :
    Option Conn × PGSQLConnectionPool × World :=
  match call with
  | PoolCall.GetConnection =>
    match PGSQLConnectionPool.GetConnection env p w with
    | (GetResult.conn c, p1, w1) => (some c, p1, w1)
    | (GetResult.raise_error _, p1, w1) => (none, p1, w1)
  | PoolCall.Release c => (none, PGSQLConnectionPool.Release env c p w)
  | PoolCall.CloseAllConnections => (none, PGSQLConnectionPool.CloseAllConnections p w)
  | PoolCall.CloseFreeConnections => (none, PGSQLConnectionPool.CloseFreeConnections p w)

/-- Run a sequence of calls, each with what it observes, on a pool. -/
def execCalls : List (Env × PoolCall) → PGSQLConnectionPool × World →
    PGSQLConnectionPool × World
  | [], s => s
  | (env, call) :: rest, s => execCalls rest (PoolCall.exec env call s.1 s.2).2

/-- A pool and its world, together with the connections that `GetConnection` returned
and that were not released since (the connections held by handles). -/
structure PoolState where
  pool : PGSQLConnectionPool
  world : World
  checkedOut : List Conn
  deriving DecidableEq, Repr

/-- A freshly constructed pool: nothing owned, nothing idle, nothing checked out. -/
def PoolState.init (connectionString : String) (maximumConnections : Int) (w : World) :
    PoolState :=
  { pool := mk_pool connectionString maximumConnections, world := w, checkedOut := [] }

/-- One call by a client.  `Release` is only made for a connection that is checked out,
and gives it up; the result is `none` when a client releases a connection it does not hold. -/
def PoolState.step (env : Env) (call : PoolCall) (s : PoolState) : Option PoolState :=
  match call with
  | PoolCall.Release c =>
    if c ∈ s.checkedOut then
      let r := PoolCall.exec env (PoolCall.Release c) s.pool s.world
      some { pool := r.2.1, world := r.2.2, checkedOut := s.checkedOut.erase c }
    else none
  | call =>
    let r := PoolCall.exec env call s.pool s.world
    match r.1 with
    | some c => some { pool := r.2.1, world := r.2.2, checkedOut := s.checkedOut ++ [c] }
    | none => some { pool := r.2.1, world := r.2.2, checkedOut := s.checkedOut }

/-- A sequence of client calls. -/
def PoolState.run : List (Env × PoolCall) → PoolState → Option PoolState
  | [], s => some s
  | (env, call) :: rest, s =>
    match PoolState.step env call s with
    | some s1 => PoolState.run rest s1
    | none => none

/-- The call is `GetConnection` or `Release`. -/
def PoolCall.isGetOrRelease : PoolCall → Bool
  | PoolCall.GetConnection => true
  | PoolCall.Release _ => true
  | _ => false

/-- Every connection reports `CONNECTION_BAD` or passes the test
`conn && st == CONNECTION_OK`. -/
def Env.OkOrBad (env : Env) : Prop :=
  ∀ c, env.status c = CONNECTION_BAD ∨ (env.valid c = true ∧ env.status c = CONNECTION_OK)

/-- An environment in which every connection reports the same status. -/
def Env.const (st : ConnStatusType) (valid : Bool) : Env :=
  { status := fun _ => st
    valid := fun _ => valid
    host := fun _ => "h"
    port := fun _ => "5432"
    user := fun _ => "u"
    db := fun _ => "d"
    EnableStats := false
    EnableSQLStats := false }

/-- A world in which nothing has happened yet. -/
def World.empty : World := { allocated := 0, finished := [], sqlConnLogged := 0 }

/-- An environment in which the connections report the given statuses and their boolean
conversion is true. -/
def Env.withStatus (f : Conn → ConnStatusType) : Env :=
  { status := f
    valid := fun _ => true
    host := fun _ => "h"
    port := fun _ => "5432"
    user := fun _ => "u"
    db := fun _ => "d"
    EnableStats := false
    EnableSQLStats := false }

/-- The connections handed to the caller by a call: one or none. -/
def GetResult.handedOut : GetResult → List Conn
  | GetResult.conn c => [c]
  | GetResult.raise_error _ => []

/-- The predicate of the capacity test of the source, `maxConnections > 0 &&
connections < maxConnections`. -/
def GetConnection.raisesFull (p : PGSQLConnectionPool) : Prop :=
  p.m_maximumConnections > 0 ∧ (p.m_connections.length : Int) < p.m_maximumConnections

/-- The counting invariant in its strong form: the owned set is a rearrangement of the
idle queue followed by the checked-out connections. -/
def PoolState.Counted (s : PoolState) : Prop :=
  List.Perm s.pool.m_connections (s.pool.m_availableConnections ++ s.checkedOut)

/-- No connection is twice among the idle and the checked-out connections, none is twice
in the owned set, and all of them were allocated before. -/
def PoolState.WellFormed (s : PoolState) : Prop :=
  (s.pool.m_availableConnections ++ s.checkedOut).Nodup ∧
  s.pool.m_connections.Nodup ∧
  (∀ c ∈ s.pool.m_availableConnections ++ s.checkedOut, c < s.world.allocated) ∧
  (∀ c ∈ s.pool.m_connections, c < s.world.allocated)

/-- The status is neither `CONNECTION_OK` nor `CONNECTION_BAD`. -/
def ConnStatusType.isTransitional (st : ConnStatusType) : Bool :=
  decide (st ≠ CONNECTION_OK) && decide (st ≠ CONNECTION_BAD)

/-- What the sessions may report to a call made in state `s`: the session that the call
would open reports `CONNECTION_OK` or `CONNECTION_BAD`, and no session that was closed
with `finish()` passes the health test. -/
def PoolState.Plausible (env : Env) (s : PoolState) : Prop :=
  (env.status s.world.allocated = CONNECTION_OK ∨
    env.status s.world.allocated = CONNECTION_BAD) ∧
  ∀ c ∈ s.world.finished, env.isOk c = false

/-- Every call of the sequence observes plausible sessions in the state it is made in. -/
def PoolState.PlausibleRun : List (Env × PoolCall) → PoolState → Prop
  | [], _ => True
  | (env, call) :: rest, s =>
    PoolState.Plausible env s ∧
    match PoolState.step env call s with
    | some s1 => PoolState.PlausibleRun rest s1
    | none => True

/-- The idle queue is part of the owned set, and a checked-out connection is owned unless
it was closed. -/
def PoolState.IdleOwned (s : PoolState) : Prop :=
  (∀ c ∈ s.pool.m_availableConnections, c ∈ s.pool.m_connections) ∧
  (∀ c ∈ s.checkedOut, c ∈ s.pool.m_connections ∨ c ∈ s.world.finished)

/-- No owned connection was closed, and every closed connection was allocated before. -/
def PoolState.OwnedOpen (s : PoolState) : Prop :=
  (∀ c ∈ s.pool.m_connections, c ∉ s.world.finished) ∧
  (∀ c ∈ s.world.finished, c < s.world.allocated)

/-! ## Handles -/

/-- The pool objects created with `new PGSQLConnectionPool`, by address (index of the
allocation).  Pools are never deleted. -/
abbrev PoolHeap := List PGSQLConnectionPool

/-- The fields of `class PGSQL`; `none` is the null pointer. -/
structure PGSQL where
  m_conn : Option Conn
  m_connectionPool : Option Nat
  m_conn_string : String
  m_db : String
  m_user : String
  m_pass : String
  m_host : String
  m_port : String
  m_options : String
  m_last_notice : String
  deriving DecidableEq, Repr

namespace PGSQL

def IsConnectionPooled (h : PGSQL) : Bool := h.m_connectionPool.isSome

/-- `PGSQL::ReleaseConnection`.  A pool pointer always refers to a pool of the heap; the
last case of the inner match (no such pool) only makes the function total. -/
def ReleaseConnection (env : Env) (h : PGSQL) (heap : PoolHeap) (w : World) :
    PGSQL × PoolHeap × World :=
  match h.m_conn with
  | none => (h, heap, w)
  | some conn =>
    match h.m_connectionPool with
    | none => (h, heap, { w with finished := w.finished ++ [conn] })
    | some pool =>
      match heap[pool]? with
      | some p =>
        ({ h with m_connectionPool := none, m_conn := none },
          heap.set pool (PGSQLConnectionPool.Release env conn p w).1,
          (PGSQLConnectionPool.Release env conn p w).2)
      | none => ({ h with m_connectionPool := none, m_conn := none }, heap, w)

end PGSQL

/-- A sample handle as `pg_connect` makes it on connection `conn`: no pool. -/
def PGSQL.standalone (conn : Conn) (conninfo : String) : PGSQL :=
  { m_conn := some conn
    m_connectionPool := none
    m_conn_string := conninfo
    m_db := "d"
    m_user := "u"
    m_pass := ""
    m_host := "h"
    m_port := "5432"
    m_options := ""
    m_last_notice := "" }

/-- A sample handle as `pg_pconnect` makes it on connection `conn` of the pool at address
`pool`. -/
def PGSQL.pooled (conn : Conn) (pool : Nat) (conninfo : String) : PGSQL :=
  { PGSQL.standalone conn conninfo with m_connectionPool := some pool }

/-! ## The non-blocking guard -/

/-- Modelled from the spec: the non-blocking mode of each connection, with "a
non-blocking-mode toggle and accessor" (`PQ::Connection::setNonBlocking` and
`isNonBlocking`, declared in a header).  `true` is non-blocking. -/
abbrev NonBlockingModes := Conn → Bool

/-- Modelled from the spec: the accessor `conn.isNonBlocking()`. -/
def isNonBlocking (modes : NonBlockingModes) (conn : Conn) : Bool := modes conn

/-- Modelled from the spec: the toggle `conn.setNonBlocking(mode)`. -/
def setNonBlocking (modes : NonBlockingModes) (conn : Conn) (mode : Bool) :
    NonBlockingModes :=
  fun c => if c = conn then mode else modes c

/-- The fields of `struct ScopeNonBlocking`. -/
structure ScopeNonBlocking where
  m_conn : Conn
  m_mode : Bool
  deriving DecidableEq, Repr

/-- The constructor `ScopeNonBlocking(conn, mode)`: it stores its arguments. -/
def ScopeNonBlocking.create (conn : Conn) (mode : Bool) (modes : NonBlockingModes) :
    ScopeNonBlocking × NonBlockingModes :=
  ({ m_conn := conn, m_mode := mode }, modes)

/-- The destructor `~ScopeNonBlocking()`. -/
def ScopeNonBlocking.destroy (g : ScopeNonBlocking) (modes : NonBlockingModes) :
    NonBlockingModes :=
  setNonBlocking modes g.m_conn g.m_mode

/-- `PGSQL::asNonBlocking`; there is no result for a handle without connection (the
source dereferences `m_conn`). -/
def PGSQL.asNonBlocking (h : PGSQL) (modes : NonBlockingModes) :
    Option (ScopeNonBlocking × NonBlockingModes) :=
  match h.m_conn with
  | none => none
  | some conn =>
    let mode := isNonBlocking modes conn
    some (ScopeNonBlocking.create conn mode modes)

/-- The scope of `pg_connection_busy` for a handle that was found: the guard is made,
`consumeInput` and `isBusy` run, the guard is destroyed.  The result is the mode that the
two operations observe on the connection, and the modes when the function has returned. -/
def pg_connection_busy_modes (h : PGSQL) (modes : NonBlockingModes) :
    Option (Bool × NonBlockingModes) :=
  match h.asNonBlocking modes with
  | none => none
  | some (blocking, modes1) =>
    some (isNonBlocking modes1 blocking.m_conn, blocking.destroy modes1)

/-! ## The registry of pools -/

/-- The type `std::map<std::string, PGSQLConnectionPool*>`: the entries in increasing key
order.  A value is the address of a pool; `none` is the null pointer. -/
abbrev PoolMap := List (String × Option Nat)

/-- The entry of key `k`, if there is one. -/
def PoolMap.find (k : String) : PoolMap → Option (Option Nat)
  | [] => none
  | (k1, v1) :: rest => if k1 = k then some v1 else PoolMap.find k rest

/-- A new entry is put at its place in the key order, the lexicographic order of the
characters (the order `<` of strings). -/
def PoolMap.insert (k : String) (v : Option Nat) : PoolMap → PoolMap
  | [] => [(k, v)]
  | (k1, v1) :: rest =>
    if k.data < k1.data then (k, v) :: (k1, v1) :: rest
    else (k1, v1) :: PoolMap.insert k v rest

/-- The effect of `m[k]` on the map: an entry with a null pointer is made when the key
is not there. -/
def PoolMap.subscript (k : String) (m : PoolMap) : PoolMap :=
  match PoolMap.find k m with
  | some _ => m
  | none => PoolMap.insert k none m

/-- The value of the entry of key `k` is overwritten. -/
def PoolMap.replace (k : String) (v : Option Nat) : PoolMap → PoolMap
  | [] => []
  | (k1, v1) :: rest =>
    if k1 = k then (k1, v) :: rest else (k1, v1) :: PoolMap.replace k v rest

/-- The field of `class PGSQLConnectionPoolContainer`. -/
structure PGSQLConnectionPoolContainer where
  m_pools : PoolMap
  deriving DecidableEq, Repr

namespace PGSQLConnectionPoolContainer

/-- The constructor: `m_pools()`. -/
def create : PGSQLConnectionPoolContainer := { m_pools := [] }

/-- `PGSQLConnectionPoolContainer::GetPool`; the result is the address of the pool. -/
def GetPool (connString : String) (c : PGSQLConnectionPoolContainer) (heap : PoolHeap) :
    Nat × PGSQLConnectionPoolContainer × PoolHeap :=
  let m1 := PoolMap.subscript connString c.m_pools
  match (PoolMap.find connString m1).join with
  | some pool => (pool, { m_pools := m1 }, heap)
  | none =>
    let pool := heap.length
    (pool,
      { m_pools := PoolMap.replace connString (some pool) (PoolMap.subscript connString m1) },
      heap ++ [mk_pool connString defaultMaximumConnections])

/-- `PGSQLConnectionPoolContainer::GetPools`. -/
def GetPools (c : PGSQLConnectionPoolContainer) : List (Option Nat) :=
  c.m_pools.map Prod.snd

end PGSQLConnectionPoolContainer

/-- A sequence of `GetPool` calls; the result pairs each descriptor with the address that
the call returned. -/
def GetPoolCalls : List String → PGSQLConnectionPoolContainer × PoolHeap →
    List (String × Nat) × PGSQLConnectionPoolContainer × PoolHeap
  | [], s => ([], s)
  | k :: rest, s =>
    ((k, (PGSQLConnectionPoolContainer.GetPool k s.1 s.2).1) ::
        (GetPoolCalls rest (PGSQLConnectionPoolContainer.GetPool k s.1 s.2).2).1,
      (GetPoolCalls rest (PGSQLConnectionPoolContainer.GetPool k s.1 s.2).2).2)

/-- The keys of the registry are distinct, and its values are the addresses of the pools
of the heap, each once. -/
def RegistryWF (c : PGSQLConnectionPoolContainer) (heap : PoolHeap) : Prop :=
  (c.m_pools.map Prod.fst).Nodup ∧
  List.Perm (c.m_pools.map Prod.snd) ((List.range heap.length).map some)

/-! ## Notices -/

/-- The static members `PGSQL::IgnoreNotice` and `PGSQL::LogNotice`. -/
structure NoticeConfig where
  IgnoreNotice : Bool
  LogNotice : Bool
  deriving DecidableEq, Repr

/-- The initial values `IgnoreNotice = false` and `LogNotice = false`, which `moduleLoad`
keeps when the configuration does not set them. -/
def NoticeConfig.initial : NoticeConfig := { IgnoreNotice := false, LogNotice := false }

/-- The handles (`PGSQL` objects), by address. -/
abbrev HandleHeap := List PGSQL

/-- Modelled from the spec: the "notice-callback registration hook" of a connection
(`PQ::Connection::setNoticeProcessor`, declared in a header).  For each connection: `none`
when nothing was registered, otherwise the argument registered together with
`notice_processor`, which is the address of a handle or the null pointer. -/
abbrev NoticeProcessors := Conn → Option (Option Nat)

/-- Modelled from the spec: `conn.setNoticeProcessor(notice_processor, arg)`. -/
def setNoticeProcessor (regs : NoticeProcessors) (conn : Conn) (arg : Option Nat) :
    NoticeProcessors :=
  fun c => if c = conn then some arg else regs c

/-- The function `notice_processor`; the second list is the log of `raise_notice` calls. -/
def notice_processor (cfg : NoticeConfig) (pgsql : Option Nat) (message : String)
    (handles : HandleHeap) (log : List String) : HandleHeap × List String :=
  match pgsql with
  | none => (handles, log)
  | some a =>
    match handles[a]? with
    | none => (handles, log)
    | some h =>
      let handles1 := handles.set a { h with m_last_notice := message }
      if cfg.LogNotice then (handles1, log ++ [message]) else (handles1, log)

/-- `PGSQL::SetupInformation` for the handle at address `this`; `pass` and `options` are
the values of `conn.pass()` and `conn.options()`. -/
def PGSQL.SetupInformation (cfg : NoticeConfig) (env : Env) (pass options : Conn → String)
    (this : Nat) (handles : HandleHeap) (regs : NoticeProcessors) :
    HandleHeap × NoticeProcessors :=
  match handles[this]? with
  | none => (handles, regs)
  | some h =>
    match h.m_conn with
    | none => (handles, regs)
    | some conn =>
      let h1 : PGSQL :=
        { h with
          m_db := env.db conn
          m_user := env.user conn
          m_pass := pass conn
          m_host := env.host conn
          m_port := env.port conn
          m_options := options conn }
      if !cfg.IgnoreNotice then
        (handles.set this h1, setNoticeProcessor regs conn (some this))
      else
        (handles.set this h1, setNoticeProcessor regs conn none)

/-- Modelled from the spec: a server notice on connection `conn` is delivered to the
callback registered for that connection. -/
def deliverNotice (cfg : NoticeConfig) (regs : NoticeProcessors) (conn : Conn)
    (message : String) (handles : HandleHeap) (log : List String) :
    HandleHeap × List String :=
  match regs conn with
  | none => (handles, log)
  | some arg => notice_processor cfg arg message handles log

/-- Several notices on connection `conn`, one after the other. -/
def deliverNotices (cfg : NoticeConfig) (regs : NoticeProcessors) (conn : Conn) :
    List String → HandleHeap × List String → HandleHeap × List String
  | [], s => s
  | message :: rest, s =>
    deliverNotices cfg regs conn rest (deliverNotice cfg regs conn message s.1 s.2)

/-- `pg_last_notice` for the handle at address `a`. -/
def pg_last_notice (handles : HandleHeap) (a : Nat) : Option String :=
  (handles[a]?).map (fun h => h.m_last_notice)

/-! ## Calls on the pools of the registry -/

/-- What a client of the registry can do: look a pool up, or make a call on the pool at
an address. -/
inductive RegistryOp
  | GetPool (connString : String)
  | onPool (pool : Nat) (env : Env) (call : PoolCall)

/-- The registry, the pools it has created, and the world. -/
structure RegistryState where
  container : PGSQLConnectionPoolContainer
  heap : PoolHeap
  world : World

/-- The state at process start. -/
def RegistryState.init (w : World) : RegistryState :=
  { container := PGSQLConnectionPoolContainer.create, heap := [], world := w }

/-- One operation on the registry or on one of its pools. -/
def RegistryOp.exec (op : RegistryOp) (s : RegistryState) : RegistryState :=
  match op with
  | RegistryOp.GetPool k =>
    { s with
      container := (PGSQLConnectionPoolContainer.GetPool k s.container s.heap).2.1
      heap := (PGSQLConnectionPoolContainer.GetPool k s.container s.heap).2.2 }
  | RegistryOp.onPool pool env call =>
    match s.heap[pool]? with
    | none => s
    | some p =>
      { s with
        heap := s.heap.set pool (PoolCall.exec env call p s.world).2.1
        world := (PoolCall.exec env call p s.world).2.2 }

/-- A sequence of operations. -/
def RegistryState.run : List RegistryOp → RegistryState → RegistryState
  | [], s => s
  | op :: rest, s => RegistryState.run rest (RegistryOp.exec op s)

/-! ## Counting calls -/

def PoolCall.isGetConnection : PoolCall → Bool
  | PoolCall.GetConnection => true
  | _ => false

def PoolCall.isRelease : PoolCall → Bool
  | PoolCall.Release _ => true
  | _ => false

/-- Number of `GetConnection` calls in a sequence. -/
def countGetConnection (tr : List (Env × PoolCall)) : Nat :=
  tr.countP (fun x => x.2.isGetConnection)

/-- Number of `Release` calls in a sequence. -/
def countRelease (tr : List (Env × PoolCall)) : Nat :=
  tr.countP (fun x => x.2.isRelease)

/-- The counters agree with the owned set and with the connections held by clients. -/
def PoolState.Conserved (s : PoolState) : Prop :=
  s.pool.m_openedConnections = s.pool.m_connections.length + s.pool.m_sweepedConnections ∧
  s.pool.m_releasedConnections + s.checkedOut.length ≤ s.pool.m_requestedConnections

/-! ## Basic facts -/

theorem Env.isOk_iff (env : Env) (c : Conn) :
    env.isOk c = true ↔ env.valid c = true ∧ env.status c = CONNECTION_OK := by
  simp [Env.isOk]

theorem Env.isBad_iff (env : Env) (c : Conn) :
    env.isBad c = true ↔ env.status c = CONNECTION_BAD := by
  simp [Env.isBad]

theorem Env.isBad_of_isOk (env : Env) (c : Conn) (h : env.isOk c = true) :
    env.isBad c = false := by
  simp [Env.isOk] at h
  simp [Env.isBad, h.2]

/-! ## The loop over the idle queue -/

/-- The loop splits the queue into the connections it dropped, the one it returned
(if any) and the queue it leaves; it returns a connection only when the connection passed
the health test, and it leaves the queue empty when it returns none. -/
theorem GetConnection.popLoop_split (env : Env) :
    ∀ (q : List Conn) (p : PGSQLConnectionPool) (w : World) (r : Option Conn)
      (p1 : PGSQLConnectionPool) (w1 : World),
      GetConnection.popLoop env q p w = (r, p1, w1) →
      ∃ pre, q = pre ++ (r.toList ++ p1.m_availableConnections) ∧
        (∀ c ∈ pre, env.isOk c = false) ∧
        (∀ c, r = some c → env.isOk c = true) ∧
        (r = none → p1.m_availableConnections = []) := by
  intro q
  induction q with
  | nil =>
    intro p w r p1 w1 h
    simp only [GetConnection.popLoop, Prod.mk.injEq] at h
    obtain ⟨h1, h2, _⟩ := h
    subst h1
    subst h2
    exact ⟨[], by simp⟩
  | cons c rest ih =>
    intro p w r p1 w1 h
    simp only [GetConnection.popLoop] at h
    by_cases hok : env.isOk c = true
    · simp only [hok, if_true, Prod.mk.injEq] at h
      obtain ⟨h1, h2, _⟩ := h
      subst h1
      subst h2
      exact ⟨[], by simp [hok]⟩
    · have hok2 : env.isOk c = false := by simpa using hok
      simp only [hok2] at h
      by_cases hbad : env.isBad c = true
      · simp only [hbad, if_true] at h
        obtain ⟨pre, e, a, b, d⟩ := ih _ _ _ _ _ h
        refine ⟨c :: pre, by simp [e], ?_, b, d⟩
        intro x hx
        rcases List.mem_cons.1 hx with hx | hx
        · subst hx; exact hok2
        · exact a x hx
      · have hbad2 : env.isBad c = false := by simpa using hbad
        simp only [hbad2] at h
        obtain ⟨pre, e, a, b, d⟩ := ih _ _ _ _ _ h
        refine ⟨c :: pre, by simp [e], ?_, b, d⟩
        intro x hx
        rcases List.mem_cons.1 hx with hx | hx
        · subst hx; exact hok2
        · exact a x hx

/-- What the loop leaves alone: everything but the queue, the owned set, the sweep counter
and the log of closed connections; the owned set can only lose members. -/
theorem GetConnection.popLoop_frame (env : Env) :
    ∀ (q : List Conn) (p : PGSQLConnectionPool) (w : World) (r : Option Conn)
      (p1 : PGSQLConnectionPool) (w1 : World),
      GetConnection.popLoop env q p w = (r, p1, w1) →
      p1.m_maximumConnections = p.m_maximumConnections ∧
      p1.m_connectionString = p.m_connectionString ∧
      p1.m_cleanedConnectionString = p.m_cleanedConnectionString ∧
      p1.m_openedConnections = p.m_openedConnections ∧
      p1.m_requestedConnections = p.m_requestedConnections ∧
      p1.m_releasedConnections = p.m_releasedConnections ∧
      p1.m_errors = p.m_errors ∧
      w1.allocated = w.allocated ∧
      w1.sqlConnLogged = w.sqlConnLogged ∧
      List.Sublist p1.m_connections p.m_connections := by
  intro q
  induction q with
  | nil =>
    intro p w r p1 w1 h
    simp only [GetConnection.popLoop, Prod.mk.injEq] at h
    obtain ⟨_, h2, h3⟩ := h
    subst h2
    subst h3
    simp
  | cons c rest ih =>
    intro p w r p1 w1 h
    simp only [GetConnection.popLoop] at h
    by_cases hok : env.isOk c = true
    · simp only [hok, if_true, Prod.mk.injEq] at h
      obtain ⟨_, h2, h3⟩ := h
      subst h2
      subst h3
      simp
    · have hok2 : env.isOk c = false := by simpa using hok
      simp only [hok2] at h
      by_cases hbad : env.isBad c = true
      · simp only [hbad, if_true] at h
        have := ih _ _ _ _ _ h
        simp only [SweepConnection] at this
        obtain ⟨a1, a2, a3, a4, a5, a6, a7, a8, a9, a10⟩ := this
        exact ⟨a1, a2, a3, a4, a5, a6, a7, a8, a9,
          a10.trans (List.erase_sublist c p.m_connections)⟩
      · have hbad2 : env.isBad c = false := by simpa using hbad
        simp only [hbad2] at h
        exact ih _ _ _ _ _ h

/-- When every connection reports healthy or `CONNECTION_BAD`, the loop keeps the owned
set a rearrangement of what is idle, returned or held by clients. -/
theorem GetConnection.popLoop_perm (env : Env) (henv : env.OkOrBad) (co : List Conn) :
    ∀ (q : List Conn) (p : PGSQLConnectionPool) (w : World) (r : Option Conn)
      (p1 : PGSQLConnectionPool) (w1 : World),
      GetConnection.popLoop env q p w = (r, p1, w1) →
      List.Perm p.m_connections (q ++ co) →
      List.Perm p1.m_connections (r.toList ++ (p1.m_availableConnections ++ co)) := by
  intro q
  induction q with
  | nil =>
    intro p w r p1 w1 h hp
    simp only [GetConnection.popLoop, Prod.mk.injEq] at h
    obtain ⟨h1, h2, _⟩ := h
    subst h1
    subst h2
    simpa using hp
  | cons c rest ih =>
    intro p w r p1 w1 h hp
    simp only [GetConnection.popLoop] at h
    by_cases hok : env.isOk c = true
    · simp only [hok, if_true, Prod.mk.injEq] at h
      obtain ⟨h1, h2, _⟩ := h
      subst h1
      subst h2
      simpa using hp
    · have hok2 : env.isOk c = false := by simpa using hok
      have hbad : env.isBad c = true := by
        rcases henv c with hb | hb
        · exact (Env.isBad_iff env c).2 hb
        · exact absurd ((Env.isOk_iff env c).2 hb) hok
      simp only [hok2, hbad, if_true] at h
      refine ih _ _ _ _ _ h ?_
      have := List.Perm.erase c hp
      simpa [SweepConnection] using this

/-! ## The display string -/

theorem GetConnection.cleaned_frame (env : Env) (c : Conn) (p : PGSQLConnectionPool) :
    (GetConnection.cleaned env c p).m_maximumConnections = p.m_maximumConnections ∧
    (GetConnection.cleaned env c p).m_connectionString = p.m_connectionString ∧
    (GetConnection.cleaned env c p).m_availableConnections = p.m_availableConnections ∧
    (GetConnection.cleaned env c p).m_connections = p.m_connections ∧
    (GetConnection.cleaned env c p).m_sweepedConnections = p.m_sweepedConnections ∧
    (GetConnection.cleaned env c p).m_openedConnections = p.m_openedConnections ∧
    (GetConnection.cleaned env c p).m_requestedConnections = p.m_requestedConnections ∧
    (GetConnection.cleaned env c p).m_releasedConnections = p.m_releasedConnections ∧
    (GetConnection.cleaned env c p).m_errors = p.m_errors := by
  unfold GetConnection.cleaned
  split <;> simp

/-! ## The cases of `GetConnection` -/

theorem GetConnection.logSqlConn_allocated (env : Env) (w : World) :
    (GetConnection.logSqlConn env w).allocated = w.allocated := by
  unfold GetConnection.logSqlConn
  split <;> rfl

theorem GetConnection.logSqlConn_finished (env : Env) (w : World) :
    (GetConnection.logSqlConn env w).finished = w.finished := by
  unfold GetConnection.logSqlConn
  split <;> rfl

/-- The four ways through the part of `GetConnection` after the loop. -/
theorem GetConnection.openPath_cases (env : Env) (p : PGSQLConnectionPool) (w : World) :
    (GetConnection.raisesFull p ∧
      GetConnection.openPath env p w
        = (GetResult.raise_error poolFullMessage, p, GetConnection.logSqlConn env w)) ∨
    (¬ GetConnection.raisesFull p ∧ env.status w.allocated = CONNECTION_OK ∧
      GetConnection.openPath env p w
        = (GetResult.conn w.allocated,
            GetConnection.cleaned env w.allocated
              { p with
                m_openedConnections := p.m_openedConnections + 1
                m_connections := p.m_connections ++ [w.allocated] },
            { GetConnection.logSqlConn env w with allocated := w.allocated + 1 })) ∨
    (¬ GetConnection.raisesFull p ∧ env.status w.allocated = CONNECTION_BAD ∧
      GetConnection.openPath env p w
        = (GetResult.raise_error openFailedMessage,
            { p with m_errors := p.m_errors + 1 },
            { GetConnection.logSqlConn env w with
              allocated := w.allocated + 1
              finished := w.finished ++ [w.allocated] })) ∨
    (¬ GetConnection.raisesFull p ∧ env.status w.allocated ≠ CONNECTION_OK ∧
      env.status w.allocated ≠ CONNECTION_BAD ∧
      GetConnection.openPath env p w
        = (GetResult.conn w.allocated, GetConnection.cleaned env w.allocated p,
            { GetConnection.logSqlConn env w with allocated := w.allocated + 1 })) := by
  by_cases hfull : GetConnection.raisesFull p
  · left
    refine ⟨hfull, ?_⟩
    unfold GetConnection.raisesFull at hfull
    simp [GetConnection.openPath, MaximumConnections, hfull]
  · right
    have hfull2 := hfull
    unfold GetConnection.raisesFull at hfull2
    by_cases hok : env.status w.allocated = CONNECTION_OK
    · left
      refine ⟨hfull, hok, ?_⟩
      simp only [GetConnection.openPath, MaximumConnections, if_neg hfull2,
        GetConnection.logSqlConn_allocated, hok, if_true]
    · right
      by_cases hbad : env.status w.allocated = CONNECTION_BAD
      · left
        refine ⟨hfull, hbad, ?_⟩
        simp [GetConnection.openPath, MaximumConnections, if_neg hfull2,
          GetConnection.logSqlConn_allocated, GetConnection.logSqlConn_finished, hbad]
      · right
        refine ⟨hfull, hok, hbad, ?_⟩
        simp only [GetConnection.openPath, MaximumConnections, if_neg hfull2,
          GetConnection.logSqlConn_allocated, hok, hbad, if_false]

/-- The two ways through `GetConnection`: the loop returns a connection, or the loop
ends with an empty queue and the rest of the function runs. -/
theorem GetConnection_cases (env : Env) (p : PGSQLConnectionPool) (w : World) :
    (∃ c p2 w2,
      GetConnection.popLoop env p.m_availableConnections
        { p with m_requestedConnections := p.m_requestedConnections + 1 } w
          = (some c, p2, w2) ∧
      GetConnection env p w = (GetResult.conn c, p2, w2)) ∨
    (∃ p2 w2,
      GetConnection.popLoop env p.m_availableConnections
        { p with m_requestedConnections := p.m_requestedConnections + 1 } w
          = (none, p2, w2) ∧
      GetConnection env p w = GetConnection.openPath env p2 w2) := by
  cases hl : GetConnection.popLoop env p.m_availableConnections
        { p with m_requestedConnections := p.m_requestedConnections + 1 } w with
  | mk r rest =>
    obtain ⟨p2, w2⟩ := rest
    cases r with
    | some c =>
      left
      refine ⟨c, p2, w2, rfl, ?_⟩
      simp only [GetConnection]
      rw [hl]
    | none =>
      right
      refine ⟨p2, w2, rfl, ?_⟩
      simp only [GetConnection]
      rw [hl]

/-! ## The counting invariant, for connections that report healthy or bad -/

/-- `GetConnection` keeps the owned set a rearrangement of idle plus checked out. -/
theorem GetConnection_perm (env : Env) (henv : env.OkOrBad) (co : List Conn)
    (p : PGSQLConnectionPool) (w : World)
    (hp : List.Perm p.m_connections (p.m_availableConnections ++ co)) :
    List.Perm (GetConnection env p w).2.1.m_connections
      ((GetConnection env p w).2.1.m_availableConnections ++
        (co ++ (GetConnection env p w).1.handedOut)) := by
  rcases GetConnection_cases env p w with ⟨c, p2, w2, hl, hg⟩ | ⟨p2, w2, hl, hg⟩
  · have hperm := GetConnection.popLoop_perm env henv co _ _ _ _ _ _ hl hp
    rw [hg]
    simp only [GetResult.handedOut]
    simp only [Option.toList, List.singleton_append] at hperm
    refine hperm.trans ?_
    rw [← List.append_assoc]
    exact (List.perm_append_singleton c _).symm
  · have hperm := GetConnection.popLoop_perm env henv co _ _ _ _ _ _ hl hp
    obtain ⟨pre, _, _, _, hnone⟩ := GetConnection.popLoop_split env _ _ _ _ _ _ hl
    have hav := hnone rfl
    simp only [Option.toList, List.nil_append, hav] at hperm
    rw [hg]
    rcases GetConnection.openPath_cases env p2 w2 with
      ⟨_, ho⟩ | ⟨_, _, ho⟩ | ⟨_, _, ho⟩ | ⟨_, hnok, hnbad, _⟩
    · rw [ho]
      simpa [GetResult.handedOut, hav] using hperm
    · rw [ho]
      simp only [GetResult.handedOut, (GetConnection.cleaned_frame env _ _).2.2.2.1,
        (GetConnection.cleaned_frame env _ _).2.2.1, hav, List.nil_append]
      exact List.Perm.append_right _ hperm
    · rw [ho]
      simpa [GetResult.handedOut, hav] using hperm
    · exfalso
      rcases henv w2.allocated with hb | hb
      · exact hnbad hb
      · exact hnok hb.2

/-- `Release` of a connection that is checked out keeps the owned set a rearrangement of
idle plus checked out. -/
theorem Release_perm (env : Env) (henv : env.OkOrBad) (co : List Conn) (c : Conn)
    (p : PGSQLConnectionPool) (w : World) (hc : c ∈ co)
    (hp : List.Perm p.m_connections (p.m_availableConnections ++ co)) :
    List.Perm (Release env c p w).1.m_connections
      ((Release env c p w).1.m_availableConnections ++ co.erase c) := by
  have hco : List.Perm co (c :: co.erase c) := List.perm_cons_erase hc
  have hp2 : List.Perm p.m_connections (c :: (p.m_availableConnections ++ co.erase c)) :=
    hp.trans ((List.Perm.append_left _ hco).trans List.perm_middle)
  unfold Release
  by_cases hok : env.isOk c = true
  · simp only [hok, if_true]
    have hmid : List.Perm (p.m_availableConnections ++ c :: co.erase c)
        (c :: (p.m_availableConnections ++ co.erase c)) := List.perm_middle
    simpa using hp2.trans hmid.symm
  · have hok2 : env.isOk c = false := by simpa using hok
    have hbad : env.isBad c = true := by
      rcases henv c with hb | hb
      · exact (Env.isBad_iff env c).2 hb
      · exact absurd ((Env.isOk_iff env c).2 hb) hok
    simp only [hok2, hbad, if_true, SweepConnection]
    have := List.Perm.erase c hp2
    simpa using this

theorem PoolState.step_counted (env : Env) (henv : env.OkOrBad) (call : PoolCall)
    (hcall : call.isGetOrRelease = true) (s s1 : PoolState)
    (hstep : PoolState.step env call s = some s1) (hs : s.Counted) : s1.Counted := by
  cases call with
  | GetConnection =>
    have key := GetConnection_perm env henv s.checkedOut s.pool s.world hs
    simp only [PoolState.step, PoolCall.exec] at hstep
    generalize hg : GetConnection env s.pool s.world = g at hstep key
    obtain ⟨r, p1, w1⟩ := g
    cases r with
    | conn c =>
      simp only [Option.some.injEq] at hstep
      subst hstep
      simpa [PoolState.Counted, GetResult.handedOut] using key
    | raise_error msg =>
      simp only [Option.some.injEq] at hstep
      subst hstep
      simpa [PoolState.Counted, GetResult.handedOut] using key
  | Release c =>
    simp only [PoolState.step, PoolCall.exec] at hstep
    by_cases hc : c ∈ s.checkedOut
    · simp only [hc, if_true, Option.some.injEq] at hstep
      subst hstep
      exact Release_perm env henv s.checkedOut c s.pool s.world hc hs
    · simp [hc] at hstep
  | CloseAllConnections => simp [PoolCall.isGetOrRelease] at hcall
  | CloseFreeConnections => simp [PoolCall.isGetOrRelease] at hcall

theorem PoolState.run_counted :
    ∀ (tr : List (Env × PoolCall)) (s s1 : PoolState),
      (∀ x ∈ tr, x.1.OkOrBad ∧ x.2.isGetOrRelease = true) →
      PoolState.run tr s = some s1 → s.Counted → s1.Counted := by
  intro tr
  induction tr with
  | nil =>
    intro s s1 _ hrun hs
    simp only [PoolState.run, Option.some.injEq] at hrun
    subst hrun
    exact hs
  | cons x rest ih =>
    intro s s1 hall hrun hs
    obtain ⟨env, call⟩ := x
    simp only [PoolState.run] at hrun
    cases hst : PoolState.step env call s with
    | none => simp [hst] at hrun
    | some s2 =>
      simp only [hst] at hrun
      have hx := hall (env, call) (List.mem_cons_self _ _)
      exact ih s2 s1 (fun y hy => hall y (List.mem_cons_of_mem _ hy)) hrun
        (PoolState.step_counted env hx.1 call hx.2 s s2 hst hs)

theorem Env.const_ok_OkOrBad : (Env.const CONNECTION_OK true).OkOrBad :=
  fun _ => Or.inr ⟨rfl, rfl⟩

theorem Env.const_bad_OkOrBad (v : Bool) : (Env.const CONNECTION_BAD v).OkOrBad :=
  fun _ => Or.inl rfl

/-! ## Exclusive ownership and fresh addresses -/

theorem PoolState.init_wellFormed (connectionString : String) (maximumConnections : Int)
    (w : World) : (PoolState.init connectionString maximumConnections w).WellFormed := by
  simp [PoolState.WellFormed, PoolState.init, mk_pool]

theorem GetConnection_wellFormed (env : Env) (co : List Conn)
    (p : PGSQLConnectionPool) (w : World)
    (hs : PoolState.WellFormed { pool := p, world := w, checkedOut := co }) :
    PoolState.WellFormed
      { pool := (GetConnection env p w).2.1
        world := (GetConnection env p w).2.2
        checkedOut := co ++ (GetConnection env p w).1.handedOut } := by
  obtain ⟨hnd, hown, hlt, hlto⟩ := hs
  simp only at hnd hown hlt hlto
  rcases GetConnection_cases env p w with ⟨c, p2, w2, hl, hg⟩ | ⟨p2, w2, hl, hg⟩
  · obtain ⟨pre, hq, _, _, _⟩ := GetConnection.popLoop_split env _ _ _ _ _ _ hl
    obtain ⟨_, _, _, _, _, _, _, hal, _, hsub⟩ := GetConnection.popLoop_frame env _ _ _ _ _ _ hl
    simp only [Option.toList, List.singleton_append] at hq
    rw [hg]
    simp only [PoolState.WellFormed, GetResult.handedOut, hal]
    have hsubl : List.Sublist (c :: (p2.m_availableConnections ++ co))
        (p.m_availableConnections ++ co) := by
      rw [hq, List.append_assoc]
      exact List.sublist_append_right pre _
    have hperm : List.Perm (p2.m_availableConnections ++ (co ++ [c]))
        (c :: (p2.m_availableConnections ++ co)) := by
      rw [← List.append_assoc]
      exact List.perm_append_singleton c _
    refine ⟨hperm.nodup_iff.2 (hnd.sublist hsubl), hown.sublist hsub, ?_, ?_⟩
    · intro x hx
      exact hlt x (hsubl.subset (hperm.subset hx))
    · intro x hx
      exact hlto x (hsub.subset hx)
  · obtain ⟨pre, hq, _, _, hnone⟩ := GetConnection.popLoop_split env _ _ _ _ _ _ hl
    obtain ⟨_, _, _, _, _, _, _, hal, _, hsub⟩ := GetConnection.popLoop_frame env _ _ _ _ _ _ hl
    have hav := hnone rfl
    have hco : co.Nodup := hnd.sublist (List.sublist_append_right _ _)
    have hltc : ∀ x ∈ co, x < w2.allocated := by
      intro x hx
      rw [hal]
      exact hlt x (List.mem_append_right _ hx)
    have hown2 : p2.m_connections.Nodup := hown.sublist hsub
    have hlto2 : ∀ x ∈ p2.m_connections, x < w2.allocated := by
      intro x hx
      rw [hal]
      exact hlto x (hsub.subset hx)
    have hfresh : (co ++ [w2.allocated]).Nodup := by
      rw [List.nodup_append]
      refine ⟨hco, List.nodup_singleton _, ?_⟩
      intro x hx hx2
      rw [List.mem_singleton] at hx2
      have hlt2 := hltc x hx
      rw [hx2] at hlt2
      exact Nat.lt_irrefl _ hlt2
    have hfresho : (p2.m_connections ++ [w2.allocated]).Nodup := by
      rw [List.nodup_append]
      refine ⟨hown2, List.nodup_singleton _, ?_⟩
      intro x hx hx2
      rw [List.mem_singleton] at hx2
      have hlt2 := hlto2 x hx
      rw [hx2] at hlt2
      exact Nat.lt_irrefl _ hlt2
    have hltfresh : ∀ x ∈ co ++ [w2.allocated], x < w2.allocated + 1 := by
      intro x hx
      rcases List.mem_append.1 hx with hx | hx
      · exact Nat.lt_succ_of_lt (hltc x hx)
      · rw [List.mem_singleton] at hx
        rw [hx]
        exact Nat.lt_succ_self _
    rw [hg]
    rcases GetConnection.openPath_cases env p2 w2 with
      ⟨_, ho⟩ | ⟨_, _, ho⟩ | ⟨_, _, ho⟩ | ⟨_, _, _, ho⟩
    · rw [ho]
      simp only [PoolState.WellFormed, GetResult.handedOut, hav, List.nil_append,
        List.append_nil, GetConnection.logSqlConn_allocated]
      exact ⟨hco, hown2, hltc, hlto2⟩
    · rw [ho]
      simp only [PoolState.WellFormed, GetResult.handedOut, hav, List.nil_append,
        (GetConnection.cleaned_frame env _ _).2.2.2.1,
        (GetConnection.cleaned_frame env _ _).2.2.1]
      refine ⟨hfresh, hfresho, hltfresh, ?_⟩
      intro x hx
      rcases List.mem_append.1 hx with hx | hx
      · exact Nat.lt_succ_of_lt (hlto2 x hx)
      · rw [List.mem_singleton] at hx
        rw [hx]
        exact Nat.lt_succ_self _
    · rw [ho]
      simp only [PoolState.WellFormed, GetResult.handedOut, hav, List.nil_append,
        List.append_nil]
      exact ⟨hco, hown2, fun x hx => Nat.lt_succ_of_lt (hltc x hx),
        fun x hx => Nat.lt_succ_of_lt (hlto2 x hx)⟩
    · rw [ho]
      simp only [PoolState.WellFormed, GetResult.handedOut, hav, List.nil_append,
        (GetConnection.cleaned_frame env _ _).2.2.2.1,
        (GetConnection.cleaned_frame env _ _).2.2.1]
      exact ⟨hfresh, hown2, hltfresh, fun x hx => Nat.lt_succ_of_lt (hlto2 x hx)⟩

theorem Release_wellFormed (env : Env) (co : List Conn) (c : Conn)
    (p : PGSQLConnectionPool) (w : World) (hc : c ∈ co)
    (hs : PoolState.WellFormed { pool := p, world := w, checkedOut := co }) :
    PoolState.WellFormed
      { pool := (Release env c p w).1
        world := (Release env c p w).2
        checkedOut := co.erase c } := by
  obtain ⟨hnd, hown, hlt, hlto⟩ := hs
  simp only at hnd hown hlt hlto
  have hsub : List.Sublist (p.m_availableConnections ++ co.erase c)
      (p.m_availableConnections ++ co) :=
    List.Sublist.append_left (List.erase_sublist c co) _
  unfold Release
  by_cases hok : env.isOk c = true
  · simp only [hok, if_true, PoolState.WellFormed]
    have hperm : List.Perm (p.m_availableConnections ++ [c] ++ co.erase c)
        (p.m_availableConnections ++ co) := by
      rw [List.append_assoc]
      exact List.Perm.append_left _ (List.perm_cons_erase hc).symm
    exact ⟨hperm.nodup_iff.2 hnd, hown, fun x hx => hlt x (hperm.subset hx), hlto⟩
  · have hok2 : env.isOk c = false := by simpa using hok
    by_cases hbad : env.isBad c = true
    · simp only [hok2, hbad, if_true, PoolState.WellFormed, SweepConnection]
      exact ⟨hnd.sublist hsub, hown.sublist (List.erase_sublist _ _),
        fun x hx => hlt x (hsub.subset hx),
        fun x hx => hlto x ((List.erase_sublist _ _).subset hx)⟩
    · have hbad2 : env.isBad c = false := by simpa using hbad
      simp only [hok2, hbad2, PoolState.WellFormed]
      exact ⟨hnd.sublist hsub, hown, fun x hx => hlt x (hsub.subset hx), hlto⟩

theorem PoolState.step_wellFormed (env : Env) (call : PoolCall) (s s1 : PoolState)
    (hstep : PoolState.step env call s = some s1) (hs : s.WellFormed) : s1.WellFormed := by
  cases call with
  | GetConnection =>
    have key := GetConnection_wellFormed env s.checkedOut s.pool s.world hs
    simp only [PoolState.step, PoolCall.exec] at hstep
    generalize hg : GetConnection env s.pool s.world = g at hstep key
    obtain ⟨r, p1, w1⟩ := g
    cases r with
    | conn c =>
      simp only [Option.some.injEq] at hstep
      subst hstep
      simpa [GetResult.handedOut] using key
    | raise_error msg =>
      simp only [Option.some.injEq] at hstep
      subst hstep
      simpa [GetResult.handedOut] using key
  | Release c =>
    simp only [PoolState.step, PoolCall.exec] at hstep
    by_cases hc : c ∈ s.checkedOut
    · simp only [hc, if_true, Option.some.injEq] at hstep
      subst hstep
      exact Release_wellFormed env s.checkedOut c s.pool s.world hc hs
    · simp [hc] at hstep
  | CloseAllConnections =>
    simp only [PoolState.step, PoolCall.exec, CloseAllConnections, Option.some.injEq] at hstep
    subst hstep
    obtain ⟨hnd, _, hlt, _⟩ := hs
    simp only [PoolState.WellFormed, List.nil_append, List.nodup_nil, List.not_mem_nil,
      false_implies, implies_true, true_and, and_true]
    exact ⟨hnd.sublist (List.sublist_append_right _ _),
      fun x hx => hlt x (List.mem_append_right _ hx)⟩
  | CloseFreeConnections =>
    simp only [PoolState.step, PoolCall.exec, CloseFreeConnections, Option.some.injEq] at hstep
    subst hstep
    obtain ⟨hnd, hown, hlt, hlto⟩ := hs
    simp only [PoolState.WellFormed, List.nil_append]
    exact ⟨hnd.sublist (List.sublist_append_right _ _), hown,
      fun x hx => hlt x (List.mem_append_right _ hx), hlto⟩

theorem PoolState.run_wellFormed :
    ∀ (tr : List (Env × PoolCall)) (s s1 : PoolState),
      PoolState.run tr s = some s1 → s.WellFormed → s1.WellFormed := by
  intro tr
  induction tr with
  | nil =>
    intro s s1 hrun hs
    simp only [PoolState.run, Option.some.injEq] at hrun
    subst hrun
    exact hs
  | cons x rest ih =>
    intro s s1 hrun hs
    obtain ⟨env, call⟩ := x
    simp only [PoolState.run] at hrun
    cases hst : PoolState.step env call s with
    | none => simp [hst] at hrun
    | some s2 =>
      simp only [hst] at hrun
      exact ih s2 s1 hrun (PoolState.step_wellFormed env call s s2 hst hs)

/-! ## A run of bad connections at the front of the idle queue -/

/-- One turn of the loop on a connection that reports `CONNECTION_BAD`. -/
theorem GetConnection.popLoop_cons_bad (env : Env) (c : Conn) (q : List Conn)
    (p : PGSQLConnectionPool) (w : World) (hc : env.status c = CONNECTION_BAD) :
    GetConnection.popLoop env (c :: q) p w
      = GetConnection.popLoop env q (SweepConnection c p)
          { w with finished := w.finished ++ [c] } := by
  have hok : env.isOk c = false := by simp [Env.isOk, hc]
  have hb : env.isBad c = true := by simp [Env.isBad, hc]
  simp [GetConnection.popLoop, hok, hb]

/-- The loop sweeps and closes a run of connections that report `CONNECTION_BAD`, one
after the other, and goes on with the rest of the queue. -/
theorem GetConnection.popLoop_bad (env : Env) :
    ∀ (bads rest : List Conn) (p : PGSQLConnectionPool) (w : World),
      (∀ c ∈ bads, env.status c = CONNECTION_BAD) →
      GetConnection.popLoop env (bads ++ rest) p w
        = GetConnection.popLoop env rest
            { p with
              m_connections := p.m_connections.diff bads
              m_sweepedConnections := p.m_sweepedConnections + bads.length }
            { w with finished := w.finished ++ bads } := by
  intro bads
  induction bads with
  | nil =>
    intro rest p w _
    simp
  | cons c bads ih =>
    intro rest p w hbad
    have hc : env.status c = CONNECTION_BAD := hbad c (List.mem_cons_self _ _)
    have hrest : ∀ x ∈ bads, env.status x = CONNECTION_BAD :=
      fun x hx => hbad x (List.mem_cons_of_mem _ hx)
    rw [List.cons_append, GetConnection.popLoop_cons_bad env c _ p w hc, ih rest _ _ hrest]
    simp only [SweepConnection, List.diff_cons, List.length_cons, List.append_assoc,
      List.singleton_append, Nat.add_assoc, Nat.add_comm 1]

theorem GetConnection_of_loop_some (env : Env) (p p2 : PGSQLConnectionPool) (w w2 : World)
    (c : Conn)
    (h : GetConnection.popLoop env p.m_availableConnections
      { p with m_requestedConnections := p.m_requestedConnections + 1 } w = (some c, p2, w2)) :
    GetConnection env p w = (GetResult.conn c, p2, w2) := by
  simp only [GetConnection]
  rw [h]

theorem GetConnection_of_loop_none (env : Env) (p p2 : PGSQLConnectionPool) (w w2 : World)
    (h : GetConnection.popLoop env p.m_availableConnections
      { p with m_requestedConnections := p.m_requestedConnections + 1 } w = (none, p2, w2)) :
    GetConnection env p w = GetConnection.openPath env p2 w2 := by
  simp only [GetConnection]
  rw [h]

theorem GetConnection.not_raisesFull_of_unbounded (p : PGSQLConnectionPool)
    (h : p.m_maximumConnections ≤ 0) : ¬ GetConnection.raisesFull p := by
  intro hf
  unfold GetConnection.raisesFull at hf
  omega

/-! ## What can enter the idle queue -/

/-- `GetConnection` only takes connections out of the idle queue. -/
theorem GetConnection_available_sublist (env : Env) (p : PGSQLConnectionPool) (w : World) :
    List.Sublist (GetConnection env p w).2.1.m_availableConnections
      p.m_availableConnections := by
  rcases GetConnection_cases env p w with ⟨c, p2, w2, hl, hg⟩ | ⟨p2, w2, hl, hg⟩
  · obtain ⟨pre, hq, _, _, _⟩ := GetConnection.popLoop_split env _ _ _ _ _ _ hl
    rw [hg, hq]
    simp only [Option.toList, List.singleton_append]
    exact (List.sublist_cons_self c _).trans (List.sublist_append_right pre _)
  · obtain ⟨pre, _, _, _, hnone⟩ := GetConnection.popLoop_split env _ _ _ _ _ _ hl
    have hav := hnone rfl
    rw [hg]
    rcases GetConnection.openPath_cases env p2 w2 with
      ⟨_, ho⟩ | ⟨_, _, ho⟩ | ⟨_, _, ho⟩ | ⟨_, _, _, ho⟩
    · rw [ho]
      simp [hav]
    · rw [ho]
      simp [(GetConnection.cleaned_frame env _ _).2.2.1, hav]
    · rw [ho]
      simp [hav]
    · rw [ho]
      simp [(GetConnection.cleaned_frame env _ _).2.2.1, hav]

/-- A call other than `Release(c)` does not put `c` into the idle queue. -/
theorem exec_not_mem_available (env : Env) (call : PoolCall) (c : Conn)
    (p : PGSQLConnectionPool) (w : World) (hcall : call ≠ PoolCall.Release c)
    (hc : c ∉ p.m_availableConnections) :
    c ∉ (PoolCall.exec env call p w).2.1.m_availableConnections := by
  cases call with
  | GetConnection =>
    have hsub := GetConnection_available_sublist env p w
    simp only [PoolCall.exec]
    generalize GetConnection env p w = g at hsub
    obtain ⟨r, p1, w1⟩ := g
    cases r <;> exact fun hmem => hc (hsub.subset hmem)
  | Release d =>
    have hd : c ≠ d := fun h => hcall (by rw [h])
    simp only [PoolCall.exec, Release]
    by_cases hok : env.isOk d = true
    · simp only [hok, if_true, List.mem_append, List.mem_singleton, not_or]
      exact ⟨hc, hd⟩
    · have hok2 : env.isOk d = false := by simpa using hok
      by_cases hbad : env.isBad d = true
      · simpa [hok2, hbad, SweepConnection] using hc
      · have hbad2 : env.isBad d = false := by simpa using hbad
        simpa [hok2, hbad2] using hc
  | CloseAllConnections => simp [PoolCall.exec, CloseAllConnections]
  | CloseFreeConnections => simp [PoolCall.exec, CloseFreeConnections]

theorem execCalls_not_mem_available (c : Conn) :
    ∀ (tr : List (Env × PoolCall)) (s : PGSQLConnectionPool × World),
      (∀ x ∈ tr, x.2 ≠ PoolCall.Release c) →
      c ∉ s.1.m_availableConnections →
      c ∉ (execCalls tr s).1.m_availableConnections := by
  intro tr
  induction tr with
  | nil =>
    intro s _ hc
    simpa [execCalls] using hc
  | cons x rest ih =>
    intro s hall hc
    obtain ⟨env, call⟩ := x
    simp only [execCalls]
    refine ih _ (fun y hy => hall y (List.mem_cons_of_mem _ hy)) ?_
    exact exec_not_mem_available env call c s.1 s.2
      (hall (env, call) (List.mem_cons_self _ _)) hc

/-! ## `CloseAllConnections` -/

/-- `CloseAllConnections` leaves nothing owned and nothing idle, and has closed every
connection that was idle or owned. -/
theorem CloseAllConnections_empties (p : PGSQLConnectionPool) (w : World) :
    (CloseAllConnections p w).1.m_connections = [] ∧
    (CloseAllConnections p w).1.m_availableConnections = [] ∧
    (∀ c, c ∈ p.m_availableConnections ∨ c ∈ p.m_connections →
      c ∈ (CloseAllConnections p w).2.finished) := by
  refine ⟨rfl, rfl, ?_⟩
  intro c hc
  simp only [CloseAllConnections, List.mem_append]
  rcases hc with hc | hc
  · exact Or.inl (Or.inr hc)
  · exact Or.inr hc

/-- In an unbounded pool, the `GetConnection` that follows `CloseAllConnections` opens a
connection, and when that one reports `CONNECTION_OK` it is returned, counted and is the
only owned connection. -/
theorem GetConnection_after_CloseAllConnections_unbounded (env : Env)
    (p : PGSQLConnectionPool) (w : World) (hmax : p.m_maximumConnections ≤ 0)
    (hok : env.status w.allocated = CONNECTION_OK) :
    (GetConnection env (CloseAllConnections p w).1 (CloseAllConnections p w).2).1
      = GetResult.conn w.allocated ∧
    (GetConnection env (CloseAllConnections p w).1
      (CloseAllConnections p w).2).2.1.m_openedConnections = p.m_openedConnections + 1 ∧
    (GetConnection env (CloseAllConnections p w).1
      (CloseAllConnections p w).2).2.1.m_connections = [w.allocated] ∧
    (GetConnection env (CloseAllConnections p w).1
      (CloseAllConnections p w).2).2.2.allocated = w.allocated + 1 := by
  have hl : GetConnection.popLoop env (CloseAllConnections p w).1.m_availableConnections
      { (CloseAllConnections p w).1 with
        m_requestedConnections := (CloseAllConnections p w).1.m_requestedConnections + 1 }
      (CloseAllConnections p w).2
      = (none,
          { (CloseAllConnections p w).1 with
            m_requestedConnections := (CloseAllConnections p w).1.m_requestedConnections + 1 },
          (CloseAllConnections p w).2) := by
    simp [CloseAllConnections, GetConnection.popLoop]
  rw [GetConnection_of_loop_none env _ _ _ _ hl]
  have hnf : ¬ GetConnection.raisesFull
      { (CloseAllConnections p w).1 with
        m_requestedConnections := (CloseAllConnections p w).1.m_requestedConnections + 1 } :=
    GetConnection.not_raisesFull_of_unbounded _ hmax
  have hok2 : env.status (CloseAllConnections p w).2.allocated = CONNECTION_OK := hok
  rcases GetConnection.openPath_cases env
      { (CloseAllConnections p w).1 with
        m_requestedConnections := (CloseAllConnections p w).1.m_requestedConnections + 1 }
      (CloseAllConnections p w).2 with
    ⟨hf, _⟩ | ⟨_, _, ho⟩ | ⟨_, hst, _⟩ | ⟨_, hst, _, _⟩
  · exact absurd hf hnf
  · rw [ho]
    simp [(GetConnection.cleaned_frame env _ _).2.2.2.1,
      (GetConnection.cleaned_frame env _ _).2.2.2.2.2.1, CloseAllConnections]
  · rw [hok2] at hst
    exact absurd hst (by decide)
  · exact absurd hok2 hst

/-! ## A pool with a positive bound -/

/-- In a pool with a positive bound that owns nothing, no call changes the bound and no
call makes the pool own anything: `GetConnection` ends in the capacity error whenever it
gets past the idle queue. -/
theorem exec_bounded_owns_nothing (env : Env) (call : PoolCall) (p : PGSQLConnectionPool)
    (w : World) (hmax : p.m_maximumConnections > 0) (hown : p.m_connections = []) :
    (PoolCall.exec env call p w).2.1.m_maximumConnections = p.m_maximumConnections ∧
    (PoolCall.exec env call p w).2.1.m_connections = [] := by
  cases call with
  | GetConnection =>
    have key : (GetConnection env p w).2.1.m_maximumConnections = p.m_maximumConnections ∧
        (GetConnection env p w).2.1.m_connections = [] := by
      rcases GetConnection_cases env p w with ⟨c, p2, w2, hl, hg⟩ | ⟨p2, w2, hl, hg⟩
      · obtain ⟨hm, _, _, _, _, _, _, _, _, hsub⟩ :=
          GetConnection.popLoop_frame env _ _ _ _ _ _ hl
        rw [hg]
        simp only at hsub
        rw [hown] at hsub
        exact ⟨hm, List.sublist_nil.1 hsub⟩
      · obtain ⟨hm, _, _, _, _, _, _, _, _, hsub⟩ :=
          GetConnection.popLoop_frame env _ _ _ _ _ _ hl
        simp only at hsub hm
        rw [hown] at hsub
        have hown2 : p2.m_connections = [] := List.sublist_nil.1 hsub
        have hfull : GetConnection.raisesFull p2 := by
          unfold GetConnection.raisesFull
          rw [hm, hown2]
          exact ⟨hmax, by simpa using hmax⟩
        rw [hg]
        rcases GetConnection.openPath_cases env p2 w2 with
          ⟨_, ho⟩ | ⟨hn, _, _⟩ | ⟨hn, _, _⟩ | ⟨hn, _, _, _⟩
        · rw [ho]
          exact ⟨hm, hown2⟩
        · exact absurd hfull hn
        · exact absurd hfull hn
        · exact absurd hfull hn
    simp only [PoolCall.exec]
    generalize GetConnection env p w = g at key
    obtain ⟨r, p1, w1⟩ := g
    cases r <;> exact key
  | Release c =>
    simp only [PoolCall.exec, Release]
    split
    · exact ⟨rfl, hown⟩
    · split
      · simp [SweepConnection, hown]
      · exact ⟨rfl, hown⟩
  | CloseAllConnections => exact ⟨rfl, rfl⟩
  | CloseFreeConnections => exact ⟨rfl, hown⟩

theorem execCalls_bounded_owns_nothing :
    ∀ (tr : List (Env × PoolCall)) (s : PGSQLConnectionPool × World),
      s.1.m_maximumConnections > 0 → s.1.m_connections = [] →
      (execCalls tr s).1.m_maximumConnections = s.1.m_maximumConnections ∧
      (execCalls tr s).1.m_connections = [] := by
  intro tr
  induction tr with
  | nil =>
    intro s _ hown
    exact ⟨rfl, hown⟩
  | cons x rest ih =>
    intro s hmax hown
    obtain ⟨env, call⟩ := x
    obtain ⟨h1, h2⟩ := exec_bounded_owns_nothing env call s.1 s.2 hmax hown
    simp only [execCalls]
    have := ih (PoolCall.exec env call s.1 s.2).2 (by rw [h1]; exact hmax) h2
    rw [h1] at this
    exact this

/-! ## The display string never changes once it is filled -/

theorem GetConnection.cleaned_of_empty (env : Env) (c : Conn) (p : PGSQLConnectionPool)
    (h : p.m_cleanedConnectionString = "") :
    (GetConnection.cleaned env c p).m_cleanedConnectionString
      = "host=" ++ env.host c ++ " port=" ++ env.port c ++ " user=" ++ env.user c
          ++ " dbname=" ++ env.db c := by
  simp [GetConnection.cleaned, h]

theorem GetConnection.cleaned_of_filled (env : Env) (c : Conn) (p : PGSQLConnectionPool)
    (h : p.m_cleanedConnectionString ≠ "") :
    GetConnection.cleaned env c p = p := by
  simp [GetConnection.cleaned, h]

/-- The display string built from a session is never the empty string. -/
theorem displayString_ne_empty (a b c d : String) :
    "host=" ++ a ++ " port=" ++ b ++ " user=" ++ c ++ " dbname=" ++ d ≠ "" := by
  intro h
  have hd := congrArg String.data h
  simp only [String.data_append] at hd
  exact absurd hd (by simp [String.data])

/-- How one call acts on the display string: it stays as it is, unless it was empty and
the call is a `GetConnection` that allocated a connection and returned it, in which case
it is built from what that connection reports. -/
theorem exec_cleaned (env : Env) (call : PoolCall) (p : PGSQLConnectionPool) (w : World) :
    (PoolCall.exec env call p w).2.1.m_cleanedConnectionString = p.m_cleanedConnectionString ∨
    (p.m_cleanedConnectionString = "" ∧ call = PoolCall.GetConnection ∧
      (PoolCall.exec env call p w).1 = some w.allocated ∧
      (PoolCall.exec env call p w).2.2.allocated = w.allocated + 1 ∧
      (PoolCall.exec env call p w).2.1.m_cleanedConnectionString
        = "host=" ++ env.host w.allocated ++ " port=" ++ env.port w.allocated ++ " user="
            ++ env.user w.allocated ++ " dbname=" ++ env.db w.allocated) := by
  cases call with
  | GetConnection =>
    simp only [PoolCall.exec]
    rcases GetConnection_cases env p w with ⟨c, p2, w2, hl, hg⟩ | ⟨p2, w2, hl, hg⟩
    · obtain ⟨_, _, hcl, _⟩ := GetConnection.popLoop_frame env _ _ _ _ _ _ hl
      rw [hg]
      exact Or.inl hcl
    · obtain ⟨_, _, hcl, _, _, _, _, hal, _, _⟩ :=
        GetConnection.popLoop_frame env _ _ _ _ _ _ hl
      simp only at hcl hal
      rw [hg]
      rcases GetConnection.openPath_cases env p2 w2 with
        ⟨_, ho⟩ | ⟨_, _, ho⟩ | ⟨_, _, ho⟩ | ⟨_, _, _, ho⟩
      · rw [ho]
        exact Or.inl hcl
      · rw [ho]
        by_cases he : p.m_cleanedConnectionString = ""
        · right
          refine ⟨he, trivial, by simp [hal], by simp [hal], ?_⟩
          have := GetConnection.cleaned_of_empty env w2.allocated
            { p2 with
              m_openedConnections := p2.m_openedConnections + 1
              m_connections := p2.m_connections ++ [w2.allocated] } (by simpa [hcl] using he)
          simpa [hal] using this
        · left
          rw [GetConnection.cleaned_of_filled env _ _ (by simpa [hcl] using he)]
          exact hcl
      · rw [ho]
        exact Or.inl hcl
      · rw [ho]
        by_cases he : p.m_cleanedConnectionString = ""
        · right
          refine ⟨he, trivial, by simp [hal], by simp [hal], ?_⟩
          have := GetConnection.cleaned_of_empty env w2.allocated p2 (by rw [hcl]; exact he)
          simpa [hal] using this
        · left
          rw [GetConnection.cleaned_of_filled env _ _ (by rw [hcl]; exact he)]
          exact hcl
  | Release c =>
    left
    simp only [PoolCall.exec, Release]
    split
    · rfl
    · split <;> rfl
  | CloseAllConnections => exact Or.inl rfl
  | CloseFreeConnections => exact Or.inl rfl

theorem exec_cleaned_of_filled (env : Env) (call : PoolCall) (p : PGSQLConnectionPool)
    (w : World) (h : p.m_cleanedConnectionString ≠ "") :
    (PoolCall.exec env call p w).2.1.m_cleanedConnectionString
      = p.m_cleanedConnectionString := by
  rcases exec_cleaned env call p w with hk | ⟨he, _⟩
  · exact hk
  · exact absurd he h

theorem execCalls_cleaned_of_filled :
    ∀ (tr : List (Env × PoolCall)) (s : PGSQLConnectionPool × World),
      s.1.m_cleanedConnectionString ≠ "" →
      (execCalls tr s).1.m_cleanedConnectionString = s.1.m_cleanedConnectionString := by
  intro tr
  induction tr with
  | nil =>
    intro s _
    rfl
  | cons x rest ih =>
    intro s h
    obtain ⟨env, call⟩ := x
    have h1 := exec_cleaned_of_filled env call s.1 s.2 h
    simp only [execCalls]
    rw [ih (PoolCall.exec env call s.1 s.2).2 (by rw [h1]; exact h), h1]

/-! ## The loop and the owned set -/

/-- The loop takes out of the owned set only connections that it closes. -/
theorem GetConnection.popLoop_owned_or_finished (env : Env) :
    ∀ (q : List Conn) (p : PGSQLConnectionPool) (w : World) (r : Option Conn)
      (p1 : PGSQLConnectionPool) (w1 : World),
      GetConnection.popLoop env q p w = (r, p1, w1) →
      ∀ x, x ∈ p.m_connections ∨ x ∈ w.finished →
        x ∈ p1.m_connections ∨ x ∈ w1.finished := by
  intro q
  induction q with
  | nil =>
    intro p w r p1 w1 h x hx
    simp only [GetConnection.popLoop, Prod.mk.injEq] at h
    obtain ⟨_, h2, h3⟩ := h
    subst h2
    subst h3
    exact hx
  | cons c rest ih =>
    intro p w r p1 w1 h x hx
    simp only [GetConnection.popLoop] at h
    by_cases hok : env.isOk c = true
    · simp only [hok, if_true, Prod.mk.injEq] at h
      obtain ⟨_, h2, h3⟩ := h
      subst h2
      subst h3
      exact hx
    · have hok2 : env.isOk c = false := by simpa using hok
      simp only [hok2] at h
      by_cases hbad : env.isBad c = true
      · simp only [hbad, if_true] at h
        refine ih _ _ _ _ _ h x ?_
        simp only [SweepConnection]
        rcases hx with hx | hx
        · by_cases hxc : x = c
          · right
            rw [hxc]
            simp
          · left
            exact (List.mem_erase_of_ne hxc).2 hx
        · right
          exact List.mem_append_left _ hx
      · have hbad2 : env.isBad c = false := by simpa using hbad
        simp only [hbad2] at h
        exact ih _ _ _ _ _ h x hx

/-- When the queue has no duplicate and is part of the owned set, what the loop returns
and what it leaves in the queue is still owned. -/
theorem GetConnection.popLoop_idle_owned (env : Env) :
    ∀ (q : List Conn) (p : PGSQLConnectionPool) (w : World) (r : Option Conn)
      (p1 : PGSQLConnectionPool) (w1 : World),
      GetConnection.popLoop env q p w = (r, p1, w1) →
      q.Nodup → (∀ c ∈ q, c ∈ p.m_connections) →
      ∀ c ∈ r.toList ++ p1.m_availableConnections, c ∈ p1.m_connections := by
  intro q
  induction q with
  | nil =>
    intro p w r p1 w1 h _ _
    simp only [GetConnection.popLoop, Prod.mk.injEq] at h
    obtain ⟨h1, h2, _⟩ := h
    subst h1
    subst h2
    simp
  | cons c rest ih =>
    intro p w r p1 w1 h hnd hq
    simp only [GetConnection.popLoop] at h
    have hnd2 := List.nodup_cons.1 hnd
    by_cases hok : env.isOk c = true
    · simp only [hok, if_true, Prod.mk.injEq] at h
      obtain ⟨h1, h2, _⟩ := h
      subst h1
      subst h2
      simpa using hq
    · have hok2 : env.isOk c = false := by simpa using hok
      simp only [hok2] at h
      by_cases hbad : env.isBad c = true
      · simp only [hbad, if_true] at h
        refine ih _ _ _ _ _ h hnd2.2 ?_
        intro x hx
        simp only [SweepConnection]
        have hxc : x ≠ c := fun e => hnd2.1 (e ▸ hx)
        exact (List.mem_erase_of_ne hxc).2 (hq x (List.mem_cons_of_mem _ hx))
      · have hbad2 : env.isBad c = false := by simpa using hbad
        simp only [hbad2] at h
        exact ih _ _ _ _ _ h hnd2.2 (fun x hx => hq x (List.mem_cons_of_mem _ hx))

/-- The loop does not read the queue field of the pool it is given. -/
theorem GetConnection.popLoop_queue_field (env : Env) :
    ∀ (q a : List Conn) (p : PGSQLConnectionPool) (w : World),
      GetConnection.popLoop env q { p with m_availableConnections := a } w
        = GetConnection.popLoop env q p w := by
  intro q
  induction q with
  | nil =>
    intro a p w
    simp [GetConnection.popLoop]
  | cons c rest ih =>
    intro a p w
    simp only [GetConnection.popLoop]
    split
    · rfl
    · split
      · exact ih a (SweepConnection c p) _
      · exact ih a p w

/-- One turn of the loop on a connection that is neither healthy nor bad: it is dropped. -/
theorem GetConnection.popLoop_cons_other (env : Env) (c : Conn) (q : List Conn)
    (p : PGSQLConnectionPool) (w : World) (hok : env.isOk c = false)
    (hbad : env.isBad c = false) :
    GetConnection.popLoop env (c :: q) p w = GetConnection.popLoop env q p w := by
  simp [GetConnection.popLoop, hok, hbad]

/-- The loop keeps "no owned connection was closed". -/
theorem GetConnection.popLoop_ownedOpen (env : Env) :
    ∀ (q : List Conn) (p : PGSQLConnectionPool) (w : World) (r : Option Conn)
      (p1 : PGSQLConnectionPool) (w1 : World),
      GetConnection.popLoop env q p w = (r, p1, w1) →
      p.m_connections.Nodup → (∀ c ∈ q, c < w.allocated) →
      (∀ c ∈ p.m_connections, c ∉ w.finished) → (∀ c ∈ w.finished, c < w.allocated) →
      (∀ c ∈ p1.m_connections, c ∉ w1.finished) ∧ (∀ c ∈ w1.finished, c < w.allocated) := by
  intro q
  induction q with
  | nil =>
    intro p w r p1 w1 h _ _ h1 h2
    simp only [GetConnection.popLoop, Prod.mk.injEq] at h
    obtain ⟨_, h3, h4⟩ := h
    subst h3
    subst h4
    exact ⟨h1, h2⟩
  | cons c rest ih =>
    intro p w r p1 w1 h hnd hq h1 h2
    simp only [GetConnection.popLoop] at h
    by_cases hok : env.isOk c = true
    · simp only [hok, if_true, Prod.mk.injEq] at h
      obtain ⟨_, h3, h4⟩ := h
      subst h3
      subst h4
      exact ⟨h1, h2⟩
    · have hok2 : env.isOk c = false := by simpa using hok
      simp only [hok2, Bool.false_eq_true, if_false] at h
      by_cases hbad : env.isBad c = true
      · simp only [hbad, if_true] at h
        refine ih (SweepConnection c p) { w with finished := w.finished ++ [c] } r p1 w1 h
          (hnd.sublist (List.erase_sublist _ _))
          (fun x hx => hq x (List.mem_cons_of_mem _ hx)) ?_ ?_
        · intro x hx hfin
          simp only [SweepConnection] at hx
          have hx2 := (List.Nodup.mem_erase_iff hnd).1 hx
          rcases List.mem_append.1 hfin with hf | hf
          · exact h1 x hx2.2 hf
          · exact hx2.1 (List.mem_singleton.1 hf)
        · intro x hx
          rcases List.mem_append.1 hx with hf | hf
          · exact h2 x hf
          · rw [List.mem_singleton.1 hf]
            exact hq c (List.mem_cons_self _ _)
      · have hbad2 : env.isBad c = false := by simpa using hbad
        simp only [hbad2, Bool.false_eq_true, if_false] at h
        exact ih _ _ _ _ _ h hnd (fun x hx => hq x (List.mem_cons_of_mem _ hx)) h1 h2

/-! ## Idle connections are owned, for plausible sessions -/

theorem PoolState.step_idleOwned (env : Env) (call : PoolCall) (s s1 : PoolState)
    (hstep : PoolState.step env call s = some s1) (hpl : PoolState.Plausible env s)
    (hwf : s.WellFormed) (hs : s.IdleOwned) : s1.IdleOwned := by
  obtain ⟨hidle, hco⟩ := hs
  obtain ⟨hnew, hclosed⟩ := hpl
  have hnd := hwf.1
  rw [List.nodup_append] at hnd
  cases call with
  | GetConnection =>
    simp only [PoolState.step, PoolCall.exec] at hstep
    rcases GetConnection_cases env s.pool s.world with
      ⟨c, p2, w2, hl, hg⟩ | ⟨p2, w2, hl, hg⟩
    · rw [hg] at hstep
      simp only [Option.some.injEq] at hstep
      subst hstep
      have h1 := GetConnection.popLoop_idle_owned env _ _ _ _ _ _ hl hnd.1 hidle
      have h2 := GetConnection.popLoop_owned_or_finished env _ _ _ _ _ _ hl
      simp only [Option.toList, List.singleton_append, List.mem_cons] at h1
      refine ⟨fun x hx => h1 x (Or.inr hx), ?_⟩
      intro x hx
      rcases List.mem_append.1 hx with hx | hx
      · exact h2 x (hco x hx)
      · rw [List.mem_singleton] at hx
        exact Or.inl (h1 x (Or.inl hx))
    · have h2 := GetConnection.popLoop_owned_or_finished env _ _ _ _ _ _ hl
      obtain ⟨_, _, _, _, hnone⟩ := GetConnection.popLoop_split env _ _ _ _ _ _ hl
      obtain ⟨_, _, _, _, _, _, _, hal, _, _⟩ :=
        GetConnection.popLoop_frame env _ _ _ _ _ _ hl
      have hav := hnone rfl
      rw [hg] at hstep
      rcases GetConnection.openPath_cases env p2 w2 with
        ⟨_, ho⟩ | ⟨_, _, ho⟩ | ⟨_, _, ho⟩ | ⟨_, hnok, hnbad, _⟩
      · rw [ho] at hstep
        simp only [Option.some.injEq] at hstep
        subst hstep
        simp only [PoolState.IdleOwned, hav, List.not_mem_nil, false_implies, implies_true,
          true_and]
        intro x hx
        rcases h2 x (hco x hx) with h3 | h3
        · exact Or.inl h3
        · right
          unfold GetConnection.logSqlConn
          split <;> exact h3
      · rw [ho] at hstep
        simp only [Option.some.injEq] at hstep
        subst hstep
        simp only [PoolState.IdleOwned, (GetConnection.cleaned_frame env _ _).2.2.1,
          (GetConnection.cleaned_frame env _ _).2.2.2.1, hav, List.not_mem_nil,
          false_implies, implies_true, true_and, GetConnection.logSqlConn_finished]
        intro x hx
        rcases List.mem_append.1 hx with hx | hx
        · rcases h2 x (hco x hx) with h3 | h3
          · exact Or.inl (List.mem_append_left _ h3)
          · exact Or.inr h3
        · exact Or.inl (List.mem_append_right _ hx)
      · rw [ho] at hstep
        simp only [Option.some.injEq] at hstep
        subst hstep
        simp only [PoolState.IdleOwned, hav, List.not_mem_nil, false_implies, implies_true,
          true_and]
        intro x hx
        rcases h2 x (hco x hx) with h3 | h3
        · exact Or.inl h3
        · exact Or.inr (List.mem_append_left _ h3)
      · exfalso
        rw [hal] at hnok hnbad
        rcases hnew with h3 | h3
        · exact hnok h3
        · exact hnbad h3
  | Release c =>
    simp only [PoolState.step, PoolCall.exec] at hstep
    by_cases hc : c ∈ s.checkedOut
    · simp only [hc, if_true, Option.some.injEq] at hstep
      subst hstep
      have hcidle : c ∉ s.pool.m_availableConnections := fun h => hnd.2.2 h hc
      have hsubco : ∀ x ∈ s.checkedOut.erase c, x ∈ s.checkedOut :=
        fun x hx => (List.erase_sublist c s.checkedOut).subset hx
      simp only [PoolState.IdleOwned, Release]
      by_cases hok : env.isOk c = true
      · simp only [hok, if_true]
        have hcown : c ∈ s.pool.m_connections := by
          rcases hco c hc with h3 | h3
          · exact h3
          · have := hclosed c h3
            rw [hok] at this
            exact absurd this (by simp)
        refine ⟨?_, fun x hx => hco x (hsubco x hx)⟩
        intro x hx
        rcases List.mem_append.1 hx with hx | hx
        · exact hidle x hx
        · rw [List.mem_singleton.1 hx]
          exact hcown
      · have hok2 : env.isOk c = false := by simpa using hok
        by_cases hbad : env.isBad c = true
        · simp only [hok2, hbad, if_true, SweepConnection]
          refine ⟨?_, ?_⟩
          · intro x hx
            have hxc : x ≠ c := fun e => hcidle (e ▸ hx)
            exact (List.mem_erase_of_ne hxc).2 (hidle x hx)
          · intro x hx
            by_cases hxc : x = c
            · right
              rw [hxc]
              simp
            · rcases hco x (hsubco x hx) with h3 | h3
              · exact Or.inl ((List.mem_erase_of_ne hxc).2 h3)
              · exact Or.inr (List.mem_append_left _ h3)
        · have hbad2 : env.isBad c = false := by simpa using hbad
          simp only [hok2, hbad2]
          exact ⟨hidle, fun x hx => hco x (hsubco x hx)⟩
    · simp [hc] at hstep
  | CloseAllConnections =>
    simp only [PoolState.step, PoolCall.exec, CloseAllConnections, Option.some.injEq] at hstep
    subst hstep
    simp only [PoolState.IdleOwned, List.not_mem_nil, false_implies, implies_true, true_and,
      false_or]
    intro x hx
    rcases hco x hx with h3 | h3
    · exact List.mem_append_right _ h3
    · exact List.mem_append_left _ (List.mem_append_left _ h3)
  | CloseFreeConnections =>
    simp only [PoolState.step, PoolCall.exec, CloseFreeConnections, Option.some.injEq] at hstep
    subst hstep
    simp only [PoolState.IdleOwned, List.not_mem_nil, false_implies, implies_true, true_and]
    intro x hx
    rcases hco x hx with h3 | h3
    · exact Or.inl h3
    · exact Or.inr (List.mem_append_left _ h3)

theorem PoolState.plausibleRun_cons (env : Env) (call : PoolCall)
    (rest : List (Env × PoolCall)) (s : PoolState)
    (hstep : (PoolState.step env call s).isSome = true) (hpl : PoolState.Plausible env s)
    (hrest : PoolState.PlausibleRun rest ((PoolState.step env call s).get hstep)) :
    PoolState.PlausibleRun ((env, call) :: rest) s := by
  simp only [PoolState.PlausibleRun]
  refine ⟨hpl, ?_⟩
  cases hst : PoolState.step env call s with
  | none => trivial
  | some s1 =>
    simp only [hst, Option.get_some] at hrest
    exact hrest

theorem PoolState.run_idleOwned :
    ∀ (tr : List (Env × PoolCall)) (s s1 : PoolState),
      PoolState.PlausibleRun tr s → PoolState.run tr s = some s1 →
      s.WellFormed → s.IdleOwned → s1.IdleOwned := by
  intro tr
  induction tr with
  | nil =>
    intro s s1 _ hrun _ hs
    simp only [PoolState.run, Option.some.injEq] at hrun
    subst hrun
    exact hs
  | cons x rest ih =>
    intro s s1 hpl hrun hwf hs
    obtain ⟨env, call⟩ := x
    simp only [PoolState.run] at hrun
    simp only [PoolState.PlausibleRun] at hpl
    obtain ⟨hp1, hp2⟩ := hpl
    cases hst : PoolState.step env call s with
    | none => simp [hst] at hrun
    | some s2 =>
      simp only [hst] at hrun hp2
      exact ih s2 s1 hp2 hrun (PoolState.step_wellFormed env call s s2 hst hwf)
        (PoolState.step_idleOwned env call s s2 hst hp1 hwf hs)

/-! ## Owned connections are open, as long as `CloseFreeConnections` is not called -/

theorem PoolState.step_ownedOpen (env : Env) (call : PoolCall) (s s1 : PoolState)
    (hcall : call ≠ PoolCall.CloseFreeConnections)
    (hstep : PoolState.step env call s = some s1)
    (hwf : s.WellFormed) (hs : s.OwnedOpen) : s1.OwnedOpen := by
  obtain ⟨hopen, hfin⟩ := hs
  obtain ⟨_, hownd, hlt, hlto⟩ := hwf
  cases call with
  | GetConnection =>
    simp only [PoolState.step, PoolCall.exec] at hstep
    rcases GetConnection_cases env s.pool s.world with
      ⟨c, p2, w2, hl, hg⟩ | ⟨p2, w2, hl, hg⟩
    · obtain ⟨_, _, _, _, _, _, _, hal, _, _⟩ :=
        GetConnection.popLoop_frame env _ _ _ _ _ _ hl
      have key := GetConnection.popLoop_ownedOpen env _ _ _ _ _ _ hl hownd
        (fun x hx => hlt x (List.mem_append_left _ hx)) hopen hfin
      rw [hg] at hstep
      simp only [Option.some.injEq] at hstep
      subst hstep
      simp only [PoolState.OwnedOpen, hal]
      exact key
    · obtain ⟨_, _, _, _, _, _, _, hal, _, hsub⟩ :=
        GetConnection.popLoop_frame env _ _ _ _ _ _ hl
      obtain ⟨k1, k2⟩ := GetConnection.popLoop_ownedOpen env _ _ _ _ _ _ hl hownd
        (fun x hx => hlt x (List.mem_append_left _ hx)) hopen hfin
      simp only at hsub
      have hlto2 : ∀ x ∈ p2.m_connections, x < w2.allocated := by
        intro x hx
        rw [hal]
        exact hlto x (hsub.subset hx)
      have k3 : ∀ x ∈ w2.finished, x < w2.allocated := by
        intro x hx
        rw [hal]
        exact k2 x hx
      have hnew : w2.allocated ∉ w2.finished := fun h => Nat.lt_irrefl _ (k3 _ h)
      rw [hg] at hstep
      rcases GetConnection.openPath_cases env p2 w2 with
        ⟨_, ho⟩ | ⟨_, _, ho⟩ | ⟨_, _, ho⟩ | ⟨_, _, _, ho⟩
      · rw [ho] at hstep
        simp only [Option.some.injEq] at hstep
        subst hstep
        simp only [PoolState.OwnedOpen, GetConnection.logSqlConn_finished,
          GetConnection.logSqlConn_allocated]
        exact ⟨k1, k3⟩
      · rw [ho] at hstep
        simp only [Option.some.injEq] at hstep
        subst hstep
        simp only [PoolState.OwnedOpen, GetConnection.logSqlConn_finished,
          (GetConnection.cleaned_frame env _ _).2.2.2.1]
        refine ⟨?_, fun x hx => Nat.lt_succ_of_lt (k3 x hx)⟩
        intro x hx
        rcases List.mem_append.1 hx with hx | hx
        · exact k1 x hx
        · rw [List.mem_singleton.1 hx]
          exact hnew
      · rw [ho] at hstep
        simp only [Option.some.injEq] at hstep
        subst hstep
        simp only [PoolState.OwnedOpen]
        refine ⟨?_, ?_⟩
        · intro x hx hf
          rcases List.mem_append.1 hf with hf | hf
          · exact k1 x hx hf
          · have h5 := hlto2 x hx
            rw [List.mem_singleton.1 hf] at h5
            exact Nat.lt_irrefl _ h5
        · intro x hx
          rcases List.mem_append.1 hx with hx | hx
          · exact Nat.lt_succ_of_lt (k3 x hx)
          · rw [List.mem_singleton.1 hx]
            exact Nat.lt_succ_self _
      · rw [ho] at hstep
        simp only [Option.some.injEq] at hstep
        subst hstep
        simp only [PoolState.OwnedOpen, GetConnection.logSqlConn_finished,
          (GetConnection.cleaned_frame env _ _).2.2.2.1]
        exact ⟨k1, fun x hx => Nat.lt_succ_of_lt (k3 x hx)⟩
  | Release c =>
    simp only [PoolState.step, PoolCall.exec] at hstep
    by_cases hc : c ∈ s.checkedOut
    · simp only [hc, if_true, Option.some.injEq] at hstep
      subst hstep
      simp only [PoolState.OwnedOpen, Release]
      by_cases hok : env.isOk c = true
      · simp only [hok, if_true]
        exact ⟨hopen, hfin⟩
      · have hok2 : env.isOk c = false := by simpa using hok
        by_cases hbad : env.isBad c = true
        · simp only [hok2, hbad, if_true, SweepConnection, Bool.false_eq_true, if_false]
          refine ⟨?_, ?_⟩
          · intro x hx hf
            have hx2 := (List.Nodup.mem_erase_iff hownd).1 hx
            rcases List.mem_append.1 hf with hf | hf
            · exact hopen x hx2.2 hf
            · exact hx2.1 (List.mem_singleton.1 hf)
          · intro x hx
            rcases List.mem_append.1 hx with hx | hx
            · exact hfin x hx
            · rw [List.mem_singleton.1 hx]
              exact hlt c (List.mem_append_right _ hc)
        · have hbad2 : env.isBad c = false := by simpa using hbad
          simp only [hok2, hbad2, Bool.false_eq_true, if_false]
          exact ⟨hopen, hfin⟩
    · simp [hc] at hstep
  | CloseAllConnections =>
    simp only [PoolState.step, PoolCall.exec, CloseAllConnections, Option.some.injEq] at hstep
    subst hstep
    simp only [PoolState.OwnedOpen, List.not_mem_nil, false_implies, implies_true, true_and]
    intro x hx
    rcases List.mem_append.1 hx with hx | hx
    · rcases List.mem_append.1 hx with hx | hx
      · exact hfin x hx
      · exact hlt x (List.mem_append_left _ hx)
    · exact hlto x hx
  | CloseFreeConnections => exact absurd rfl hcall

theorem PoolState.run_ownedOpen :
    ∀ (tr : List (Env × PoolCall)) (s s1 : PoolState),
      (∀ x ∈ tr, x.2 ≠ PoolCall.CloseFreeConnections) →
      PoolState.run tr s = some s1 →
      s.WellFormed → s.OwnedOpen → s1.OwnedOpen := by
  intro tr
  induction tr with
  | nil =>
    intro s s1 _ hrun _ hs
    simp only [PoolState.run, Option.some.injEq] at hrun
    subst hrun
    exact hs
  | cons x rest ih =>
    intro s s1 hall hrun hwf hs
    obtain ⟨env, call⟩ := x
    simp only [PoolState.run] at hrun
    cases hst : PoolState.step env call s with
    | none => simp [hst] at hrun
    | some s2 =>
      simp only [hst] at hrun
      exact ih s2 s1 (fun y hy => hall y (List.mem_cons_of_mem _ hy)) hrun
        (PoolState.step_wellFormed env call s s2 hst hwf)
        (PoolState.step_ownedOpen env call s s2
          (hall (env, call) (List.mem_cons_self _ _)) hst hwf hs)

/-- As long as `CloseFreeConnections` is not called, a pool that starts empty in a world
where nothing was closed never owns a connection on which `finish()` was called. -/
theorem PoolState.owned_open_without_CloseFreeConnections (connectionString : String)
    (maximumConnections : Int) (w : World) (tr : List (Env × PoolCall)) (s : PoolState)
    (hw : w.finished = [])
    (hcalls : ∀ x ∈ tr, x.2 ≠ PoolCall.CloseFreeConnections)
    (hrun : PoolState.run tr (PoolState.init connectionString maximumConnections w) = some s) :
    ∀ c ∈ s.pool.m_connections, c ∉ s.world.finished := by
  have hinit : (PoolState.init connectionString maximumConnections w).OwnedOpen := by
    simp [PoolState.OwnedOpen, PoolState.init, mk_pool, hw]
  exact (PoolState.run_ownedOpen tr _ s hcalls hrun
    (PoolState.init_wellFormed connectionString maximumConnections w) hinit).1

/-! ## The map of the registry -/

theorem PoolMap.find_eq_none_iff (k : String) :
    ∀ m : PoolMap, PoolMap.find k m = none ↔ k ∉ m.map Prod.fst := by
  intro m
  induction m with
  | nil => simp [PoolMap.find]
  | cons e rest ih =>
    obtain ⟨k1, v1⟩ := e
    simp only [PoolMap.find, List.map_cons, List.mem_cons, not_or]
    by_cases h : k1 = k
    · simp [h]
    · simp only [h, if_false, ih]
      exact ⟨fun hr => ⟨fun e => h e.symm, hr⟩, fun hr => hr.2⟩

theorem PoolMap.mem_of_find (k : String) (v : Option Nat) :
    ∀ m : PoolMap, PoolMap.find k m = some v → (k, v) ∈ m := by
  intro m
  induction m with
  | nil => simp [PoolMap.find]
  | cons e rest ih =>
    obtain ⟨k1, v1⟩ := e
    intro h
    simp only [PoolMap.find] at h
    by_cases hk : k1 = k
    · simp only [hk, if_true, Option.some.injEq] at h
      rw [hk, h]
      exact List.mem_cons_self _ _
    · simp only [hk, if_false] at h
      exact List.mem_cons_of_mem _ (ih h)

theorem PoolMap.find_of_mem (k : String) (v : Option Nat) :
    ∀ m : PoolMap, (m.map Prod.fst).Nodup → (k, v) ∈ m → PoolMap.find k m = some v := by
  intro m
  induction m with
  | nil => simp
  | cons e rest ih =>
    obtain ⟨k1, v1⟩ := e
    intro hnd hmem
    simp only [List.map_cons, List.nodup_cons] at hnd
    simp only [PoolMap.find]
    rcases List.mem_cons.1 hmem with h | h
    · simp only [Prod.mk.injEq] at h
      simp [h.1, h.2]
    · have hk : k1 ≠ k := by
        intro e
        apply hnd.1
        rw [e]
        exact List.mem_map_of_mem Prod.fst h
      simp only [hk, if_false]
      exact ih hnd.2 h

theorem PoolMap.insert_perm (k : String) (v : Option Nat) :
    ∀ m : PoolMap, List.Perm (PoolMap.insert k v m) ((k, v) :: m) := by
  intro m
  induction m with
  | nil => exact List.Perm.refl _
  | cons e rest ih =>
    obtain ⟨k1, v1⟩ := e
    simp only [PoolMap.insert]
    split
    · exact List.Perm.refl _
    · exact (List.Perm.cons _ ih).trans (List.Perm.swap _ _ _)

theorem PoolMap.find_insert_other (k k2 : String) (v : Option Nat) (hk : k2 ≠ k) :
    ∀ m : PoolMap, PoolMap.find k2 (PoolMap.insert k v m) = PoolMap.find k2 m := by
  intro m
  induction m with
  | nil => simp [PoolMap.insert, PoolMap.find, Ne.symm hk]
  | cons e rest ih =>
    obtain ⟨k1, v1⟩ := e
    simp only [PoolMap.insert]
    split
    · simp [PoolMap.find, Ne.symm hk]
    · simp only [PoolMap.find, ih]

theorem PoolMap.replace_insert (k : String) (v0 v : Option Nat) :
    ∀ m : PoolMap, k ∉ m.map Prod.fst →
      PoolMap.replace k v (PoolMap.insert k v0 m) = PoolMap.insert k v m := by
  intro m
  induction m with
  | nil =>
    intro _
    simp [PoolMap.insert, PoolMap.replace]
  | cons e rest ih =>
    obtain ⟨k1, v1⟩ := e
    intro hk
    simp only [List.map_cons, List.mem_cons, not_or] at hk
    simp only [PoolMap.insert]
    split
    · simp [PoolMap.replace]
    · simp only [PoolMap.replace, Ne.symm hk.1, if_false, ih hk.2]

theorem PoolMap.find_insert_self (k : String) (v : Option Nat) (m : PoolMap)
    (hnd : (m.map Prod.fst).Nodup) (hk : k ∉ m.map Prod.fst) :
    PoolMap.find k (PoolMap.insert k v m) = some v := by
  have hperm := PoolMap.insert_perm k v m
  apply PoolMap.find_of_mem
  · have := (hperm.map Prod.fst).nodup_iff.2 (by
      simp only [List.map_cons, List.nodup_cons]
      exact ⟨hk, hnd⟩)
    exact this
  · exact hperm.symm.subset (List.mem_cons_self _ _)

/-! ## `GetPool` -/

/-- A descriptor that the registry knows: its pool is returned and nothing changes. -/
theorem GetPool_of_known (k : String) (c : PGSQLConnectionPoolContainer) (heap : PoolHeap)
    (pool : Nat) (h : PoolMap.find k c.m_pools = some (some pool)) :
    PGSQLConnectionPoolContainer.GetPool k c heap = (pool, c, heap) := by
  have h1 : PoolMap.subscript k c.m_pools = c.m_pools := by
    simp [PoolMap.subscript, h]
  simp [PGSQLConnectionPoolContainer.GetPool, h1, h]

/-- A descriptor that the registry does not know: a pool is constructed for it with the
default bound, at the next address, and entered under the descriptor. -/
theorem GetPool_of_new (k : String) (c : PGSQLConnectionPoolContainer) (heap : PoolHeap)
    (hnd : (c.m_pools.map Prod.fst).Nodup) (h : PoolMap.find k c.m_pools = none) :
    PGSQLConnectionPoolContainer.GetPool k c heap
      = (heap.length, { m_pools := PoolMap.insert k (some heap.length) c.m_pools },
          heap ++ [mk_pool k defaultMaximumConnections]) := by
  have hk : k ∉ c.m_pools.map Prod.fst := (PoolMap.find_eq_none_iff k c.m_pools).1 h
  have h1 : PoolMap.subscript k c.m_pools = PoolMap.insert k none c.m_pools := by
    simp [PoolMap.subscript, h]
  have h2 : PoolMap.find k (PoolMap.insert k none c.m_pools) = some none :=
    PoolMap.find_insert_self k none c.m_pools hnd hk
  have h3 : PoolMap.subscript k (PoolMap.insert k none c.m_pools)
      = PoolMap.insert k none c.m_pools := by
    simp [PoolMap.subscript, h2]
  simp [PGSQLConnectionPoolContainer.GetPool, h1, h2, h3, PoolMap.replace_insert k none _ _ hk]

/-- In a well-formed registry every entry holds the address of a pool of the heap. -/
theorem RegistryWF.find_some (c : PGSQLConnectionPoolContainer) (heap : PoolHeap)
    (hwf : RegistryWF c heap) (k : String) (v : Option Nat)
    (h : PoolMap.find k c.m_pools = some v) : ∃ pool, v = some pool ∧ pool < heap.length := by
  have hmem : v ∈ c.m_pools.map Prod.snd :=
    List.mem_map_of_mem Prod.snd (PoolMap.mem_of_find k v c.m_pools h)
  have := hwf.2.subset hmem
  simp only [List.mem_map, List.mem_range] at this
  obtain ⟨pool, hlt, he⟩ := this
  exact ⟨pool, he.symm, hlt⟩

/-- One `GetPool` call on a well-formed registry: the registry stays well-formed, the
returned pool is the one entered under the descriptor, entries made before are kept, and
the heap of pools only grows. -/
theorem GetPool_spec (k : String) (c : PGSQLConnectionPoolContainer) (heap : PoolHeap)
    (hwf : RegistryWF c heap) :
    RegistryWF (PGSQLConnectionPoolContainer.GetPool k c heap).2.1
      (PGSQLConnectionPoolContainer.GetPool k c heap).2.2 ∧
    PoolMap.find k (PGSQLConnectionPoolContainer.GetPool k c heap).2.1.m_pools
      = some (some (PGSQLConnectionPoolContainer.GetPool k c heap).1) ∧
    (∀ k2 v, PoolMap.find k2 c.m_pools = some v →
      PoolMap.find k2 (PGSQLConnectionPoolContainer.GetPool k c heap).2.1.m_pools = some v) ∧
    (∃ more, (PGSQLConnectionPoolContainer.GetPool k c heap).2.2 = heap ++ more) := by
  cases hf : PoolMap.find k c.m_pools with
  | some v =>
    obtain ⟨pool, hv, _⟩ := RegistryWF.find_some c heap hwf k v hf
    rw [hv] at hf
    rw [GetPool_of_known k c heap pool hf]
    exact ⟨hwf, hf, fun _ _ h => h, ⟨[], by simp⟩⟩
  | none =>
    have hk : k ∉ c.m_pools.map Prod.fst := (PoolMap.find_eq_none_iff k c.m_pools).1 hf
    rw [GetPool_of_new k c heap hwf.1 hf]
    have hperm := PoolMap.insert_perm k (some heap.length) c.m_pools
    refine ⟨⟨?_, ?_⟩, PoolMap.find_insert_self k _ c.m_pools hwf.1 hk, ?_, ⟨_, rfl⟩⟩
    · exact (hperm.map Prod.fst).nodup_iff.2 (by
        simp only [List.map_cons, List.nodup_cons]
        exact ⟨hk, hwf.1⟩)
    · refine (hperm.map Prod.snd).trans ?_
      simp only [List.map_cons, List.length_append, List.length_singleton, List.range_succ,
        List.map_append, List.map_nil]
      exact (List.Perm.cons _ hwf.2).trans (List.perm_append_singleton _ _).symm
    · intro k2 v h
      have hne : k2 ≠ k := by
        intro e
        rw [e, hf] at h
        exact absurd h (by simp)
      simp only
      rw [PoolMap.find_insert_other k k2 _ hne]
      exact h

/-- A sequence of `GetPool` calls on a well-formed registry. -/
theorem GetPoolCalls_spec :
    ∀ (ks : List String) (s : PGSQLConnectionPoolContainer × PoolHeap),
      RegistryWF s.1 s.2 →
      RegistryWF (GetPoolCalls ks s).2.1 (GetPoolCalls ks s).2.2 ∧
      (∀ x ∈ (GetPoolCalls ks s).1,
        PoolMap.find x.1 (GetPoolCalls ks s).2.1.m_pools = some (some x.2)) ∧
      (∀ k v, PoolMap.find k s.1.m_pools = some v →
        PoolMap.find k (GetPoolCalls ks s).2.1.m_pools = some v) ∧
      (GetPoolCalls ks s).1.map Prod.fst = ks ∧
      (∃ more, (GetPoolCalls ks s).2.2 = s.2 ++ more) := by
  intro ks
  induction ks with
  | nil =>
    intro s hwf
    exact ⟨hwf, by simp [GetPoolCalls], fun _ _ h => h, rfl, ⟨[], by simp [GetPoolCalls]⟩⟩
  | cons k rest ih =>
    intro s hwf
    obtain ⟨h1, h2, h3, more1, h4⟩ := GetPool_spec k s.1 s.2 hwf
    obtain ⟨i1, i2, i3, i4, more2, i5⟩ :=
      ih (PGSQLConnectionPoolContainer.GetPool k s.1 s.2).2 h1
    simp only [GetPoolCalls]
    refine ⟨i1, ?_, fun k2 v h => i3 k2 v (h3 k2 v h), by simp [i4], ⟨more1 ++ more2, ?_⟩⟩
    · intro x hx
      rcases List.mem_cons.1 hx with hx | hx
      · rw [hx]
        exact i3 _ _ h2
      · exact i2 x hx
    · rw [i5, h4, List.append_assoc]

/-! ## Handles and guards -/

/-- `ReleaseConnection` on a standalone handle that holds a connection: `finish()` is
called on the connection, and the handle is left as it was. -/
theorem PGSQL.ReleaseConnection_standalone (env : Env) (h : PGSQL) (heap : PoolHeap)
    (w : World) (c : Conn) (hconn : h.m_conn = some c) (hpool : h.m_connectionPool = none) :
    PGSQL.ReleaseConnection env h heap w
      = (h, heap, { w with finished := w.finished ++ [c] }) := by
  simp [PGSQL.ReleaseConnection, hconn, hpool]

/-- `asNonBlocking` does not change the mode of any connection; the guard remembers the
mode that the connection has. -/
theorem PGSQL.asNonBlocking_modes (h : PGSQL) (modes : NonBlockingModes)
    (g : ScopeNonBlocking) (modes1 : NonBlockingModes)
    (hg : h.asNonBlocking modes = some (g, modes1)) :
    modes1 = modes ∧ h.m_conn = some g.m_conn ∧ g.m_mode = isNonBlocking modes g.m_conn := by
  unfold PGSQL.asNonBlocking at hg
  cases hc : h.m_conn with
  | none => simp [hc] at hg
  | some c =>
    simp only [hc, ScopeNonBlocking.create, Option.some.injEq, Prod.mk.injEq] at hg
    obtain ⟨h1, h2⟩ := hg
    subst h1
    subst h2
    exact ⟨rfl, rfl, rfl⟩

/-! ## The capacity test as the source has it -/

theorem poolFullMessage_ne_openFailedMessage : openFailedMessage ≠ poolFullMessage := by
  decide

/-- The loop prunes nothing when no connection of the queue reports `CONNECTION_BAD`. -/
theorem GetConnection.popLoop_no_bad (env : Env) :
    ∀ (q : List Conn) (p : PGSQLConnectionPool) (w : World) (r : Option Conn)
      (p1 : PGSQLConnectionPool) (w1 : World),
      GetConnection.popLoop env q p w = (r, p1, w1) →
      (∀ c ∈ q, env.status c ≠ CONNECTION_BAD) →
      p1.m_connections = p.m_connections ∧
      p1.m_sweepedConnections = p.m_sweepedConnections ∧ w1 = w := by
  intro q
  induction q with
  | nil =>
    intro p w r p1 w1 h _
    simp only [GetConnection.popLoop, Prod.mk.injEq] at h
    obtain ⟨_, h2, h3⟩ := h
    subst h2
    subst h3
    exact ⟨rfl, rfl, rfl⟩
  | cons c rest ih =>
    intro p w r p1 w1 h hq
    have hbad : env.isBad c = false := by
      simp [Env.isBad, hq c (List.mem_cons_self _ _)]
    simp only [GetConnection.popLoop, hbad, Bool.false_eq_true, if_false] at h
    by_cases hok : env.isOk c = true
    · simp only [hok, if_true, Prod.mk.injEq] at h
      obtain ⟨_, h2, h3⟩ := h
      subst h2
      subst h3
      exact ⟨rfl, rfl, rfl⟩
    · have hok2 : env.isOk c = false := by simpa using hok
      simp only [hok2, Bool.false_eq_true, if_false] at h
      exact ih p w r p1 w1 h (fun x hx => hq x (List.mem_cons_of_mem _ hx))

/-- No call changes the bound of a pool. -/
theorem exec_maximumConnections (env : Env) (call : PoolCall) (p : PGSQLConnectionPool)
    (w : World) :
    (PoolCall.exec env call p w).2.1.m_maximumConnections = p.m_maximumConnections := by
  cases call with
  | GetConnection =>
    have key : (GetConnection env p w).2.1.m_maximumConnections = p.m_maximumConnections := by
      rcases GetConnection_cases env p w with ⟨c, p2, w2, hl, hg⟩ | ⟨p2, w2, hl, hg⟩
      · obtain ⟨hm, _⟩ := GetConnection.popLoop_frame env _ _ _ _ _ _ hl
        rw [hg]
        exact hm
      · obtain ⟨hm, _⟩ := GetConnection.popLoop_frame env _ _ _ _ _ _ hl
        simp only at hm
        rw [hg]
        rcases GetConnection.openPath_cases env p2 w2 with
          ⟨_, ho⟩ | ⟨_, _, ho⟩ | ⟨_, _, ho⟩ | ⟨_, _, _, ho⟩
        · rw [ho]
          exact hm
        · rw [ho]
          simp only [(GetConnection.cleaned_frame env _ _).1]
          exact hm
        · rw [ho]
          exact hm
        · rw [ho]
          simp only [(GetConnection.cleaned_frame env _ _).1]
          exact hm
    simp only [PoolCall.exec]
    generalize GetConnection env p w = g at key
    obtain ⟨r, p1, w1⟩ := g
    cases r <;> exact key
  | Release c =>
    simp only [PoolCall.exec, Release]
    split
    · rfl
    · split <;> rfl
  | CloseAllConnections => rfl
  | CloseFreeConnections => rfl

/-- A pool without a positive bound never ends `GetConnection` in the capacity error. -/
theorem GetConnection_unbounded_not_full (env : Env) (p : PGSQLConnectionPool) (w : World)
    (hmax : p.m_maximumConnections ≤ 0) :
    (GetConnection env p w).1 ≠ GetResult.raise_error poolFullMessage := by
  rcases GetConnection_cases env p w with ⟨c, p2, w2, hl, hg⟩ | ⟨p2, w2, hl, hg⟩
  · rw [hg]
    simp
  · obtain ⟨hm, _⟩ := GetConnection.popLoop_frame env _ _ _ _ _ _ hl
    simp only at hm
    rw [hg]
    rcases GetConnection.openPath_cases env p2 w2 with
      ⟨hf, _⟩ | ⟨_, _, ho⟩ | ⟨_, _, ho⟩ | ⟨_, _, _, ho⟩
    · exact absurd hf (GetConnection.not_raisesFull_of_unbounded p2 (by rw [hm]; exact hmax))
    · rw [ho]
      simp
    · rw [ho]
      simp only [ne_eq, GetResult.raise_error.injEq]
      exact poolFullMessage_ne_openFailedMessage
    · rw [ho]
      simp

/-! ## The pools of the registry -/

/-- `GetPool` leaves the heap of pools as it is or adds one pool, constructed with the
default bound. -/
theorem GetPool_heap (k : String) (c : PGSQLConnectionPoolContainer) (heap : PoolHeap) :
    (PGSQLConnectionPoolContainer.GetPool k c heap).2.2 = heap ∨
    (PGSQLConnectionPoolContainer.GetPool k c heap).2.2
      = heap ++ [mk_pool k defaultMaximumConnections] := by
  unfold PGSQLConnectionPoolContainer.GetPool
  simp only
  split
  · exact Or.inl rfl
  · exact Or.inr rfl

theorem RegistryOp.exec_default_bound (op : RegistryOp) (s : RegistryState)
    (hs : ∀ p ∈ s.heap, p.m_maximumConnections = defaultMaximumConnections) :
    ∀ p ∈ (RegistryOp.exec op s).heap, p.m_maximumConnections = defaultMaximumConnections := by
  cases op with
  | GetPool k =>
    intro p hp
    simp only [RegistryOp.exec] at hp
    rcases GetPool_heap k s.container s.heap with h | h
    · rw [h] at hp
      exact hs p hp
    · rw [h] at hp
      rcases List.mem_append.1 hp with hp | hp
      · exact hs p hp
      · rw [List.mem_singleton.1 hp]
        rfl
  | onPool pool env call =>
    intro p hp
    simp only [RegistryOp.exec] at hp
    cases hq : s.heap[pool]? with
    | none =>
      simp only [hq] at hp
      exact hs p hp
    | some q =>
      simp only [hq] at hp
      rcases List.mem_or_eq_of_mem_set hp with hp | hp
      · exact hs p hp
      · rw [hp, exec_maximumConnections]
        exact hs q (List.getElem?_mem hq)

theorem RegistryState.run_default_bound :
    ∀ (ops : List RegistryOp) (s : RegistryState),
      (∀ p ∈ s.heap, p.m_maximumConnections = defaultMaximumConnections) →
      ∀ p ∈ (RegistryState.run ops s).heap,
        p.m_maximumConnections = defaultMaximumConnections := by
  intro ops
  induction ops with
  | nil =>
    intro s hs
    exact hs
  | cons op rest ih =>
    intro s hs
    exact ih (RegistryOp.exec op s) (RegistryOp.exec_default_bound op s hs)

/-! ## Conservation of the counters -/

/-- When every connection reports healthy or bad and the queue is part of the owned set,
each sweep of the loop takes exactly one connection out of the owned set. -/
theorem GetConnection.popLoop_conserved (env : Env) (henv : env.OkOrBad) (co : List Conn) :
    ∀ (q : List Conn) (p : PGSQLConnectionPool) (w : World) (r : Option Conn)
      (p1 : PGSQLConnectionPool) (w1 : World),
      GetConnection.popLoop env q p w = (r, p1, w1) →
      List.Perm p.m_connections (q ++ co) →
      p1.m_connections.length + p1.m_sweepedConnections
        = p.m_connections.length + p.m_sweepedConnections := by
  intro q
  induction q with
  | nil =>
    intro p w r p1 w1 h _
    simp only [GetConnection.popLoop, Prod.mk.injEq] at h
    obtain ⟨_, h2, _⟩ := h
    subst h2
    rfl
  | cons c rest ih =>
    intro p w r p1 w1 h hp
    simp only [GetConnection.popLoop] at h
    by_cases hok : env.isOk c = true
    · simp only [hok, if_true, Prod.mk.injEq] at h
      obtain ⟨_, h2, _⟩ := h
      subst h2
      rfl
    · have hok2 : env.isOk c = false := by simpa using hok
      have hbad : env.isBad c = true := by
        rcases henv c with hb | hb
        · exact (Env.isBad_iff env c).2 hb
        · exact absurd ((Env.isOk_iff env c).2 hb) hok
      simp only [hok2, hbad, if_true, Bool.false_eq_true, if_false] at h
      have hmem : c ∈ p.m_connections := hp.symm.subset (by simp)
      have hperm2 : List.Perm (SweepConnection c p).m_connections (rest ++ co) := by
        have := List.Perm.erase c hp
        simpa [SweepConnection] using this
      have key := ih (SweepConnection c p) _ r p1 w1 h hperm2
      rw [key]
      simp only [SweepConnection, List.length_erase_of_mem hmem]
      have hpos : 0 < p.m_connections.length := List.length_pos_of_mem hmem
      omega

/-- The counters after `GetConnection`, for connections that report healthy or bad in a
pool whose owned set is made of the idle and the checked-out connections. -/
theorem GetConnection_counters (env : Env) (henv : env.OkOrBad) (co : List Conn)
    (p : PGSQLConnectionPool) (w : World)
    (hp : List.Perm p.m_connections (p.m_availableConnections ++ co)) :
    (GetConnection env p w).2.1.m_openedConnections + p.m_connections.length
        + p.m_sweepedConnections
      = p.m_openedConnections + (GetConnection env p w).2.1.m_connections.length
        + (GetConnection env p w).2.1.m_sweepedConnections ∧
    (GetConnection env p w).2.1.m_requestedConnections = p.m_requestedConnections + 1 ∧
    (GetConnection env p w).2.1.m_releasedConnections = p.m_releasedConnections := by
  rcases GetConnection_cases env p w with ⟨c, p2, w2, hl, hg⟩ | ⟨p2, w2, hl, hg⟩
  · obtain ⟨_, _, _, hop, hreq, hrel, _, _, _, _⟩ :=
      GetConnection.popLoop_frame env _ _ _ _ _ _ hl
    have key := GetConnection.popLoop_conserved env henv co _ _ _ _ _ _ hl hp
    simp only at hop hreq hrel key
    rw [hg]
    simp only
    refine ⟨?_, hreq, hrel⟩
    omega
  · obtain ⟨_, _, _, hop, hreq, hrel, _, _, _, _⟩ :=
      GetConnection.popLoop_frame env _ _ _ _ _ _ hl
    have key := GetConnection.popLoop_conserved env henv co _ _ _ _ _ _ hl hp
    simp only at hop hreq hrel key
    rw [hg]
    rcases GetConnection.openPath_cases env p2 w2 with
      ⟨_, ho⟩ | ⟨_, _, ho⟩ | ⟨_, _, ho⟩ | ⟨_, hnok, hnbad, _⟩
    · rw [ho]
      simp only
      refine ⟨?_, hreq, hrel⟩
      omega
    · rw [ho]
      simp only [(GetConnection.cleaned_frame env _ _).2.2.2.1,
        (GetConnection.cleaned_frame env _ _).2.2.2.2.1,
        (GetConnection.cleaned_frame env _ _).2.2.2.2.2.1,
        (GetConnection.cleaned_frame env _ _).2.2.2.2.2.2.1,
        (GetConnection.cleaned_frame env _ _).2.2.2.2.2.2.2.1,
        List.length_append, List.length_singleton]
      refine ⟨?_, hreq, hrel⟩
      omega
    · rw [ho]
      simp only
      refine ⟨?_, hreq, hrel⟩
      omega
    · exfalso
      rcases henv w2.allocated with hb | hb
      · exact hnbad hb
      · exact hnok hb.2

/-- The counters after `Release` of a connection that is checked out. -/
theorem Release_counters (env : Env) (henv : env.OkOrBad) (co : List Conn) (c : Conn)
    (p : PGSQLConnectionPool) (w : World) (hc : c ∈ co)
    (hp : List.Perm p.m_connections (p.m_availableConnections ++ co)) :
    (Release env c p w).1.m_openedConnections = p.m_openedConnections ∧
    (Release env c p w).1.m_connections.length + (Release env c p w).1.m_sweepedConnections
      = p.m_connections.length + p.m_sweepedConnections ∧
    (Release env c p w).1.m_requestedConnections = p.m_requestedConnections ∧
    (Release env c p w).1.m_releasedConnections = p.m_releasedConnections + 1 := by
  by_cases hok : env.isOk c = true
  · have e : Release env c p w
        = ({ p with
              m_releasedConnections := p.m_releasedConnections + 1
              m_availableConnections := p.m_availableConnections ++ [c] }, w) := by
      simp [Release, hok]
    rw [e]
    exact ⟨rfl, rfl, rfl, rfl⟩
  · have hok2 : env.isOk c = false := by simpa using hok
    have hbad : env.isBad c = true := by
      rcases henv c with hb | hb
      · exact (Env.isBad_iff env c).2 hb
      · exact absurd ((Env.isOk_iff env c).2 hb) hok
    have hmem : c ∈ p.m_connections := hp.symm.subset (List.mem_append_right _ hc)
    have hpos : 0 < p.m_connections.length := List.length_pos_of_mem hmem
    have e : Release env c p w
        = ({ p with
              m_releasedConnections := p.m_releasedConnections + 1
              m_sweepedConnections := p.m_sweepedConnections + 1
              m_connections := p.m_connections.erase c },
            { w with finished := w.finished ++ [c] }) := by
      simp [Release, hok2, hbad, SweepConnection]
    rw [e]
    refine ⟨rfl, ?_, rfl, rfl⟩
    simp only [List.length_erase_of_mem hmem]
    omega

theorem PoolState.step_conserved (env : Env) (henv : env.OkOrBad) (call : PoolCall)
    (hcall : call.isGetOrRelease = true) (s s1 : PoolState)
    (hstep : PoolState.step env call s = some s1) (hcnt : s.Counted) (hs : s.Conserved) :
    s1.Conserved ∧
    s1.pool.m_requestedConnections
      = s.pool.m_requestedConnections + (if call.isGetConnection then 1 else 0) ∧
    s1.pool.m_releasedConnections
      = s.pool.m_releasedConnections + (if call.isRelease then 1 else 0) := by
  obtain ⟨hk, hl⟩ := hs
  cases call with
  | GetConnection =>
    obtain ⟨k1, k2, k3⟩ := GetConnection_counters env henv s.checkedOut s.pool s.world hcnt
    simp only [PoolState.step, PoolCall.exec] at hstep
    generalize hg : GetConnection env s.pool s.world = g at hstep k1 k2 k3
    obtain ⟨r, p1, w1⟩ := g
    simp only at k1 k2 k3
    cases r with
    | conn c =>
      simp only [Option.some.injEq] at hstep
      subst hstep
      simp only [PoolState.Conserved, PoolCall.isGetConnection, PoolCall.isRelease,
        List.length_append, List.length_singleton, if_true, Bool.false_eq_true, if_false]
      refine ⟨⟨?_, ?_⟩, k2, by omega⟩ <;> omega
    | raise_error msg =>
      simp only [Option.some.injEq] at hstep
      subst hstep
      simp only [PoolState.Conserved, PoolCall.isGetConnection, PoolCall.isRelease,
        if_true, Bool.false_eq_true, if_false]
      refine ⟨⟨?_, ?_⟩, k2, by omega⟩ <;> omega
  | Release c =>
    simp only [PoolState.step, PoolCall.exec] at hstep
    by_cases hc : c ∈ s.checkedOut
    · simp only [hc, if_true, Option.some.injEq] at hstep
      subst hstep
      obtain ⟨k1, k2, k3, k4⟩ := Release_counters env henv s.checkedOut c s.pool s.world hc hcnt
      have hpos : 0 < s.checkedOut.length := List.length_pos_of_mem hc
      simp only [PoolState.Conserved, PoolCall.isGetConnection, PoolCall.isRelease,
        List.length_erase_of_mem hc, if_true, Bool.false_eq_true, if_false]
      refine ⟨⟨?_, ?_⟩, by omega, k4⟩ <;> omega
    · simp [hc] at hstep
  | CloseAllConnections => simp [PoolCall.isGetOrRelease] at hcall
  | CloseFreeConnections => simp [PoolCall.isGetOrRelease] at hcall

theorem PoolState.run_conserved :
    ∀ (tr : List (Env × PoolCall)) (s s1 : PoolState),
      (∀ x ∈ tr, x.1.OkOrBad ∧ x.2.isGetOrRelease = true) →
      PoolState.run tr s = some s1 → s.Counted → s.Conserved →
      s1.Conserved ∧
      s1.pool.m_requestedConnections = s.pool.m_requestedConnections + countGetConnection tr ∧
      s1.pool.m_releasedConnections = s.pool.m_releasedConnections + countRelease tr := by
  intro tr
  induction tr with
  | nil =>
    intro s s1 _ hrun _ hs
    simp only [PoolState.run, Option.some.injEq] at hrun
    subst hrun
    exact ⟨hs, by simp [countGetConnection], by simp [countRelease]⟩
  | cons x rest ih =>
    intro s s1 hall hrun hcnt hs
    obtain ⟨env, call⟩ := x
    simp only [PoolState.run] at hrun
    cases hst : PoolState.step env call s with
    | none => simp [hst] at hrun
    | some s2 =>
      simp only [hst] at hrun
      have hx := hall (env, call) (List.mem_cons_self _ _)
      obtain ⟨k1, k2, k3⟩ := PoolState.step_conserved env hx.1 call hx.2 s s2 hst hcnt hs
      obtain ⟨i1, i2, i3⟩ := ih s2 s1 (fun y hy => hall y (List.mem_cons_of_mem _ hy)) hrun
        (PoolState.step_counted env hx.1 call hx.2 s s2 hst hcnt) k1
      refine ⟨i1, ?_, ?_⟩
      · rw [i2, k2]
        simp only [countGetConnection, List.countP_cons]
        omega
      · rw [i3, k3]
        simp only [countRelease, List.countP_cons]
        omega

/-! ## Notices delivered to a registered handle -/

/-- `SetupInformation` on a handle that holds a connection, when notices are not
suppressed: the callback is registered for the connection with the address of the handle,
and the heap of handles keeps its length. -/
theorem PGSQL.SetupInformation_registers (cfg : NoticeConfig) (env : Env)
    (pass options : Conn → String) (this : Nat) (handles : HandleHeap)
    (regs : NoticeProcessors) (h : PGSQL) (c : Conn)
    (hign : cfg.IgnoreNotice = false) (hh : handles[this]? = some h)
    (hc : h.m_conn = some c) :
    (PGSQL.SetupInformation cfg env pass options this handles regs).2 c = some (some this) ∧
    (PGSQL.SetupInformation cfg env pass options this handles regs).1.length
      = handles.length := by
  simp [PGSQL.SetupInformation, hh, hc, hign, setNoticeProcessor]

/-- One notice delivered on a connection whose callback is registered with the handle at
address `a`. -/
theorem deliverNotice_registered (cfg : NoticeConfig) (regs : NoticeProcessors) (c : Conn)
    (a : Nat) (message : String) (handles : HandleHeap) (log : List String)
    (hreg : regs c = some (some a)) (ha : a < handles.length) :
    (deliverNotice cfg regs c message handles log).1.length = handles.length ∧
    pg_last_notice (deliverNotice cfg regs c message handles log).1 a = some message ∧
    (deliverNotice cfg regs c message handles log).2
      = log ++ (if cfg.LogNotice then [message] else []) := by
  have hget : handles[a]? = some handles[a] := List.getElem?_eq_getElem ha
  simp only [deliverNotice, hreg, notice_processor, hget]
  cases hl : cfg.LogNotice
  · simp [pg_last_notice, ha]
  · simp [pg_last_notice, ha]

/-- Several notices, the last of which is `message`. -/
theorem deliverNotices_registered (cfg : NoticeConfig) (regs : NoticeProcessors) (c : Conn)
    (a : Nat) (message : String) (hreg : regs c = some (some a)) :
    ∀ (msgs : List String) (handles : HandleHeap) (log : List String),
      a < handles.length →
      pg_last_notice (deliverNotices cfg regs c (msgs ++ [message]) (handles, log)).1 a
        = some message ∧
      (deliverNotices cfg regs c (msgs ++ [message]) (handles, log)).2
        = log ++ (if cfg.LogNotice then msgs ++ [message] else []) := by
  intro msgs
  induction msgs with
  | nil =>
    intro handles log ha
    obtain ⟨_, h2, h3⟩ := deliverNotice_registered cfg regs c a message handles log hreg ha
    simp only [List.nil_append, deliverNotices]
    exact ⟨h2, h3⟩
  | cons m rest ih =>
    intro handles log ha
    obtain ⟨h1, _, h3⟩ := deliverNotice_registered cfg regs c a m handles log hreg ha
    have e : deliverNotices cfg regs c (m :: (rest ++ [message])) (handles, log)
        = deliverNotices cfg regs c (rest ++ [message])
            (deliverNotice cfg regs c m handles log) := rfl
    have i := ih (deliverNotice cfg regs c m handles log).1
      (deliverNotice cfg regs c m handles log).2 (by rw [h1]; exact ha)
    rw [List.cons_append, e]
    refine ⟨i.1, i.2.trans ?_⟩
    rw [h3]
    cases cfg.LogNotice <;> simp

/-! ## C1: idle connections are reused in release order -/

/-- C1: in a pool whose idle queue is empty, after `Release(c1)` and `Release(c2)` of two
connections that pass the health test at release time and at acquire time, the next two
`GetConnection` calls return `c1` and then `c2`; neither call opens a connection: after
each of them the opened counter, the owned set and the number of connection objects ever
allocated are what they were before the two releases. -/
theorem C1_release_order_is_reuse_order (e1 e2 e3 e4 : Env) (p : PGSQLConnectionPool)
    (w : World) (c1 c2 : Conn)
    (r1 r2 : PGSQLConnectionPool × World) (g1 g2 : GetResult × PGSQLConnectionPool × World)
    (hidle : p.m_availableConnections = [])
    (h1 : e1.valid c1 = true ∧ e1.status c1 = CONNECTION_OK)
    (h2 : e2.valid c2 = true ∧ e2.status c2 = CONNECTION_OK)
    (h3 : e3.valid c1 = true ∧ e3.status c1 = CONNECTION_OK)
    (h4 : e4.valid c2 = true ∧ e4.status c2 = CONNECTION_OK)
    (hr1 : r1 = Release e1 c1 p w)
    (hr2 : r2 = Release e2 c2 r1.1 r1.2)
    (hg1 : g1 = GetConnection e3 r2.1 r2.2)
    (hg2 : g2 = GetConnection e4 g1.2.1 g1.2.2) :
    g1.1 = GetResult.conn c1 ∧ g2.1 = GetResult.conn c2 ∧
    g1.2.1.m_openedConnections = p.m_openedConnections ∧
    g2.2.1.m_openedConnections = p.m_openedConnections ∧
    g1.2.1.m_connections = p.m_connections ∧
    g2.2.1.m_connections = p.m_connections ∧
    g1.2.2.allocated = w.allocated ∧
    g2.2.2.allocated = w.allocated ∧
    g1.2.1.m_availableConnections = [c2] ∧
    g2.2.1.m_availableConnections = [] := by
  have k1 := (Env.isOk_iff e1 c1).2 h1
  have k2 := (Env.isOk_iff e2 c2).2 h2
  have k3 := (Env.isOk_iff e3 c1).2 h3
  have k4 := (Env.isOk_iff e4 c2).2 h4
  subst hr1
  subst hr2
  subst hg1
  subst hg2
  simp [Release, GetConnection, GetConnection.popLoop, k1, k2, k3, k4, hidle]

/-- Two connections are checked out of a pool that owns both; they are released as 7
and then 3, and come back as 7 and then 3. -/
theorem C1_release_order_is_reuse_order_witness :
    (GetConnection (Env.const CONNECTION_OK true)
      (Release (Env.const CONNECTION_OK true) 3
        (Release (Env.const CONNECTION_OK true) 7
          { mk_pool "T" (-1) with m_connections := [3, 7] }
          { World.empty with allocated := 8 }).1
        { World.empty with allocated := 8 }).1
      { World.empty with allocated := 8 }).1 = GetResult.conn 7 :=
  (C1_release_order_is_reuse_order (Env.const CONNECTION_OK true) (Env.const CONNECTION_OK true)
    (Env.const CONNECTION_OK true) (Env.const CONNECTION_OK true)
    { mk_pool "T" (-1) with m_connections := [3, 7] } { World.empty with allocated := 8 } 7 3
    _ _ _ _ rfl ⟨rfl, rfl⟩ ⟨rfl, rfl⟩ ⟨rfl, rfl⟩ ⟨rfl, rfl⟩ rfl rfl rfl rfl).1

/-! ## C2: the capacity test -/

/-- C2 (the code at the failing input): a freshly constructed pool with bound 2 owns
nothing and has an empty idle queue; `GetConnection` ends in the error "The connection
pool is full, cannot open new connection." although `owned_count = 0 < 2`, and it opens
nothing.  The source tests `connections < maxConnections`. -/
theorem C2_capacity_test_at_failing_input :
    GetConnection (Env.const CONNECTION_OK true) (mk_pool "T" 2) World.empty
      = (GetResult.raise_error "The connection pool is full, cannot open new connection.",
          { mk_pool "T" 2 with m_requestedConnections := 1 }, World.empty) := by
  decide

/-! ## C3: the counting invariant -/

/-- C3 as stated fails: a connection is opened and handed out, then released while it
reports the transitional status `CONNECTION_STARTED`.  `Release` neither queues nor sweeps
it, so one connection is owned while none is idle and none is checked out. -/
theorem C3_counting_fails_for_transitional_status :
    ¬ (∀ (tr : List (Env × PoolCall)) (s : PoolState),
        (∀ x ∈ tr, x.2.isGetOrRelease = true) →
        PoolState.run tr (PoolState.init "T" (-1) World.empty) = some s →
        s.pool.m_connections.length
          = s.pool.m_availableConnections.length + s.checkedOut.length) := by
  intro h
  have h1 := h
    [(Env.const CONNECTION_OK true, PoolCall.GetConnection),
     (Env.const CONNECTION_STARTED true, PoolCall.Release 0)]
    _ (by decide) rfl
  revert h1
  decide

/-- C3 (amended): starting from a freshly constructed pool, after every sequence of
`GetConnection` and `Release` calls in which each `Release` is applied to a connection
currently checked out, and in which every connection reports either `CONNECTION_BAD` or
healthy (boolean conversion true and `CONNECTION_OK`) at every call, the owned set is a
rearrangement of the idle queue followed by the checked-out connections; hence
`owned_count = idle_count + checked_out_count`. -/
theorem C3_counting_invariant (connectionString : String) (maximumConnections : Int)
    (w : World) (tr : List (Env × PoolCall)) (s : PoolState)
    (hcalls : ∀ x ∈ tr, x.2.isGetOrRelease = true)
    (henv : ∀ x ∈ tr, x.1.OkOrBad)
    (hrun : PoolState.run tr (PoolState.init connectionString maximumConnections w) = some s) :
    List.Perm s.pool.m_connections (s.pool.m_availableConnections ++ s.checkedOut) ∧
    s.pool.m_connections.length
      = s.pool.m_availableConnections.length + s.checkedOut.length := by
  have hinit : (PoolState.init connectionString maximumConnections w).Counted := by
    simp [PoolState.Counted, PoolState.init, mk_pool]
  have hc := PoolState.run_counted tr _ s (fun x hx => ⟨henv x hx, hcalls x hx⟩) hrun hinit
  refine ⟨hc, ?_⟩
  have := hc.length_eq
  simpa using this

/-- Two connections are opened, both are released, the second one as
`CONNECTION_BAD`: one connection is owned, and it is idle. -/
theorem C3_counting_invariant_witness :
    List.Perm [0] ([0] ++ ([] : List Conn)) ∧
    ([0] : List Conn).length = ([0] : List Conn).length + ([] : List Conn).length :=
  C3_counting_invariant "T" (-1) World.empty
    [(Env.const CONNECTION_OK true, PoolCall.GetConnection),
     (Env.const CONNECTION_OK true, PoolCall.GetConnection),
     (Env.const CONNECTION_OK true, PoolCall.Release 0),
     (Env.const CONNECTION_BAD true, PoolCall.Release 1)]
    { pool :=
        { mk_pool "T" (-1) with
          m_cleanedConnectionString := "host=h port=5432 user=u dbname=d"
          m_availableConnections := [0]
          m_connections := [0]
          m_sweepedConnections := 1
          m_openedConnections := 2
          m_requestedConnections := 2
          m_releasedConnections := 2 }
      world := { allocated := 2, finished := [1], sqlConnLogged := 0 }
      checkedOut := [] }
    (by decide)
    (by
      intro x hx
      simp only [List.mem_cons, List.mem_singleton, List.not_mem_nil, or_false] at hx
      rcases hx with rfl | rfl | rfl | rfl
      · exact Env.const_ok_OkOrBad
      · exact Env.const_ok_OkOrBad
      · exact Env.const_ok_OkOrBad
      · exact Env.const_bad_OkOrBad true)
    (by decide)

/-! ## C4: exclusive ownership -/

/-- C4: starting from a freshly constructed pool, after every sequence of `GetConnection`
and `Release` calls in which each `Release` is applied to a connection currently checked
out (whatever the connections report), no connection of the idle queue is checked out, no
connection occurs twice in the idle queue, and a connection returned by the next
`GetConnection` is not in the idle queue that the call leaves. -/
theorem C4_exclusive_ownership (connectionString : String) (maximumConnections : Int)
    (w : World) (tr : List (Env × PoolCall)) (s : PoolState)
    (_hcalls : ∀ x ∈ tr, x.2.isGetOrRelease = true)
    (hrun : PoolState.run tr (PoolState.init connectionString maximumConnections w) = some s) :
    (∀ c ∈ s.pool.m_availableConnections, c ∉ s.checkedOut) ∧
    s.pool.m_availableConnections.Nodup ∧
    (∀ (env : Env) (c : Conn) (p1 : PGSQLConnectionPool) (w1 : World),
      GetConnection env s.pool s.world = (GetResult.conn c, p1, w1) →
      c ∉ p1.m_availableConnections) := by
  have hwf := PoolState.run_wellFormed tr _ s hrun
    (PoolState.init_wellFormed connectionString maximumConnections w)
  have hnd := hwf.1
  rw [List.nodup_append] at hnd
  refine ⟨fun c hc hco => hnd.2.2 hc hco, hnd.1, ?_⟩
  intro env c p1 w1 hg
  have key := GetConnection_wellFormed env s.checkedOut s.pool s.world hwf
  rw [hg] at key
  have hnd2 := key.1
  simp only [GetResult.handedOut] at hnd2
  rw [List.nodup_append] at hnd2
  intro hc
  exact hnd2.2.2 hc (List.mem_append_right _ (List.mem_singleton_self c))

/-- Two connections are opened and the first is released: the idle queue `[0]` has no
duplicate. -/
theorem C4_exclusive_ownership_witness : ([0] : List Conn).Nodup :=
  (C4_exclusive_ownership "T" (-1) World.empty
    [(Env.const CONNECTION_OK true, PoolCall.GetConnection),
     (Env.const CONNECTION_OK true, PoolCall.GetConnection),
     (Env.const CONNECTION_OK true, PoolCall.Release 0)]
    { pool :=
        { mk_pool "T" (-1) with
          m_cleanedConnectionString := "host=h port=5432 user=u dbname=d"
          m_availableConnections := [0]
          m_connections := [0, 1]
          m_openedConnections := 2
          m_requestedConnections := 2
          m_releasedConnections := 1 }
      world := { allocated := 2, finished := [], sqlConnLogged := 0 }
      checkedOut := [1] }
    (by decide) (by decide)).2.1

/-! ## C5: health is checked again when a connection is acquired -/

/-- C5: when `GetConnection` returns a connection, the connection does not report
`CONNECTION_BAD` in that call; and either it was taken from the idle queue without any
allocation, and then it passes the health test of that call (boolean conversion true and
`CONNECTION_OK`), or it is the connection that the call has just allocated. -/
theorem C5_health_revalidated_at_acquire (env : Env) (p p1 : PGSQLConnectionPool)
    (w w1 : World) (c : Conn)
    (hg : GetConnection env p w = (GetResult.conn c, p1, w1)) :
    env.status c ≠ CONNECTION_BAD ∧
    ((c ∈ p.m_availableConnections ∧ w1.allocated = w.allocated ∧
        env.valid c = true ∧ env.status c = CONNECTION_OK) ∨
     (c = w.allocated ∧ w1.allocated = w.allocated + 1)) := by
  rcases GetConnection_cases env p w with ⟨c2, p2, w2, hl, hg2⟩ | ⟨p2, w2, hl, hg2⟩
  · rw [hg2] at hg
    simp only [Prod.mk.injEq, GetResult.conn.injEq] at hg
    obtain ⟨hc, hp, hw⟩ := hg
    subst hc
    subst hp
    subst hw
    obtain ⟨pre, hq, _, hok, _⟩ := GetConnection.popLoop_split env _ _ _ _ _ _ hl
    obtain ⟨_, _, _, _, _, _, _, hal, _, _⟩ := GetConnection.popLoop_frame env _ _ _ _ _ _ hl
    have hok2 := (Env.isOk_iff env c2).1 (hok c2 rfl)
    refine ⟨by rw [hok2.2]; decide, Or.inl ⟨?_, hal, hok2⟩⟩
    rw [hq]
    simp
  · obtain ⟨_, _, _, _, _, _, _, hal, _, _⟩ := GetConnection.popLoop_frame env _ _ _ _ _ _ hl
    rw [hg2] at hg
    rcases GetConnection.openPath_cases env p2 w2 with
      ⟨_, ho⟩ | ⟨_, hst, ho⟩ | ⟨_, _, ho⟩ | ⟨_, _, hnbad, ho⟩
    · rw [ho] at hg
      simp at hg
    · rw [ho] at hg
      simp only [Prod.mk.injEq, GetResult.conn.injEq] at hg
      obtain ⟨hc, _, hw⟩ := hg
      subst hc
      subst hw
      refine ⟨by rw [hst]; decide, Or.inr ⟨hal, ?_⟩⟩
      simp [hal]
    · rw [ho] at hg
      simp at hg
    · rw [ho] at hg
      simp only [Prod.mk.injEq, GetResult.conn.injEq] at hg
      obtain ⟨hc, _, hw⟩ := hg
      subst hc
      subst hw
      refine ⟨hnbad, Or.inr ⟨hal, ?_⟩⟩
      simp [hal]

/-- The idle queue holds connection 5, which reports `CONNECTION_OK`: it is returned. -/
theorem C5_health_revalidated_at_acquire_witness :
    (Env.const CONNECTION_OK true).status 5 ≠ CONNECTION_BAD ∧
    (((5 : Conn) ∈ [5] ∧ (6 : Nat) = 6 ∧
        (Env.const CONNECTION_OK true).valid 5 = true ∧
        (Env.const CONNECTION_OK true).status 5 = CONNECTION_OK) ∨
     ((5 : Conn) = 6 ∧ (6 : Nat) = 6 + 1)) :=
  C5_health_revalidated_at_acquire (Env.const CONNECTION_OK true)
    { mk_pool "T" (-1) with m_availableConnections := [5], m_connections := [5] }
    { mk_pool "T" (-1) with m_connections := [5], m_requestedConnections := 1 }
    { World.empty with allocated := 6 } { World.empty with allocated := 6 } 5 (by decide)

/-! ## C6: stale idle connections are pruned inside one call -/

/-- C6: let the idle queue start with the connections `bads`, all reporting
`CONNECTION_BAD`.  If the queue holds nothing else and the pool is unbounded
(`maximumConnections <= 0`), one `GetConnection` leaves the queue empty, adds
`bads.length` to the sweep counter, closes each of them, erases each of them from the owned
set (none of them is owned afterwards, in a pool whose owned set has no duplicate and
whose next address is new), and allocates exactly one connection; when that one reports
`CONNECTION_OK` it is returned, counted in `opened` and owned, and the error counter is
unchanged.  If instead a connection that passes the health test follows `bads`, it is
returned, the queue is what came after it, and nothing is opened. -/
theorem C6_stale_idle_connections_pruned (env : Env) (p : PGSQLConnectionPool) (w : World)
    (bads : List Conn) (hbad : ∀ c ∈ bads, env.status c = CONNECTION_BAD) :
    (p.m_availableConnections = bads → p.m_maximumConnections ≤ 0 →
      (GetConnection env p w).2.1.m_availableConnections = [] ∧
      (GetConnection env p w).2.1.m_sweepedConnections
        = p.m_sweepedConnections + bads.length ∧
      (GetConnection env p w).2.2.allocated = w.allocated + 1 ∧
      (∀ c ∈ bads, c ∈ (GetConnection env p w).2.2.finished) ∧
      (p.m_connections.Nodup → (∀ c ∈ bads, c ≠ w.allocated) →
        ∀ c ∈ bads, c ∉ (GetConnection env p w).2.1.m_connections) ∧
      (env.status w.allocated = CONNECTION_OK →
        (GetConnection env p w).1 = GetResult.conn w.allocated ∧
        (GetConnection env p w).2.1.m_openedConnections = p.m_openedConnections + 1 ∧
        (GetConnection env p w).2.1.m_connections
          = p.m_connections.diff bads ++ [w.allocated] ∧
        (GetConnection env p w).2.1.m_errors = p.m_errors)) ∧
    (∀ (h : Conn) (rest : List Conn),
      p.m_availableConnections = bads ++ h :: rest →
      env.valid h = true ∧ env.status h = CONNECTION_OK →
      GetConnection env p w
        = (GetResult.conn h,
            { p with
              m_requestedConnections := p.m_requestedConnections + 1
              m_availableConnections := rest
              m_connections := p.m_connections.diff bads
              m_sweepedConnections := p.m_sweepedConnections + bads.length },
            { w with finished := w.finished ++ bads })) := by
  constructor
  · intro hq hmax
    subst hq
    have hl : GetConnection.popLoop env p.m_availableConnections
        { p with m_requestedConnections := p.m_requestedConnections + 1 } w
        = (none,
            { p with
              m_requestedConnections := p.m_requestedConnections + 1
              m_availableConnections := []
              m_connections := p.m_connections.diff p.m_availableConnections
              m_sweepedConnections := p.m_sweepedConnections + p.m_availableConnections.length },
            { w with finished := w.finished ++ p.m_availableConnections }) := by
      have := GetConnection.popLoop_bad env p.m_availableConnections []
        { p with m_requestedConnections := p.m_requestedConnections + 1 } w hbad
      rw [List.append_nil] at this
      rw [this]
      simp [GetConnection.popLoop]
    rw [GetConnection_of_loop_none env p _ w _ hl]
    have hnf := GetConnection.not_raisesFull_of_unbounded
      { p with
        m_requestedConnections := p.m_requestedConnections + 1
        m_availableConnections := []
        m_connections := p.m_connections.diff p.m_availableConnections
        m_sweepedConnections := p.m_sweepedConnections + p.m_availableConnections.length } hmax
    have hdiff : p.m_connections.Nodup →
        ∀ c ∈ p.m_availableConnections, c ∉ p.m_connections.diff p.m_availableConnections := by
      intro hnd c hc hmem
      exact ((List.Nodup.mem_diff_iff hnd).1 hmem).2 hc
    rcases GetConnection.openPath_cases env _
        { w with finished := w.finished ++ p.m_availableConnections } with
      ⟨hf, _⟩ | ⟨_, hst, ho⟩ | ⟨_, hst, ho⟩ | ⟨_, hst, _, ho⟩
    · exact absurd hf hnf
    · rw [ho]
      simp only [(GetConnection.cleaned_frame env _ _).2.2.1,
        (GetConnection.cleaned_frame env _ _).2.2.2.1,
        (GetConnection.cleaned_frame env _ _).2.2.2.2.1,
        (GetConnection.cleaned_frame env _ _).2.2.2.2.2.1,
        (GetConnection.cleaned_frame env _ _).2.2.2.2.2.2.2.2,
        GetConnection.logSqlConn_finished, true_and, implies_true, and_true]
      refine ⟨fun c hc => List.mem_append_right _ hc, ?_⟩
      intro hnd hne c hc hmem
      rcases List.mem_append.1 hmem with hm | hm
      · exact hdiff hnd c hc hm
      · exact hne c hc (List.mem_singleton.1 hm)
    · rw [ho]
      simp only [true_and, hst]
      refine ⟨?_, ?_, ?_⟩
      · intro c hc
        exact List.mem_append_left _ (List.mem_append_right _ hc)
      · intro hnd _ c hc hmem
        exact hdiff hnd c hc hmem
      · intro hcontra
        exact absurd hcontra (by decide)
    · rw [ho]
      simp only [(GetConnection.cleaned_frame env _ _).2.2.1,
        (GetConnection.cleaned_frame env _ _).2.2.2.1,
        (GetConnection.cleaned_frame env _ _).2.2.2.2.1,
        GetConnection.logSqlConn_finished, true_and]
      refine ⟨fun c hc => List.mem_append_right _ hc, ?_, ?_⟩
      · intro hnd _ c hc hmem
        exact hdiff hnd c hc hmem
      · intro hcontra
        exact absurd hcontra hst
  · intro h rest hq hok
    have hok2 := (Env.isOk_iff env h).2 hok
    apply GetConnection_of_loop_some
    rw [hq, GetConnection.popLoop_bad env bads (h :: rest) _ w hbad]
    simp [GetConnection.popLoop, hok2]

/-- The idle queue holds the connections 0 and 1, both `CONNECTION_BAD`; address 2 is
opened with `CONNECTION_OK`.  Two connections are swept and the owned set is `[2]`. -/
theorem C6_stale_idle_connections_pruned_witness :
    (GetConnection
        (Env.withStatus (fun c => if c < 2 then CONNECTION_BAD else CONNECTION_OK))
        { mk_pool "T" (-1) with m_availableConnections := [0, 1], m_connections := [0, 1] }
        { World.empty with allocated := 2 }).2.1.m_sweepedConnections = 0 + 2 :=
  ((C6_stale_idle_connections_pruned
    (Env.withStatus (fun c => if c < 2 then CONNECTION_BAD else CONNECTION_OK))
    { mk_pool "T" (-1) with m_availableConnections := [0, 1], m_connections := [0, 1] }
    { World.empty with allocated := 2 } [0, 1] (by decide)).1 rfl (by decide)).2.1

/-! ## C7: release of a healthy connection -/

/-- C7: for every pool and every connection `c` that passes the health test (boolean
conversion true and `CONNECTION_OK`), `Release(c)` adds 1 to `released`, appends `c` at
the tail of the idle queue and changes nothing else: the owned set and the counters
`requested`, `opened`, `sweeped` and `errors` are unchanged, and nothing is closed. -/
theorem C7_release_healthy (env : Env) (p : PGSQLConnectionPool) (w : World) (c : Conn)
    (hok : env.valid c = true ∧ env.status c = CONNECTION_OK) :
    Release env c p w
      = ({ p with
            m_releasedConnections := p.m_releasedConnections + 1
            m_availableConnections := p.m_availableConnections ++ [c] }, w) := by
  have hok2 := (Env.isOk_iff env c).2 hok
  simp [Release, hok2]

/-- Connection 1 is released into a queue that holds connection 0. -/
theorem C7_release_healthy_witness :
    Release (Env.const CONNECTION_OK true) 1
        { mk_pool "T" (-1) with m_availableConnections := [0], m_connections := [0, 1] }
        { World.empty with allocated := 2 }
      = ({ mk_pool "T" (-1) with
            m_releasedConnections := 0 + 1
            m_availableConnections := [0] ++ [1]
            m_connections := [0, 1] }, { World.empty with allocated := 2 }) :=
  C7_release_healthy (Env.const CONNECTION_OK true)
    { mk_pool "T" (-1) with m_availableConnections := [0], m_connections := [0, 1] }
    { World.empty with allocated := 2 } 1 ⟨rfl, rfl⟩

/-! ## C8: release of an unhealthy connection -/

/-- C8 as stated fails: a connection that is owned and checked out is released while it
reports `CONNECTION_STARTED`, which is not `CONNECTION_OK`; `Release` counts the release
but sweeps nothing, and the connection stays in the owned set. -/
theorem C8_release_not_ok_fails_for_transitional_status :
    ¬ (∀ (env : Env) (p : PGSQLConnectionPool) (w : World) (c : Conn),
        c ∈ p.m_connections → c ∉ p.m_availableConnections →
        env.status c ≠ CONNECTION_OK →
        (Release env c p w).1.m_sweepedConnections = p.m_sweepedConnections + 1 ∧
        (Release env c p w).1.m_connections.length + 1 = p.m_connections.length) := by
  intro h
  have h1 := h (Env.const CONNECTION_STARTED true)
    (GetConnection (Env.const CONNECTION_OK true) (mk_pool "T" (-1)) World.empty).2.1
    (GetConnection (Env.const CONNECTION_OK true) (mk_pool "T" (-1)) World.empty).2.2
    0 (by decide) (by decide) (by decide)
  revert h1
  decide

/-- C8 (amended): for every pool and every owned connection `c` that is not in the idle
queue and reports `CONNECTION_BAD` at release time, `Release(c)` adds 1 to `released` and
1 to `sweeped`, closes `c`, erases `c` from the owned set (the owned count decreases by 1,
and `c` is no longer owned when the owned set had no duplicate), leaves the idle queue as
it was, and `c` is not in the idle queue after any later sequence of pool calls that does
not contain `Release(c)`. -/
theorem C8_release_bad (env : Env) (p : PGSQLConnectionPool) (w : World) (c : Conn)
    (hbad : env.status c = CONNECTION_BAD)
    (hown : c ∈ p.m_connections) (hidle : c ∉ p.m_availableConnections) :
    Release env c p w
      = ({ p with
            m_releasedConnections := p.m_releasedConnections + 1
            m_sweepedConnections := p.m_sweepedConnections + 1
            m_connections := p.m_connections.erase c },
          { w with finished := w.finished ++ [c] }) ∧
    (Release env c p w).1.m_connections.length + 1 = p.m_connections.length ∧
    (p.m_connections.Nodup → c ∉ (Release env c p w).1.m_connections) ∧
    c ∉ (Release env c p w).1.m_availableConnections ∧
    (∀ tr : List (Env × PoolCall), (∀ x ∈ tr, x.2 ≠ PoolCall.Release c) →
      c ∉ (execCalls tr (Release env c p w)).1.m_availableConnections) := by
  have hok : env.isOk c = false := by simp [Env.isOk, hbad]
  have hb : env.isBad c = true := by simp [Env.isBad, hbad]
  have heq : Release env c p w
      = ({ p with
            m_releasedConnections := p.m_releasedConnections + 1
            m_sweepedConnections := p.m_sweepedConnections + 1
            m_connections := p.m_connections.erase c },
          { w with finished := w.finished ++ [c] }) := by
    simp [Release, hok, hb, SweepConnection]
  have hidle2 : c ∉ (Release env c p w).1.m_availableConnections := by
    rw [heq]
    exact hidle
  refine ⟨heq, ?_, ?_, hidle2, ?_⟩
  · rw [heq]
    simp only [List.length_erase_of_mem hown]
    have hpos : 0 < p.m_connections.length := List.length_pos_of_mem hown
    omega
  · intro hnd
    rw [heq]
    exact fun hmem => (List.Nodup.mem_erase_iff hnd).1 hmem |>.1 rfl
  · intro tr htr
    exact execCalls_not_mem_available c tr _ htr hidle2

/-- Connection 0 is owned and checked out, and is released as `CONNECTION_BAD`: one
sweep is counted and nothing is owned any more. -/
theorem C8_release_bad_witness :
    (Release (Env.const CONNECTION_BAD true) 0
        { mk_pool "T" (-1) with m_connections := [0], m_openedConnections := 1,
                                m_requestedConnections := 1 }
        { World.empty with allocated := 1 }).1.m_connections.length + 1
      = ([0] : List Conn).length :=
  (C8_release_bad (Env.const CONNECTION_BAD true)
    { mk_pool "T" (-1) with m_connections := [0], m_openedConnections := 1,
                            m_requestedConnections := 1 }
    { World.empty with allocated := 1 } 0 rfl (by decide) (by decide)).2.1

/-! ## C9: a failed open -/

/-- C9: when the loop of `GetConnection` ends without returning a connection, leaving
the pool `p2` and the world `w2`, the capacity test does not raise, and the connection
just allocated reports `CONNECTION_BAD`, the call ends in the error "Getting connection
from pool failed." (no connection is returned), the error counter is one more than before
the open attempt, the new session is closed, and everything else in the pool (the opened
counter, the owned set, the idle queue) is as it was just before the open attempt. -/
theorem C9_open_failure (env : Env) (p p2 : PGSQLConnectionPool) (w w2 : World)
    (hloop : GetConnection.popLoop env p.m_availableConnections
      { p with m_requestedConnections := p.m_requestedConnections + 1 } w = (none, p2, w2))
    (hcap : ¬ (p2.m_maximumConnections > 0 ∧
      (p2.m_connections.length : Int) < p2.m_maximumConnections))
    (hbad : env.status w2.allocated = CONNECTION_BAD) :
    GetConnection env p w
      = (GetResult.raise_error "Getting connection from pool failed.",
          { p2 with m_errors := p2.m_errors + 1 },
          { GetConnection.logSqlConn env w2 with
            allocated := w2.allocated + 1
            finished := w2.finished ++ [w2.allocated] }) ∧
    (GetConnection env p w).2.1.m_errors = p.m_errors + 1 ∧
    (GetConnection env p w).2.1.m_openedConnections = p.m_openedConnections ∧
    (GetConnection env p w).2.1.m_availableConnections = [] ∧
    w2.allocated ∈ (GetConnection env p w).2.2.finished := by
  obtain ⟨_, _, _, hop, _, _, herr, _, _, _⟩ :=
    GetConnection.popLoop_frame env _ _ _ _ _ _ hloop
  obtain ⟨_, _, _, _, hnone⟩ := GetConnection.popLoop_split env _ _ _ _ _ _ hloop
  have hav := hnone rfl
  rw [GetConnection_of_loop_none env p p2 w w2 hloop]
  rcases GetConnection.openPath_cases env p2 w2 with
    ⟨hf, _⟩ | ⟨_, hst, _⟩ | ⟨_, _, ho⟩ | ⟨_, _, hst, _⟩
  · exact absurd hf hcap
  · rw [hbad] at hst
    exact absurd hst (by decide)
  · rw [ho]
    refine ⟨rfl, ?_, ?_, hav, ?_⟩
    · simpa using herr
    · simpa using hop
    · simp
  · exact absurd hbad hst

/-- An unbounded pool with an empty idle queue, and a server that refuses the
connection. -/
theorem C9_open_failure_witness :
    (GetConnection (Env.const CONNECTION_BAD false) (mk_pool "T" (-1)) World.empty).2.1.m_errors
      = 0 + 1 :=
  (C9_open_failure (Env.const CONNECTION_BAD false) (mk_pool "T" (-1))
    { mk_pool "T" (-1) with m_requestedConnections := 1 } World.empty World.empty
    (by decide) (by decide) rfl).2.1

/-! ## C10: `CloseAllConnections` and the call that follows -/

/-- C10 (the code at the failing input): on a pool constructed with bound 2,
`CloseAllConnections` leaves nothing owned and nothing idle, and the `GetConnection` that
follows does not take the open path: it ends in the error "The connection pool is full,
cannot open new connection.", allocates nothing and leaves `opened` at 0, although the
server would accept the connection. -/
theorem C10_after_close_all_bounded_pool_raises_full :
    (CloseAllConnections (mk_pool "T" 2) World.empty).1.m_connections = [] ∧
    (CloseAllConnections (mk_pool "T" 2) World.empty).1.m_availableConnections = [] ∧
    GetConnection (Env.const CONNECTION_OK true)
        (CloseAllConnections (mk_pool "T" 2) World.empty).1
        (CloseAllConnections (mk_pool "T" 2) World.empty).2
      = (GetResult.raise_error "The connection pool is full, cannot open new connection.",
          { mk_pool "T" 2 with m_requestedConnections := 1 }, World.empty) := by
  decide

/-! ## C11: `CloseFreeConnections` touches only the idle queue -/

/-- C11: for every pool, `CloseFreeConnections` empties the idle queue and changes no
other field of the pool: the owned set (so every checked-out connection is still owned)
and the five counters are unchanged; and `Release` of a connection `c` that passes the
health test afterwards adds 1 to `released` and makes `c` the only member of the idle
queue. -/
theorem C11_close_free_touches_only_idle_queue (env : Env) (p : PGSQLConnectionPool)
    (w : World) (c : Conn)
    (hok : env.valid c = true ∧ env.status c = CONNECTION_OK) :
    (CloseFreeConnections p w).1 = { p with m_availableConnections := [] } ∧
    (CloseFreeConnections p w).1.m_availableConnections.length = 0 ∧
    (∀ x ∈ p.m_connections, x ∈ (CloseFreeConnections p w).1.m_connections) ∧
    (CloseFreeConnections p w).1.m_requestedConnections = p.m_requestedConnections ∧
    (CloseFreeConnections p w).1.m_openedConnections = p.m_openedConnections ∧
    (CloseFreeConnections p w).1.m_releasedConnections = p.m_releasedConnections ∧
    (CloseFreeConnections p w).1.m_sweepedConnections = p.m_sweepedConnections ∧
    (CloseFreeConnections p w).1.m_errors = p.m_errors ∧
    Release env c (CloseFreeConnections p w).1 (CloseFreeConnections p w).2
      = ({ p with
            m_releasedConnections := p.m_releasedConnections + 1
            m_availableConnections := [c] },
          (CloseFreeConnections p w).2) := by
  have hok2 := (Env.isOk_iff env c).2 hok
  refine ⟨rfl, rfl, fun x hx => hx, rfl, rfl, rfl, rfl, rfl, ?_⟩
  simp [Release, CloseFreeConnections, hok2]

/-- The scenario of the specification: connection 0 is idle, connection 1 is checked
out; after `CloseFreeConnections` connection 1 is released. -/
theorem C11_close_free_touches_only_idle_queue_witness :
    Release (Env.const CONNECTION_OK true) 1
        (CloseFreeConnections
          { mk_pool "T" (-1) with m_availableConnections := [0], m_connections := [0, 1] }
          { World.empty with allocated := 2 }).1
        (CloseFreeConnections
          { mk_pool "T" (-1) with m_availableConnections := [0], m_connections := [0, 1] }
          { World.empty with allocated := 2 }).2
      = ({ mk_pool "T" (-1) with
            m_connections := [0, 1]
            m_releasedConnections := 0 + 1
            m_availableConnections := [1] },
          (CloseFreeConnections
            { mk_pool "T" (-1) with m_availableConnections := [0], m_connections := [0, 1] }
            { World.empty with allocated := 2 }).2) :=
  (C11_close_free_touches_only_idle_queue (Env.const CONNECTION_OK true)
    { mk_pool "T" (-1) with m_availableConnections := [0], m_connections := [0, 1] }
    { World.empty with allocated := 2 } 1 ⟨rfl, rfl⟩).2.2.2.2.2.2.2.2

/-! ## C12: the registry -/

/-- C12: let any sequence of `GetPool` calls be made on a freshly constructed registry.
Two of the calls return the same pool exactly when their descriptor strings are equal;
repeating a call with a descriptor that was already used returns the same pool again and
changes neither the registry nor the heap of pools (no pool is created); any further
`GetPool` call keeps the pools that exist and what `GetPools` lists; and `GetPools` lists
the addresses of all pools created so far, each exactly once. -/
theorem C12_registry_lookup (ks : List String) :
    ((GetPoolCalls ks (PGSQLConnectionPoolContainer.create, [])).1.map Prod.fst = ks) ∧
    (∀ x ∈ (GetPoolCalls ks (PGSQLConnectionPoolContainer.create, [])).1,
      ∀ y ∈ (GetPoolCalls ks (PGSQLConnectionPoolContainer.create, [])).1,
        (x.2 = y.2 ↔ x.1 = y.1)) ∧
    (∀ x ∈ (GetPoolCalls ks (PGSQLConnectionPoolContainer.create, [])).1,
      PGSQLConnectionPoolContainer.GetPool x.1
          (GetPoolCalls ks (PGSQLConnectionPoolContainer.create, [])).2.1
          (GetPoolCalls ks (PGSQLConnectionPoolContainer.create, [])).2.2
        = (x.2, (GetPoolCalls ks (PGSQLConnectionPoolContainer.create, [])).2)) ∧
    (∀ k : String,
      (∃ more,
        (PGSQLConnectionPoolContainer.GetPool k
            (GetPoolCalls ks (PGSQLConnectionPoolContainer.create, [])).2.1
            (GetPoolCalls ks (PGSQLConnectionPoolContainer.create, [])).2.2).2.2
          = (GetPoolCalls ks (PGSQLConnectionPoolContainer.create, [])).2.2 ++ more) ∧
      ∀ v ∈ (GetPoolCalls ks (PGSQLConnectionPoolContainer.create, [])).2.1.GetPools,
        v ∈ (PGSQLConnectionPoolContainer.GetPool k
            (GetPoolCalls ks (PGSQLConnectionPoolContainer.create, [])).2.1
            (GetPoolCalls ks (PGSQLConnectionPoolContainer.create, [])).2.2).2.1.GetPools) ∧
    List.Perm (GetPoolCalls ks (PGSQLConnectionPoolContainer.create, [])).2.1.GetPools
      ((List.range (GetPoolCalls ks (PGSQLConnectionPoolContainer.create, [])).2.2.length).map
        some) := by
  have hinit : RegistryWF PGSQLConnectionPoolContainer.create [] := by
    simp [RegistryWF, PGSQLConnectionPoolContainer.create]
  obtain ⟨hwf, hfind, _, hkeys, _⟩ :=
    GetPoolCalls_spec ks (PGSQLConnectionPoolContainer.create, []) hinit
  have hvals : ((GetPoolCalls ks (PGSQLConnectionPoolContainer.create, [])).2.1.m_pools.map
      Prod.snd).Nodup :=
    hwf.2.nodup_iff.2 ((List.nodup_range _).map (fun a b h => Option.some.inj h))
  refine ⟨hkeys, ?_, ?_, ?_, hwf.2⟩
  · intro x hx y hy
    have fx := hfind x hx
    have fy := hfind y hy
    constructor
    · intro h
      rw [h] at fx
      have mx := PoolMap.mem_of_find _ _ _ fx
      have my := PoolMap.mem_of_find _ _ _ fy
      have := List.inj_on_of_nodup_map hvals mx my rfl
      simp only [Prod.mk.injEq, and_true] at this
      exact this
    · intro h
      rw [h] at fx
      rw [fx] at fy
      simpa using fy
  · intro x hx
    exact GetPool_of_known x.1 _ _ x.2 (hfind x hx)
  · intro k
    obtain ⟨_, _, h3, h4⟩ := GetPool_spec k _ _ hwf
    refine ⟨h4, ?_⟩
    intro v hv
    simp only [PGSQLConnectionPoolContainer.GetPools, List.mem_map] at hv ⊢
    obtain ⟨e, he, hev⟩ := hv
    have hf := PoolMap.find_of_mem e.1 e.2 _ hwf.1 (by simpa using he)
    exact ⟨(e.1, e.2), PoolMap.mem_of_find _ _ _ (h3 e.1 e.2 hf), hev⟩

/-! ## C13: releasing a pool-backed handle twice -/

/-- C13: for a handle that holds connection `c` of the pool `p` at address `pool`, the
first `ReleaseConnection` is exactly one `Release(c)` on that pool followed by clearing
the connection and the pool reference; the second `ReleaseConnection` changes nothing at
all: not the handle, not a pool (no counter, no idle queue), and nothing is closed.  Over
the two calls `released` has increased by exactly 1. -/
theorem C13_pooled_release_is_idempotent (env1 env2 : Env) (h : PGSQL) (heap : PoolHeap)
    (w : World) (c : Conn) (pool : Nat) (p : PGSQLConnectionPool)
    (hconn : h.m_conn = some c) (hpool : h.m_connectionPool = some pool)
    (hp : heap[pool]? = some p) :
    PGSQL.ReleaseConnection env1 h heap w
      = ({ h with m_connectionPool := none, m_conn := none },
          heap.set pool (Release env1 c p w).1, (Release env1 c p w).2) ∧
    PGSQL.ReleaseConnection env2 (PGSQL.ReleaseConnection env1 h heap w).1
        (PGSQL.ReleaseConnection env1 h heap w).2.1
        (PGSQL.ReleaseConnection env1 h heap w).2.2
      = PGSQL.ReleaseConnection env1 h heap w ∧
    ((PGSQL.ReleaseConnection env2 (PGSQL.ReleaseConnection env1 h heap w).1
        (PGSQL.ReleaseConnection env1 h heap w).2.1
        (PGSQL.ReleaseConnection env1 h heap w).2.2).2.1[pool]?).map
          (fun q => q.m_releasedConnections)
      = some (p.m_releasedConnections + 1) := by
  have h1 : PGSQL.ReleaseConnection env1 h heap w
      = ({ h with m_connectionPool := none, m_conn := none },
          heap.set pool (Release env1 c p w).1, (Release env1 c p w).2) := by
    simp [PGSQL.ReleaseConnection, hconn, hpool, hp]
  have h2 : PGSQL.ReleaseConnection env2 (PGSQL.ReleaseConnection env1 h heap w).1
        (PGSQL.ReleaseConnection env1 h heap w).2.1
        (PGSQL.ReleaseConnection env1 h heap w).2.2
      = PGSQL.ReleaseConnection env1 h heap w := by
    rw [h1]
    simp [PGSQL.ReleaseConnection]
  have hlt : pool < heap.length := by
    rcases Nat.lt_or_ge pool heap.length with hl | hl
    · exact hl
    · rw [List.getElem?_eq_none hl] at hp
      exact absurd hp (by simp)
  refine ⟨h1, h2, ?_⟩
  rw [h2, h1]
  have hrel : (Release env1 c p w).1.m_releasedConnections = p.m_releasedConnections + 1 := by
    unfold Release
    split
    · rfl
    · split <;> rfl
  simp [List.getElem?_set_self, hlt, hrel]

/-- A handle on connection 0 of the only pool, released twice. -/
theorem C13_pooled_release_is_idempotent_witness :
    ((PGSQL.ReleaseConnection (Env.const CONNECTION_OK true)
        (PGSQL.ReleaseConnection (Env.const CONNECTION_OK true) (PGSQL.pooled 0 0 "T")
          [{ mk_pool "T" (-1) with m_connections := [0] }] { World.empty with allocated := 1 }).1
        (PGSQL.ReleaseConnection (Env.const CONNECTION_OK true) (PGSQL.pooled 0 0 "T")
          [{ mk_pool "T" (-1) with m_connections := [0] }]
          { World.empty with allocated := 1 }).2.1
        (PGSQL.ReleaseConnection (Env.const CONNECTION_OK true) (PGSQL.pooled 0 0 "T")
          [{ mk_pool "T" (-1) with m_connections := [0] }]
          { World.empty with allocated := 1 }).2.2).2.1[0]?).map
          (fun q => q.m_releasedConnections)
      = some (0 + 1) :=
  (C13_pooled_release_is_idempotent (Env.const CONNECTION_OK true)
    (Env.const CONNECTION_OK true) (PGSQL.pooled 0 0 "T")
    [{ mk_pool "T" (-1) with m_connections := [0] }] { World.empty with allocated := 1 }
    0 0 { mk_pool "T" (-1) with m_connections := [0] } rfl rfl rfl).2.2

/-! ## C14: releasing a standalone handle twice -/

/-- C14 (the code at the failing input): a standalone handle on connection 0 is released
twice, as by `pg_close` followed by the destructor.  The first `ReleaseConnection` calls
`finish()` but leaves the connection reference of the handle in place, and the second one
calls `finish()` on the same connection again. -/
theorem C14_standalone_release_twice_closes_twice :
    (PGSQL.ReleaseConnection (Env.const CONNECTION_OK true) (PGSQL.standalone 0 "T") []
        { World.empty with allocated := 1 }).1.m_conn = some 0 ∧
    (PGSQL.ReleaseConnection (Env.const CONNECTION_OK true) (PGSQL.standalone 0 "T") []
        { World.empty with allocated := 1 }).2.2.finished = [0] ∧
    (PGSQL.ReleaseConnection (Env.const CONNECTION_BAD false)
        (PGSQL.ReleaseConnection (Env.const CONNECTION_OK true) (PGSQL.standalone 0 "T") []
          { World.empty with allocated := 1 }).1
        (PGSQL.ReleaseConnection (Env.const CONNECTION_OK true) (PGSQL.standalone 0 "T") []
          { World.empty with allocated := 1 }).2.1
        (PGSQL.ReleaseConnection (Env.const CONNECTION_OK true) (PGSQL.standalone 0 "T") []
          { World.empty with allocated := 1 }).2.2).2.2.finished = [0, 0] := by
  decide

/-! ## C15: a transitional status -/

/-- C15 as stated fails: `Release` of a connection that reports the transitional status
`CONNECTION_STARTED` does not append it to the idle queue. -/
theorem C15_transitional_is_not_treated_as_ok :
    ¬ (∀ (env : Env) (p : PGSQLConnectionPool) (w : World) (c : Conn),
        env.status c ≠ CONNECTION_OK → env.status c ≠ CONNECTION_BAD →
        (Release env c p w).1.m_availableConnections = p.m_availableConnections ++ [c]) := by
  intro h
  have h1 := h (Env.const CONNECTION_STARTED true) (mk_pool "T" (-1)) World.empty 0
    (by decide) (by decide)
  revert h1
  decide

/-- C15 (amended): a status that is neither `CONNECTION_OK` nor `CONNECTION_BAD` is
treated neither as OK nor as BAD.  For a connection `c` with such a status, `Release(c)`
only adds 1 to `released`: `c` is not appended to the idle queue and not pruned;
`GetConnection` on an idle queue that starts with `c` drops `c` without returning, pruning
or closing it and goes on as it would on the rest of the queue; and when the open path is
taken and the freshly opened session has such a status, the session is returned to the
caller but is not added to the owned set and not counted in `opened`. -/
theorem C15_transitional_status (env : Env) (p : PGSQLConnectionPool) (w : World)
    (c : Conn) (hnok : env.status c ≠ CONNECTION_OK) (hnbad : env.status c ≠ CONNECTION_BAD) :
    Release env c p w
      = ({ p with m_releasedConnections := p.m_releasedConnections + 1 }, w) ∧
    (∀ rest : List Conn, p.m_availableConnections = c :: rest →
      GetConnection env p w = GetConnection env { p with m_availableConnections := rest } w) ∧
    (c = w.allocated →
      ¬ (p.m_maximumConnections > 0 ∧
          (p.m_connections.length : Int) < p.m_maximumConnections) →
      (GetConnection.openPath env p w).1 = GetResult.conn c ∧
      (GetConnection.openPath env p w).2.1.m_connections = p.m_connections ∧
      (GetConnection.openPath env p w).2.1.m_openedConnections = p.m_openedConnections ∧
      (GetConnection.openPath env p w).2.2.allocated = w.allocated + 1) := by
  have hok : env.isOk c = false := by simp [Env.isOk, hnok]
  have hbad : env.isBad c = false := by simp [Env.isBad, hnbad]
  refine ⟨by simp [Release, hok, hbad], ?_, ?_⟩
  · intro rest hq
    simp only [GetConnection, hq]
    rw [GetConnection.popLoop_cons_other env c rest _ w hok hbad]
    have h1 := GetConnection.popLoop_queue_field env rest (c :: rest)
      { p with
        m_requestedConnections := p.m_requestedConnections + 1
        m_availableConnections := rest } w
    simp only at h1
    rw [h1]
  · intro hc hcap
    subst hc
    rcases GetConnection.openPath_cases env p w with
      ⟨hf, _⟩ | ⟨_, hst, _⟩ | ⟨_, hst, _⟩ | ⟨_, _, _, ho⟩
    · exact absurd hf hcap
    · exact absurd hst hnok
    · exact absurd hst hnbad
    · rw [ho]
      exact ⟨rfl, (GetConnection.cleaned_frame env _ _).2.2.2.1,
        (GetConnection.cleaned_frame env _ _).2.2.2.2.2.1, rfl⟩

/-- Connection 0 is released while it reports `CONNECTION_STARTED`: only the release is
counted. -/
theorem C15_transitional_status_witness :
    Release (Env.const CONNECTION_STARTED true) 0
        { mk_pool "T" (-1) with m_connections := [0] } { World.empty with allocated := 1 }
      = ({ mk_pool "T" (-1) with m_connections := [0], m_releasedConnections := 0 + 1 },
          { World.empty with allocated := 1 }) :=
  (C15_transitional_status (Env.const CONNECTION_STARTED true)
    { mk_pool "T" (-1) with m_connections := [0] } { World.empty with allocated := 1 } 0
    (by decide) (by decide)).1

/-! ## C16: idle connections are owned -/

/-- C16 as stated fails: a session is opened while it reports the transitional status
`CONNECTION_STARTED`; it is handed to the caller without being added to the owned set.
When it is released as `CONNECTION_OK` it enters the idle queue, and is not owned. -/
theorem C16_idle_not_owned_after_transitional_open :
    ¬ (∀ (tr : List (Env × PoolCall)) (s : PoolState),
        PoolState.run tr (PoolState.init "T" (-1) World.empty) = some s →
        ∀ c ∈ s.pool.m_availableConnections, c ∈ s.pool.m_connections) := by
  intro h
  have h1 := h
    [(Env.const CONNECTION_STARTED true, PoolCall.GetConnection),
     (Env.const CONNECTION_OK true, PoolCall.Release 0)]
    _ rfl 0 (by decide)
  revert h1
  decide

/-- C16 (amended): starting from an empty pool, after every sequence of `GetConnection`,
`Release` (each applied to a connection currently checked out), `CloseAllConnections` and
`CloseFreeConnections`, in which every newly opened session reports `CONNECTION_OK` or
`CONNECTION_BAD` and no session passes the health test after the pool has closed it,
every connection in the idle queue is a member of the owned set. -/
theorem C16_idle_subset_owned (connectionString : String) (maximumConnections : Int)
    (w : World) (tr : List (Env × PoolCall)) (s : PoolState)
    (hpl : PoolState.PlausibleRun tr (PoolState.init connectionString maximumConnections w))
    (hrun : PoolState.run tr (PoolState.init connectionString maximumConnections w) = some s) :
    ∀ c ∈ s.pool.m_availableConnections, c ∈ s.pool.m_connections := by
  have hinit : (PoolState.init connectionString maximumConnections w).IdleOwned := by
    simp [PoolState.IdleOwned, PoolState.init, mk_pool]
  exact (PoolState.run_idleOwned tr _ s hpl hrun
    (PoolState.init_wellFormed connectionString maximumConnections w) hinit).1

/-- A connection is opened, released as `CONNECTION_BAD` and so closed, and a second
one is opened and released healthy: the idle queue `[1]` is part of the owned set `[1]`. -/
theorem C16_idle_subset_owned_witness : (1 : Conn) ∈ ([1] : List Conn) :=
  C16_idle_subset_owned "T" (-1) World.empty
    [(Env.withStatus (fun _ => CONNECTION_OK), PoolCall.GetConnection),
     (Env.withStatus (fun _ => CONNECTION_BAD), PoolCall.Release 0),
     (Env.withStatus (fun c => if c = 0 then CONNECTION_BAD else CONNECTION_OK),
       PoolCall.GetConnection),
     (Env.withStatus (fun c => if c = 0 then CONNECTION_BAD else CONNECTION_OK),
       PoolCall.Release 1)]
    { pool :=
        { mk_pool "T" (-1) with
          m_cleanedConnectionString := "host=h port=5432 user=u dbname=d"
          m_availableConnections := [1]
          m_connections := [1]
          m_sweepedConnections := 1
          m_openedConnections := 2
          m_requestedConnections := 2
          m_releasedConnections := 2 }
      world := { allocated := 2, finished := [0], sqlConnLogged := 0 }
      checkedOut := [] }
    (PoolState.plausibleRun_cons _ _ _ _ (by decide) ⟨Or.inl (by decide), by decide⟩
      (PoolState.plausibleRun_cons _ _ _ _ (by decide) ⟨Or.inr (by decide), by decide⟩
        (PoolState.plausibleRun_cons _ _ _ _ (by decide) ⟨Or.inl (by decide), by decide⟩
          (PoolState.plausibleRun_cons _ _ _ _ (by decide) ⟨Or.inl (by decide), by decide⟩
            trivial))))
    (by decide) 1 (by decide)

/-! ## C17: the owned set and closed connections -/

/-- C17 (the code at the failing input): a fresh unbounded pool opens connection 0,
the connection is released healthy, and `CloseFreeConnections` is called.  `finish()` was
called on connection 0, and it is still in the owned set: `TotalConnectionsCount` is 1. -/
theorem C17_close_free_leaves_closed_connection_owned :
    (execCalls
        [(Env.const CONNECTION_OK true, PoolCall.GetConnection),
         (Env.const CONNECTION_OK true, PoolCall.Release 0),
         (Env.const CONNECTION_OK true, PoolCall.CloseFreeConnections)]
        (mk_pool "T" (-1), World.empty)).1.m_connections = [0] ∧
    (execCalls
        [(Env.const CONNECTION_OK true, PoolCall.GetConnection),
         (Env.const CONNECTION_OK true, PoolCall.Release 0),
         (Env.const CONNECTION_OK true, PoolCall.CloseFreeConnections)]
        (mk_pool "T" (-1), World.empty)).2.finished = [0] ∧
    (execCalls
        [(Env.const CONNECTION_OK true, PoolCall.GetConnection),
         (Env.const CONNECTION_OK true, PoolCall.Release 0),
         (Env.const CONNECTION_OK true, PoolCall.CloseFreeConnections)]
        (mk_pool "T" (-1), World.empty)).1.TotalConnectionsCount = 1 := by
  decide

/-! ## C18: the capacity invariant -/

/-- C18: a pool constructed with a bound `max > 0` owns at most `max` connections after
every sequence of `GetConnection`, `Release`, `CloseAllConnections` and
`CloseFreeConnections` calls, failed calls included.  It owns none at all: as long as the
owned set is smaller than the bound, `GetConnection` ends in the capacity error instead
of opening. -/
theorem C18_capacity_invariant (connectionString : String) (maximumConnections : Int)
    (w : World) (tr : List (Env × PoolCall)) (hmax : maximumConnections > 0) :
    (execCalls tr (mk_pool connectionString maximumConnections, w)).1.TotalConnectionsCount
      ≤ maximumConnections ∧
    (execCalls tr (mk_pool connectionString maximumConnections, w)).1.m_connections = [] := by
  obtain ⟨_, h2⟩ := execCalls_bounded_owns_nothing tr
    (mk_pool connectionString maximumConnections, w) hmax rfl
  refine ⟨?_, h2⟩
  simp only [TotalConnectionsCount, h2, List.length_nil]
  exact Int.le_of_lt hmax

/-- A pool with bound 2 is asked for two connections. -/
theorem C18_capacity_invariant_witness :
    (execCalls
        [(Env.const CONNECTION_OK true, PoolCall.GetConnection),
         (Env.const CONNECTION_OK true, PoolCall.GetConnection)]
        (mk_pool "T" 2, World.empty)).1.TotalConnectionsCount ≤ 2 :=
  (C18_capacity_invariant "T" 2 World.empty
    [(Env.const CONNECTION_OK true, PoolCall.GetConnection),
     (Env.const CONNECTION_OK true, PoolCall.GetConnection)] (by decide)).1

/-! ## C19: the non-blocking guard -/

/-- C19 (the code at the failing input): a handle on connection 0, which is in blocking
mode.  `asNonBlocking` returns a guard that remembers the mode `false`, and the connection
is still in blocking mode: the operations of `pg_connection_busy` observe
`isNonBlocking() = false`.  When the guard is destroyed the mode is `false`, equal to the
mode read before the guard was made. -/
theorem C19_guard_leaves_connection_blocking :
    ((PGSQL.standalone 0 "T").asNonBlocking (fun _ => false)).map
        (fun r => (r.1, isNonBlocking r.2 0))
      = some ({ m_conn := 0, m_mode := false }, false) ∧
    (pg_connection_busy_modes (PGSQL.standalone 0 "T") (fun _ => false)).map
        (fun r => (r.1, isNonBlocking r.2 0))
      = some (false, false) := by
  decide

/-! ## C20: the display string -/

/-- C20: the display string of a freshly constructed pool is empty.  A call leaves an
empty display string empty unless it is a `GetConnection` that allocated a connection and
returned it to the caller; after such a call the string is `"host=" H " port=" P " user=" U
" dbname=" D`, made only of what that session reports as host, port, user and database
(neither the connection string of the pool nor a password occurs in it), and it is not
empty.  Once the string is not empty, no call and no sequence of `GetConnection`,
`Release`, `CloseAllConnections` and `CloseFreeConnections` calls changes it, whatever
later sessions report. -/
theorem C20_display_string_computed_once :
    (∀ (connectionString : String) (maximumConnections : Int),
      (mk_pool connectionString maximumConnections).m_cleanedConnectionString = "") ∧
    (∀ (env : Env) (call : PoolCall) (p : PGSQLConnectionPool) (w : World),
      p.m_cleanedConnectionString = "" →
      (PoolCall.exec env call p w).2.1.m_cleanedConnectionString ≠ "" →
      call = PoolCall.GetConnection ∧
      (PoolCall.exec env call p w).1 = some w.allocated ∧
      (PoolCall.exec env call p w).2.2.allocated = w.allocated + 1 ∧
      (PoolCall.exec env call p w).2.1.m_cleanedConnectionString
        = "host=" ++ env.host w.allocated ++ " port=" ++ env.port w.allocated ++ " user="
            ++ env.user w.allocated ++ " dbname=" ++ env.db w.allocated) ∧
    (∀ (env : Env) (p p1 : PGSQLConnectionPool) (w w1 : World) (c : Conn),
      p.m_cleanedConnectionString = "" →
      GetConnection env p w = (GetResult.conn c, p1, w1) →
      w1.allocated = w.allocated + 1 →
      p1.m_cleanedConnectionString
        = "host=" ++ env.host c ++ " port=" ++ env.port c ++ " user=" ++ env.user c
            ++ " dbname=" ++ env.db c ∧
      p1.m_cleanedConnectionString ≠ "") ∧
    (∀ (tr : List (Env × PoolCall)) (p : PGSQLConnectionPool) (w : World),
      p.m_cleanedConnectionString ≠ "" →
      (execCalls tr (p, w)).1.m_cleanedConnectionString = p.m_cleanedConnectionString) := by
  refine ⟨fun _ _ => rfl, ?_, ?_, ?_⟩
  · intro env call p w he hne
    rcases exec_cleaned env call p w with hk | ⟨_, h1, h2, h3, h4⟩
    · rw [hk] at hne
      exact absurd he hne
    · exact ⟨h1, h2, h3, h4⟩
  · intro env p p1 w w1 c he hg hal
    have key := exec_cleaned env PoolCall.GetConnection p w
    simp only [PoolCall.exec, hg] at key
    rcases key with hk | ⟨_, _, h2, _, h4⟩
    · exfalso
      rcases GetConnection_cases env p w with ⟨c2, p2, w2, hl, hg2⟩ | ⟨p2, w2, hl, hg2⟩
      · obtain ⟨_, _, _, _, _, _, _, hal2, _, _⟩ :=
          GetConnection.popLoop_frame env _ _ _ _ _ _ hl
        rw [hg2] at hg
        simp only [Prod.mk.injEq] at hg
        rw [hg.2.2] at hal2
        rw [hal2] at hal
        exact absurd hal (by simp)
      · obtain ⟨_, _, hcl, _, _, _, _, _, _, _⟩ :=
          GetConnection.popLoop_frame env _ _ _ _ _ _ hl
        simp only at hcl
        rw [hg2] at hg
        rcases GetConnection.openPath_cases env p2 w2 with
          ⟨_, ho⟩ | ⟨_, _, ho⟩ | ⟨_, _, ho⟩ | ⟨_, _, _, ho⟩
        · rw [ho] at hg
          simp at hg
        · rw [ho] at hg
          simp only [Prod.mk.injEq] at hg
          have h5 := GetConnection.cleaned_of_empty env w2.allocated
            { p2 with
              m_openedConnections := p2.m_openedConnections + 1
              m_connections := p2.m_connections ++ [w2.allocated] } (by simpa [hcl] using he)
          rw [hg.2.1, hk, he] at h5
          exact displayString_ne_empty _ _ _ _ h5.symm
        · rw [ho] at hg
          simp at hg
        · rw [ho] at hg
          simp only [Prod.mk.injEq] at hg
          have h5 := GetConnection.cleaned_of_empty env w2.allocated p2
            (by rw [hcl]; exact he)
          rw [hg.2.1, hk, he] at h5
          exact displayString_ne_empty _ _ _ _ h5.symm
    · simp only [Option.some.injEq] at h2
      subst h2
      exact ⟨h4, by rw [h4]; exact displayString_ne_empty _ _ _ _⟩
  · intro tr p w h
    exact execCalls_cleaned_of_filled tr (p, w) h

/-- A fresh unbounded pool opens its first connection: the display string is built
from what the session reports. -/
theorem C20_display_string_computed_once_witness :
    (GetConnection (Env.const CONNECTION_OK true) (mk_pool "T" (-1))
        World.empty).2.1.m_cleanedConnectionString
      = "host=" ++ (Env.const CONNECTION_OK true).host 0 ++ " port="
          ++ (Env.const CONNECTION_OK true).port 0 ++ " user="
          ++ (Env.const CONNECTION_OK true).user 0 ++ " dbname="
          ++ (Env.const CONNECTION_OK true).db 0 :=
  (C20_display_string_computed_once.2.2.1 (Env.const CONNECTION_OK true) (mk_pool "T" (-1))
    (GetConnection (Env.const CONNECTION_OK true) (mk_pool "T" (-1)) World.empty).2.1
    World.empty
    (GetConnection (Env.const CONNECTION_OK true) (mk_pool "T" (-1)) World.empty).2.2
    0 rfl (by decide) (by decide)).1

/-! ## C21: notices -/

/-- C21 as stated fails: with the initial configuration (`IgnoreNotice = false`,
`LogNotice = false`) a handle is set up and the notice "n" is delivered to its callback.
The notice is stored, but `raise_notice` is not called. -/
theorem C21_notice_not_forwarded_by_default :
    ¬ (∀ (cfg : NoticeConfig) (env : Env) (pass options : Conn → String) (this : Nat)
        (handles : HandleHeap) (regs : NoticeProcessors) (h : PGSQL) (c : Conn)
        (message : String) (log : List String),
        cfg.IgnoreNotice = false → handles[this]? = some h → h.m_conn = some c →
        (deliverNotices cfg
            (PGSQL.SetupInformation cfg env pass options this handles regs).2 c [message]
            ((PGSQL.SetupInformation cfg env pass options this handles regs).1, log)).2
          = log ++ [message]) := by
  intro hall
  have h1 := hall NoticeConfig.initial (Env.const CONNECTION_OK true) (fun _ => "")
    (fun _ => "") 0 [PGSQL.standalone 0 "T"] (fun _ => none) (PGSQL.standalone 0 "T") 0
    "n" [] rfl rfl rfl
  revert h1
  decide

/-- C21 (amended): for a handle that holds a connection and is set up while
`IgnoreNotice` is false, after any notices delivered to the callback of its connection the
last notice of the handle (what `pg_last_notice` returns) is the text of the most recent
one; and the notices are passed to `raise_notice`, once each and in order, when
`LogNotice` is true, and not at all when `LogNotice` is false. -/
theorem C21_notice_capture (cfg : NoticeConfig) (env : Env) (pass options : Conn → String)
    (this : Nat) (handles : HandleHeap) (regs : NoticeProcessors) (h : PGSQL) (c : Conn)
    (msgs : List String) (message : String) (log : List String)
    (hign : cfg.IgnoreNotice = false) (hh : handles[this]? = some h)
    (hc : h.m_conn = some c) :
    pg_last_notice
        (deliverNotices cfg
          (PGSQL.SetupInformation cfg env pass options this handles regs).2 c
          (msgs ++ [message])
          ((PGSQL.SetupInformation cfg env pass options this handles regs).1, log)).1 this
      = some message ∧
    (deliverNotices cfg
        (PGSQL.SetupInformation cfg env pass options this handles regs).2 c
        (msgs ++ [message])
        ((PGSQL.SetupInformation cfg env pass options this handles regs).1, log)).2
      = log ++ (if cfg.LogNotice then msgs ++ [message] else []) := by
  obtain ⟨hreg, hlen⟩ := PGSQL.SetupInformation_registers cfg env pass options this handles
    regs h c hign hh hc
  have hlt : this < handles.length := by
    rcases Nat.lt_or_ge this handles.length with hl | hl
    · exact hl
    · rw [List.getElem?_eq_none hl] at hh
      exact absurd hh (by simp)
  exact deliverNotices_registered cfg _ c this message hreg msgs _ log (by rw [hlen]; exact hlt)

/-- Two notices are delivered while `LogNotice` is true: the last notice of the handle
is the second one. -/
theorem C21_notice_capture_witness :
    pg_last_notice
        (deliverNotices { IgnoreNotice := false, LogNotice := true }
          (PGSQL.SetupInformation { IgnoreNotice := false, LogNotice := true }
            (Env.const CONNECTION_OK true) (fun _ => "") (fun _ => "") 0
            [PGSQL.standalone 0 "T"] (fun _ => none)).2 0
          (["first"] ++ ["second"])
          ((PGSQL.SetupInformation { IgnoreNotice := false, LogNotice := true }
            (Env.const CONNECTION_OK true) (fun _ => "") (fun _ => "") 0
            [PGSQL.standalone 0 "T"] (fun _ => none)).1, [])).1 0
      = some "second" :=
  (C21_notice_capture { IgnoreNotice := false, LogNotice := true }
    (Env.const CONNECTION_OK true) (fun _ => "") (fun _ => "") 0 [PGSQL.standalone 0 "T"]
    (fun _ => none) (PGSQL.standalone 0 "T") 0 ["first"] "second" [] rfl rfl rfl).1

/-! ## C22: the capacity test as the source has it -/

/-- C22: in a pool with `max > 0`, let the loop of `GetConnection` end without returning
a connection, leaving the pool `p2`; `owned_count` is the size of the owned set of `p2`,
that is, after the pruning of that call.  If `owned_count < max` the call ends in the
error "The connection pool is full, cannot open new connection.": nothing is allocated,
the pool is left as the loop left it, `opened` and `errors` are what they were before the
call and `requested` is one more.  If `owned_count >= max` the call does not end in that
error.  When no connection of the idle queue reports `CONNECTION_BAD`, nothing is pruned
and the owned set is the one before the call. -/
theorem C22_observed_capacity_test (env : Env) (p p2 : PGSQLConnectionPool) (w w2 : World)
    (hmax : p.m_maximumConnections > 0)
    (hloop : GetConnection.popLoop env p.m_availableConnections
      { p with m_requestedConnections := p.m_requestedConnections + 1 } w = (none, p2, w2)) :
    ((p2.m_connections.length : Int) < p.m_maximumConnections →
      GetConnection env p w
        = (GetResult.raise_error "The connection pool is full, cannot open new connection.",
            p2, GetConnection.logSqlConn env w2) ∧
      (GetConnection env p w).2.2.allocated = w.allocated ∧
      (GetConnection env p w).2.1.m_openedConnections = p.m_openedConnections ∧
      (GetConnection env p w).2.1.m_errors = p.m_errors ∧
      (GetConnection env p w).2.1.m_requestedConnections = p.m_requestedConnections + 1) ∧
    ((p2.m_connections.length : Int) ≥ p.m_maximumConnections →
      (GetConnection env p w).1
        ≠ GetResult.raise_error "The connection pool is full, cannot open new connection.") ∧
    ((∀ c ∈ p.m_availableConnections, env.status c ≠ CONNECTION_BAD) →
      p2.m_connections = p.m_connections) := by
  obtain ⟨hm, _, _, hop, hreq, _, herr, hal, _, _⟩ :=
    GetConnection.popLoop_frame env _ _ _ _ _ _ hloop
  simp only at hm hop hreq herr hal
  rw [GetConnection_of_loop_none env p p2 w w2 hloop]
  refine ⟨?_, ?_, ?_⟩
  · intro hlt
    have hfull : GetConnection.raisesFull p2 := by
      unfold GetConnection.raisesFull
      rw [hm]
      exact ⟨hmax, hlt⟩
    rcases GetConnection.openPath_cases env p2 w2 with
      ⟨_, ho⟩ | ⟨hn, _, _⟩ | ⟨hn, _, _⟩ | ⟨hn, _, _, _⟩
    · rw [ho]
      refine ⟨rfl, ?_, hop, herr, hreq⟩
      simp only [GetConnection.logSqlConn_allocated]
      exact hal
    · exact absurd hfull hn
    · exact absurd hfull hn
    · exact absurd hfull hn
  · intro hge
    have hnf : ¬ GetConnection.raisesFull p2 := by
      unfold GetConnection.raisesFull
      rw [hm]
      intro hf
      exact absurd hf.2 (not_lt.2 hge)
    rcases GetConnection.openPath_cases env p2 w2 with
      ⟨hf, _⟩ | ⟨_, _, ho⟩ | ⟨_, _, ho⟩ | ⟨_, _, _, ho⟩
    · exact absurd hf hnf
    · rw [ho]
      simp
    · rw [ho]
      simp only [ne_eq, GetResult.raise_error.injEq]
      exact poolFullMessage_ne_openFailedMessage
    · rw [ho]
      simp
  · intro hq
    exact (GetConnection.popLoop_no_bad env _ _ _ _ _ _ hloop hq).1

/-- A fresh pool with bound 2: the first `GetConnection` ends in the capacity error. -/
theorem C22_observed_capacity_test_witness :
    (GetConnection (Env.const CONNECTION_OK true) (mk_pool "T" 2) World.empty).2.1.m_requestedConnections
      = 0 + 1 :=
  ((C22_observed_capacity_test (Env.const CONNECTION_OK true) (mk_pool "T" 2)
    { mk_pool "T" 2 with m_requestedConnections := 1 } World.empty World.empty
    (by decide) (by decide)).1 (by decide)).2.2.2.2

/-! ## C23: the pools of the registry are unbounded -/

/-- C23: after every sequence of `GetPool` calls and of calls (`GetConnection`, `Release`,
`CloseAllConnections`, `CloseFreeConnections`) on the pools that the registry has created,
made on the registry of a starting process, every pool of the registry has the bound `-1`,
the default of the constructor, and `GetConnection` on it does not end in the capacity
error, whatever it owns and whatever the sessions report. -/
theorem C23_registry_pools_unbounded (ops : List RegistryOp) (w : World) :
    ∀ p ∈ (RegistryState.run ops (RegistryState.init w)).heap,
      p.m_maximumConnections = -1 ∧
      ∀ (env : Env) (w1 : World),
        (GetConnection env p w1).1
          ≠ GetResult.raise_error "The connection pool is full, cannot open new connection." := by
  intro p hp
  have hmax := RegistryState.run_default_bound ops (RegistryState.init w)
    (by simp [RegistryState.init]) p hp
  refine ⟨hmax, ?_⟩
  intro env w1
  exact GetConnection_unbounded_not_full env p w1 (by rw [hmax]; decide)

/-- The pool of descriptor "T" after it has opened a connection: its bound is `-1`. -/
theorem C23_registry_pools_unbounded_witness :
    ({ mk_pool "T" (-1) with
        m_cleanedConnectionString := "host=h port=5432 user=u dbname=d"
        m_connections := [0]
        m_openedConnections := 1
        m_requestedConnections := 1 } : PGSQLConnectionPool).m_maximumConnections = -1 :=
  (C23_registry_pools_unbounded
    [RegistryOp.GetPool "T",
     RegistryOp.onPool 0 (Env.const CONNECTION_OK true) PoolCall.GetConnection,
     RegistryOp.GetPool "T"]
    World.empty
    { mk_pool "T" (-1) with
      m_cleanedConnectionString := "host=h port=5432 user=u dbname=d"
      m_connections := [0]
      m_openedConnections := 1
      m_requestedConnections := 1 }
    (by decide)).1

/-! ## C24: conservation of the counters -/

/-- C24: starting from a freshly constructed pool, after every sequence of `GetConnection`
and `Release` calls in which each `Release` is applied to a connection currently checked
out and every connection reports healthy (`CONNECTION_OK`) or `CONNECTION_BAD` at every
call: `opened = owned_count + sweeped`, `requested` is the number of `GetConnection` calls
made, `released` is the number of `Release` calls made, `sweeped <= opened` and
`released <= requested`. -/
theorem C24_counter_conservation (connectionString : String) (maximumConnections : Int)
    (w : World) (tr : List (Env × PoolCall)) (s : PoolState)
    (hcalls : ∀ x ∈ tr, x.2.isGetOrRelease = true)
    (henv : ∀ x ∈ tr, x.1.OkOrBad)
    (hrun : PoolState.run tr (PoolState.init connectionString maximumConnections w) = some s) :
    s.pool.m_openedConnections = s.pool.m_connections.length + s.pool.m_sweepedConnections ∧
    s.pool.m_requestedConnections = countGetConnection tr ∧
    s.pool.m_releasedConnections = countRelease tr ∧
    s.pool.m_sweepedConnections ≤ s.pool.m_openedConnections ∧
    s.pool.m_releasedConnections ≤ s.pool.m_requestedConnections := by
  have hcnt : (PoolState.init connectionString maximumConnections w).Counted := by
    simp [PoolState.Counted, PoolState.init, mk_pool]
  have hcons : (PoolState.init connectionString maximumConnections w).Conserved := by
    simp [PoolState.Conserved, PoolState.init, mk_pool]
  obtain ⟨⟨k1, k2⟩, k3, k4⟩ := PoolState.run_conserved tr _ s
    (fun x hx => ⟨henv x hx, hcalls x hx⟩) hrun hcnt hcons
  have e1 : (PoolState.init connectionString maximumConnections w).pool.m_requestedConnections
      = 0 := rfl
  have e2 : (PoolState.init connectionString maximumConnections w).pool.m_releasedConnections
      = 0 := rfl
  rw [e1, Nat.zero_add] at k3
  rw [e2, Nat.zero_add] at k4
  refine ⟨k1, k3, k4, ?_, ?_⟩ <;> omega

/-- Two connections are opened, both are released, the second one as
`CONNECTION_BAD`: two opened, one owned, one swept. -/
theorem C24_counter_conservation_witness :
    (2 : Nat) = ([0] : List Conn).length + 1 :=
  (C24_counter_conservation "T" (-1) World.empty
    [(Env.const CONNECTION_OK true, PoolCall.GetConnection),
     (Env.const CONNECTION_OK true, PoolCall.GetConnection),
     (Env.const CONNECTION_OK true, PoolCall.Release 0),
     (Env.const CONNECTION_BAD true, PoolCall.Release 1)]
    { pool :=
        { mk_pool "T" (-1) with
          m_cleanedConnectionString := "host=h port=5432 user=u dbname=d"
          m_availableConnections := [0]
          m_connections := [0]
          m_sweepedConnections := 1
          m_openedConnections := 2
          m_requestedConnections := 2
          m_releasedConnections := 2 }
      world := { allocated := 2, finished := [1], sqlConnLogged := 0 }
      checkedOut := [] }
    (by decide)
    (by
      intro x hx
      simp only [List.mem_cons, List.mem_singleton, List.not_mem_nil, or_false] at hx
      rcases hx with rfl | rfl | rfl | rfl
      · exact Env.const_ok_OkOrBad
      · exact Env.const_ok_OkOrBad
      · exact Env.const_ok_OkOrBad
      · exact Env.const_bad_OkOrBad true)
    (by decide)).1

end HPHP
